import Mathlib

/-!
# sec-lsm-manager: the SELinux and SMACK backends, the client and the daemon

A shallow embedding of the C code.  A C string is the list of its bytes before
the terminating NUL; a pointer that the code tests against NULL is an `Option`;
a status code is an `Int` (negative on failure, as `-errno`).
-/

namespace SecLsmManager

/-- A C string: the bytes before the terminating NUL. -/
abbrev CStr := List Char

def EINVAL : Int := 22
def ENOMEM : Int := 12
def ENOENT : Int := 2

/-- Size of the line buffers of selinux-template.c. -/
def MAX_LINE_SIZE_MODULE : Nat := 2048

def REPLACE_APP : CStr := ['~', 'A', 'P', 'P', '~']
def REPLACE_ID : CStr := ['~', 'I', 'D', '~']

def DEFAULT_SELINUX_TE_TEMPLATE_FILE : CStr := "/usr/share/security-manager/app-template.te".toList
def DEFAULT_SELINUX_IF_TEMPLATE_FILE : CStr := "/usr/share/security-manager/app-template.if".toList
def DEFAULT_SELINUX_RULES_DIR : CStr := "/usr/share/security-manager/selinux-policy/".toList

def TE_EXTENSION : CStr := ['.', 't', 'e']
def FC_EXTENSION : CStr := ['.', 'f', 'c']
def IF_EXTENSION : CStr := ['.', 'i', 'f']
def PP_EXTENSION : CStr := ['.', 'p', 'p']

/-- The struct selinux_module of selinux-template.c; a NULL field is none. -/
structure selinux_module_t where
  id : Option CStr
  selinux_id : Option CStr
  selinux_te_file : Option CStr
  selinux_if_file : Option CStr
  selinux_fc_file : Option CStr
  selinux_pp_file : Option CStr
  selinux_rules_dir : Option CStr
  selinux_te_template_file : Option CStr
  selinux_if_template_file : Option CStr
deriving DecidableEq

/-- The process environment read through secure_getenv. -/
structure Environ where
  SELINUX_TE_TEMPLATE_FILE : Option CStr
  SELINUX_IF_TEMPLATE_FILE : Option CStr
  SELINUX_RULES_DIR : Option CStr

/-- The function free_path_module_files: the four path fields become NULL. -/
def free_path_module_files (m : selinux_module_t) : selinux_module_t :=
  { m with selinux_pp_file := none, selinux_if_file := none,
           selinux_fc_file := none, selinux_te_file := none }

/-- The function free_selinux_module: every field becomes NULL. -/
def free_selinux_module (m : selinux_module_t) : selinux_module_t :=
  { free_path_module_files { m with id := none, selinux_id := none } with
      selinux_rules_dir := none, selinux_te_template_file := none,
      selinux_if_template_file := none }

/-- The function generate_path_module_files.  Each path is built by strcpy of the
rules directory, strcat of the id and strcat of the extension.  The argument
malloc_ok tells whether the k-th malloc of the call (te, fc, if, pp) succeeds. -/
def generate_path_module_files (malloc_ok : Nat → Bool) (m : selinux_module_t) :
    Int × selinux_module_t :=
  match m.selinux_rules_dir with
  | none => (-EINVAL, m)
  | some rules_dir =>
    match m.id with
    | none => (-EINVAL, m)
    | some id =>
      if !malloc_ok 0 then (-ENOMEM, free_path_module_files m) else
      let m := { m with selinux_te_file := some (rules_dir ++ id ++ TE_EXTENSION) }
      if !malloc_ok 1 then (-ENOMEM, free_path_module_files m) else
      let m := { m with selinux_fc_file := some (rules_dir ++ id ++ FC_EXTENSION) }
      if !malloc_ok 2 then (-ENOMEM, free_path_module_files m) else
      let m := { m with selinux_if_file := some (rules_dir ++ id ++ IF_EXTENSION) }
      if !malloc_ok 3 then (-ENOMEM, free_path_module_files m) else
      let m := { m with selinux_pp_file := some (rules_dir ++ id ++ PP_EXTENSION) }
      (0, m)

/-- The function dash_to_underscore, on the bytes of a non-NULL string. -/
def dash_to_underscore : CStr → CStr
  | [] => []
  | c :: s => (if c = '-' then '_' else c) :: dash_to_underscore s

def get_selinux_te_template_file (env : Environ) (value : Option CStr) : CStr :=
  match value with
  | some v => v
  | none =>
    match env.SELINUX_TE_TEMPLATE_FILE with
    | some v => v
    | none => DEFAULT_SELINUX_TE_TEMPLATE_FILE

def get_selinux_if_template_file (env : Environ) (value : Option CStr) : CStr :=
  match value with
  | some v => v
  | none =>
    match env.SELINUX_IF_TEMPLATE_FILE with
    | some v => v
    | none => DEFAULT_SELINUX_IF_TEMPLATE_FILE

def get_selinux_rules_dir (env : Environ) (value : Option CStr) : CStr :=
  match value with
  | some v => v
  | none =>
    match env.SELINUX_RULES_DIR with
    | some v => v
    | none => DEFAULT_SELINUX_RULES_DIR

/-- The all-NULL module left by memset. -/
def selinux_module_zero : selinux_module_t :=
  ⟨none, none, none, none, none, none, none, none, none⟩

/-- The function init_selinux_module.  The argument alloc_ok tells whether the
k-th allocation of the call succeeds: the two strdup, then the four malloc of
generate_path_module_files. -/
def init_selinux_module (env : Environ) (alloc_ok : Nat → Bool) (id : Option CStr)
    (selinux_te_template_file selinux_if_template_file selinux_rules_dir : Option CStr) :
    Int × selinux_module_t :=
  match id with
  | none => (-EINVAL, selinux_module_zero)
  | some id =>
    let m : selinux_module_t :=
      { selinux_module_zero with
          selinux_rules_dir := some (get_selinux_rules_dir env selinux_rules_dir),
          selinux_te_template_file :=
            some (get_selinux_te_template_file env selinux_te_template_file),
          selinux_if_template_file :=
            some (get_selinux_if_template_file env selinux_if_template_file) }
    if !alloc_ok 0 then (-ENOMEM, free_selinux_module m) else
    let m := { m with id := some id }
    if !alloc_ok 1 then (-ENOMEM, free_selinux_module m) else
    let m := { m with selinux_id := some (dash_to_underscore id) }
    let r := generate_path_module_files (fun k => alloc_ok (k + 2)) m
    if r.1 < 0 then (r.1, free_selinux_module r.2) else (0, r.2)

/-! ## Template substitution -/

/-- Result of running a piece of code that has a loop or can leave defined C:
the value returned, undefined behaviour (a write past the end of a buffer, a
NULL handle passed to a library), or a loop still running after the given
number of turns. -/
inductive Run (α : Type) where
  | done (a : α)
  | undefined
  | out_of_fuel

/-- The function strstr of the C library, as the offset of the first occurrence
of needle in hay (none for NULL). -/
def strstr : CStr → CStr → Option Nat
  | [], needle => if needle = [] then some 0 else none
  | c :: hay, needle =>
    if needle <+: c :: hay then some 0
    else (strstr hay needle).map (· + 1)

/-- One substitution loop of parse_line:
while ((pos_str = strstr(line, token))) followed by the three strcpy.
The line lives in a buffer of MAX_LINE_SIZE_MODULE bytes (the array of the
caller template_to_module) and the local array after has the same size: the
copies stay inside both exactly when the new line with its NUL fits, and the
run is undefined otherwise.  The first argument bounds the number of turns. -/
def replace_loop (token repl : CStr) : Nat → CStr → Run CStr
  | fuel, line =>
    match strstr line token with
    | none => .done line
    | some pos =>
      match fuel with
      | 0 => .out_of_fuel
      | fuel + 1 =>
        let after := line.drop (pos + token.length)
        if after.length < MAX_LINE_SIZE_MODULE ∧
            pos + repl.length + after.length < MAX_LINE_SIZE_MODULE then
          replace_loop token repl fuel (line.take pos ++ repl ++ after)
        else .undefined

/-- The function parse_line of selinux-template.c on non-NULL arguments: the
status (always 0) and the rewritten line.  The ~ID~ loop runs first, then the
~APP~ loop; fuel bounds the turns of each loop. -/
def parse_line (fuel : Nat) (line id selinux_id : CStr) : Run (Int × CStr) :=
  match replace_loop REPLACE_ID id fuel line with
  | .done line1 =>
    match replace_loop REPLACE_APP selinux_id fuel line1 with
    | .done line2 => .done (0, line2)
    | .undefined => .undefined
    | .out_of_fuel => .out_of_fuel
  | .undefined => .undefined
  | .out_of_fuel => .out_of_fuel

/-! ## Files and library calls -/

/-- The bytes of a file. -/
abbrev Bytes := List Char

/-- The file system: the content of each existing file. -/
abbrev FileSystem := CStr → Option Bytes

def FileSystem.write (fs : FileSystem) (path : CStr) (content : Bytes) : FileSystem :=
  fun p => if p = path then some content else fs p

def FileSystem.erase (fs : FileSystem) (path : CStr) : FileSystem :=
  fun p => if p = path then none else fs p

/-- Outcomes of the calls that leave selinux-template.c.  Each field is the
value the code holds in rc once the call and its errno fix-up are done:
negative (-errno) when the call fails, non-negative when it succeeds.
fputs depends on the file, the bytes already written and the string.
remove_file (utils.h) and launch_compile (selinux-compile.h) are not in the
sources: remove_file gives the status of the removal, launch_compile its
status and the file system it leaves. -/
structure Calls where
  fopen_r : CStr → Int
  fopen_w : CStr → Int
  fputs : CStr → Bytes → CStr → Int
  fclose_r : CStr → Int
  fclose_w : CStr → Int
  remove_file : CStr → Int
  launch_compile : FileSystem → Int × FileSystem

/-- Bytes taken by one fgets into a buffer with room for n bytes and the NUL:
up to n bytes, stopping after a newline; and the rest of the stream. -/
def read_line : Nat → Bytes → Bytes × Bytes
  | 0, s => ([], s)
  | _ + 1, [] => ([], [])
  | n + 1, c :: s =>
    if c = '\n' then ([c], s)
    else (c :: (read_line n s).1, (read_line n s).2)

/-- The function fgets of the C library on a stream given by its unread bytes:
none (NULL) at end of file, else the bytes stored and the rest. -/
def fgets (size : Nat) (stream : Bytes) : Option (Bytes × Bytes) :=
  if stream = [] then none else some (read_line (size - 1) stream)

/-- The C string held by a buffer: its bytes before the first NUL. -/
def c_str (buf : Bytes) : CStr := buf.takeWhile (fun c => c ≠ '\x00')

/-- The loop while (fgets(line, MAX_LINE_SIZE_MODULE, f_template)) of
template_to_module.  Arguments: a bound on the turns, the unread bytes of the
template, the bytes written to the module so far, the current rc.
Result: rc at the exit of the loop and the bytes written. -/
def template_to_module_loop (os : Calls) (fuel : Nat) (module id selinux_id : CStr) :
    Nat → Bytes → Bytes → Int → Run (Int × Bytes)
  | n, stream, written, rc =>
    match fgets MAX_LINE_SIZE_MODULE stream with
    | none => .done (rc, written)
    | some (buf, rest) =>
      match n with
      | 0 => .out_of_fuel
      | n + 1 =>
        match parse_line fuel (c_str buf) id selinux_id with
        | .done (rc1, line) =>
          if rc1 < 0 then .done (rc1, written)
          else if os.fputs module written line < 0 then
            .done (os.fputs module written line, written)
          else
            template_to_module_loop os fuel module id selinux_id n rest (written ++ line)
              (os.fputs module written line)
        | .undefined => .undefined
        | .out_of_fuel => .out_of_fuel

/-- The function template_to_module on non-NULL arguments.  fopen for reading
fails on a missing file; fopen for writing creates or truncates the module;
the template is read after that.  Both exits of the loop fall through the
labels error2 and error1, where rc is assigned the result of each fclose. -/
def template_to_module (os : Calls) (fuel : Nat) (fs : FileSystem)
    (template module id selinux_id : CStr) : Run (Int × FileSystem) :=
  if os.fopen_r template < 0 then .done (os.fopen_r template, fs)
  else if (fs template).isNone then .done (-ENOENT, fs)
  else if os.fopen_w module < 0 then
    -- rc = -errno; goto error1; rc = fclose(f_template)
    .done (os.fclose_r template, fs)
  else
    let fs1 := fs.write module []
    let stream := (fs1 template).getD []
    match template_to_module_loop os fuel module id selinux_id stream.length stream [] 0 with
    | .done (_, written) =>
      -- error2: rc = fclose(f_module); error1: rc = fclose(f_template)
      .done (os.fclose_r template, fs1.write module written)
    | .undefined => .undefined
    | .out_of_fuel => .out_of_fuel

/-- The function generate_app_module_te on non-NULL arguments. -/
def generate_app_module_te (os : Calls) (fuel : Nat) (fs : FileSystem)
    (selinux_te_template_file selinux_te_file id selinux_id : CStr) : Run (Int × FileSystem) :=
  match template_to_module os fuel fs selinux_te_template_file selinux_te_file id selinux_id with
  | .done (rc, fs1) => if rc < 0 then .done (rc, fs1) else .done (0, fs1)
  | .undefined => .undefined
  | .out_of_fuel => .out_of_fuel

/-- The function generate_app_module_if on non-NULL arguments. -/
def generate_app_module_if (os : Calls) (fuel : Nat) (fs : FileSystem)
    (selinux_if_template_file selinux_if_file id selinux_id : CStr) : Run (Int × FileSystem) :=
  match template_to_module os fuel fs selinux_if_template_file selinux_if_file id selinux_id with
  | .done (rc, fs1) => if rc < 0 then .done (rc, fs1) else .done (0, fs1)
  | .undefined => .undefined
  | .out_of_fuel => .out_of_fuel

/-- One entry of paths_t: a path and its type (an enum, as its number). -/
structure path_t where
  path : CStr
  path_type : Nat
deriving DecidableEq

/-- The secure_app_t fields read by the SELinux backend. -/
structure secure_app_t where
  id : Option CStr
  paths : List path_t

/-- Declarations of selinux-label.h and paths.h, which are not in the sources.
get_path_type_info gives its status, the suffix and is_public for a path type;
generate_label gives its status and the label for a selinux id and a suffix;
public_app is the global label of public paths. -/
structure LabelApi where
  get_path_type_info : Nat → Int × CStr × Bool
  generate_label : CStr → CStr → Int × CStr
  public_app : CStr

def GEN_CONTEXT_BEGIN : CStr := " gen_context(system_u:object_r:".toList
def GEN_CONTEXT_END : CStr := ",s0)\n".toList

/-- The loop over the paths of generate_app_module_fc.  Arguments: the paths
still to write, the bytes written to the .fc file so far, the current rc.
Result: rc at the label error and the bytes written.  For a public path type
label is the global public_app, which no allocation returned; free(label),
called on the too long branch and before fputs, is then undefined. -/
def generate_app_module_fc_loop (api : LabelApi) (os : Calls) (selinux_fc_file selinux_id : CStr) :
    List path_t → Bytes → Int → Run (Int × Bytes)
  | [], written, rc => .done (rc, written)
  | p :: paths, written, _ =>
    let info := api.get_path_type_info p.path_type
    if info.1 < 0 then .done (info.1, written)
    else
      let lab : Int × CStr :=
        if !info.2.2 then api.generate_label selinux_id info.2.1 else (info.1, api.public_app)
      if lab.1 < 0 then .done (lab.1, written)
      else if p.path.length + lab.2.length + 32 + 6 ≥ MAX_LINE_SIZE_MODULE then
        -- ERROR("too long"); free(label); goto error: rc is left as it is
        if info.2.2 then .undefined else .done (lab.1, written)
      else
        let line := p.path ++ GEN_CONTEXT_BEGIN ++ lab.2 ++ GEN_CONTEXT_END
        -- free(label); label = NULL; rc = fputs(line, f_module_fc)
        if info.2.2 then .undefined
        else if os.fputs selinux_fc_file written line < 0 then
          .done (os.fputs selinux_fc_file written line, written)
        else
          generate_app_module_fc_loop api os selinux_fc_file selinux_id paths (written ++ line)
            (os.fputs selinux_fc_file written line)

/-- The function generate_app_module_fc on non-NULL arguments.  Every exit of
the loop reaches the label error, where rc is assigned the result of fclose. -/
def generate_app_module_fc (api : LabelApi) (os : Calls) (fs : FileSystem)
    (selinux_fc_file : CStr) (paths : List path_t) (selinux_id : CStr) : Run (Int × FileSystem) :=
  if os.fopen_w selinux_fc_file < 0 then .done (os.fopen_w selinux_fc_file, fs)
  else
    match generate_app_module_fc_loop api os selinux_fc_file selinux_id paths [] 0 with
    | .done (_, written) => .done (os.fclose_w selinux_fc_file, fs.write selinux_fc_file written)
    | .undefined => .undefined
    | .out_of_fuel => .out_of_fuel

/-- The function remove_file of utils.h, which is not in the sources: a removal
that succeeds deletes the file. -/
def remove_file (os : Calls) (fs : FileSystem) (path : CStr) : Int × FileSystem :=
  if os.remove_file path < 0 then (os.remove_file path, fs)
  else (os.remove_file path, fs.erase path)

/-- The function generate_app_module_files. -/
def generate_app_module_files (api : LabelApi) (os : Calls) (fuel : Nat) (fs : FileSystem)
    (m : selinux_module_t) (secure_app : secure_app_t) : Run (Int × FileSystem) :=
  match m.selinux_te_template_file, m.selinux_te_file, m.selinux_fc_file,
      m.selinux_if_template_file, m.selinux_if_file, m.id, m.selinux_id with
  | some te_template, some te_file, some fc_file, some if_template, some if_file,
      some id, some selinux_id =>
    match generate_app_module_te os fuel fs te_template te_file id selinux_id with
    | .undefined => .undefined
    | .out_of_fuel => .out_of_fuel
    | .done (rc, fs1) =>
      if rc < 0 then .done (rc, fs1)
      else
        match generate_app_module_if os fuel fs1 if_template if_file id selinux_id with
        | .undefined => .undefined
        | .out_of_fuel => .out_of_fuel
        | .done (rc, fs2) =>
          if rc < 0 then .done (rc, (remove_file os fs2 te_file).2)
          else
            match generate_app_module_fc api os fs2 fc_file secure_app.paths selinux_id with
            | .undefined => .undefined
            | .out_of_fuel => .out_of_fuel
            | .done (rc, fs3) =>
              if rc < 0 then
                .done (rc, (remove_file os (remove_file os fs3 te_file).2 if_file).2)
              else .done (0, fs3)
  | _, _, _, _, _, _, _ => .done (-EINVAL, fs)

/-- The function remove_app_module_files. -/
def remove_app_module_files (os : Calls) (fs : FileSystem) (m : selinux_module_t) :
    Int × FileSystem :=
  match m.selinux_te_file, m.selinux_fc_file, m.selinux_if_file with
  | some te_file, some fc_file, some if_file =>
    let r1 := remove_file os fs te_file
    if r1.1 < 0 then r1
    else
      let r2 := remove_file os r1.2 if_file
      if r2.1 < 0 then r2
      else
        let r3 := remove_file os r2.2 fc_file
        if r3.1 < 0 then r3 else (0, r3.2)
  | _, _, _ => (-EINVAL, fs)

/-- The function remove_pp_files. -/
def remove_pp_files (os : Calls) (fs : FileSystem) (m : selinux_module_t) : Int × FileSystem :=
  match m.selinux_pp_file with
  | some pp_file =>
    let r := remove_file os fs pp_file
    if r.1 < 0 then r else (0, r.2)
  | none => (-EINVAL, fs)

/-! ## The policy store (libsemanage) -/

/-- Calls made to libsemanage, in the order of the trace. -/
inductive StoreCall where
  | handle_create
  | set_create_store
  | connect
  | set_default_priority
  | disconnect
  | handle_destroy
  | module_install_file (pp_file : Option CStr)
  | commit
  | module_remove (module_name : CStr)
  | module_list
deriving DecidableEq

/-- Outcomes of the libsemanage calls: whether semanage_handle_create gives a
handle, and the status returned by each of the other calls.  module_list gives
the status of semanage_module_list and, for each module listed, the status of
semanage_module_info_get_name and the name. -/
structure Semanage where
  handle_create : Bool
  connect : Int
  set_default_priority : Int
  disconnect : Int
  module_install_file : Option CStr → Int
  commit : Int
  module_remove : CStr → Int
  module_list : Int × List (Int × CStr)

/-- The function destroy_semanage_handle on a non-NULL handle; connected is what
semanage_is_connected answers.  Result: the status and the calls made. -/
def destroy_semanage_handle (sm : Semanage) (connected : Bool) : Int × List StoreCall :=
  if connected then (sm.disconnect, [.disconnect, .handle_destroy])
  else (0, [.handle_destroy])

/-- The function create_semanage_handle.  Its NULL test is on the address of the
pointer and never fires, so a NULL handle reaches semanage_set_create_store.
Result: the status, whether the handle is left connected, the calls made. -/
def create_semanage_handle (sm : Semanage) : Run (Int × Bool × List StoreCall) :=
  if !sm.handle_create then .undefined
  else if sm.connect < 0 then
    .done (sm.connect, false,
      [.handle_create, .set_create_store, .connect] ++ (destroy_semanage_handle sm false).2)
  else if sm.set_default_priority ≠ 0 then
    .done (sm.set_default_priority, false,
      [.handle_create, .set_create_store, .connect, .set_default_priority]
        ++ (destroy_semanage_handle sm true).2)
  else
    .done (0, true, [.handle_create, .set_create_store, .connect, .set_default_priority])

/-- The function install_module on a non-NULL handle. -/
def install_module (sm : Semanage) (selinux_pp_file : Option CStr) : Int × List StoreCall :=
  if sm.module_install_file selinux_pp_file < 0 then
    (sm.module_install_file selinux_pp_file, [.module_install_file selinux_pp_file])
  else if sm.commit < 0 then (sm.commit, [.module_install_file selinux_pp_file, .commit])
  else (0, [.module_install_file selinux_pp_file, .commit])

/-- The function create_selinux_rules.  Result: the status returned, the file
system left and the calls made to libsemanage.  After the labels error4 and
error3 the code reaches end2, where rc is assigned the result of
destroy_semanage_handle. -/
def create_selinux_rules (env : Environ) (alloc_ok : Nat → Bool) (api : LabelApi) (os : Calls)
    (sm : Semanage) (fuel : Nat) (fs : FileSystem) (secure_app : secure_app_t)
    (selinux_te_template_file selinux_if_template_file selinux_rules_dir : Option CStr) :
    Run (Int × FileSystem × List StoreCall) :=
  match secure_app.id with
  | none => .done (-EINVAL, fs, [])
  | some id =>
    let init := init_selinux_module env alloc_ok (some id) selinux_te_template_file
      selinux_if_template_file selinux_rules_dir
    if init.1 < 0 then .done (init.1, fs, [])
    else
      let m := init.2
      match create_semanage_handle sm with
      | .undefined => .undefined
      | .out_of_fuel => .out_of_fuel
      | .done (rc, connected, calls) =>
        if rc < 0 then .done (rc, fs, calls)
        else if rc ≠ 0 then
          -- create_semanage_handle has destroyed the handle, which end2 uses
          .undefined
        else
          match generate_app_module_files api os fuel fs m secure_app with
          | .undefined => .undefined
          | .out_of_fuel => .out_of_fuel
          | .done (rc, fs1) =>
            if rc < 0 then
              -- goto end2
              .done ((destroy_semanage_handle sm connected).1, fs1,
                calls ++ (destroy_semanage_handle sm connected).2)
            else
              let c := os.launch_compile fs1
              if c.1 < 0 then
                -- goto error3
                .done ((destroy_semanage_handle sm connected).1,
                  (remove_app_module_files os c.2 m).2,
                  calls ++ (destroy_semanage_handle sm connected).2)
              else
                let i := install_module sm m.selinux_pp_file
                if i.1 < 0 then
                  -- goto error4
                  .done ((destroy_semanage_handle sm connected).1,
                    (remove_app_module_files os (remove_pp_files os c.2 m).2 m).2,
                    calls ++ i.2 ++ (destroy_semanage_handle sm connected).2)
                else
                  -- goto end2
                  .done ((destroy_semanage_handle sm connected).1, c.2,
                    calls ++ i.2 ++ (destroy_semanage_handle sm connected).2)

/-- The function remove_module on a non-NULL handle.  Its NULL test is on
module_name, not on the copy: when strdup fails, NULL reaches
semanage_module_remove. -/
def remove_module (sm : Semanage) (strdup_ok : Bool) (module_name : CStr) :
    Run (Int × List StoreCall) :=
  if !strdup_ok then .undefined
  else if sm.module_remove module_name < 0 then
    .done (sm.module_remove module_name, [.module_remove module_name])
  else if sm.commit < 0 then .done (sm.commit, [.module_remove module_name, .commit])
  else .done (0, [.module_remove module_name, .commit])

/-- The loop of check_module over the modules listed; the last argument is the
current rc. -/
def check_module_loop (id : CStr) : List (Int × CStr) → Int → Int
  | [], rc => rc
  | (rc_name, module_name) :: modules, _ =>
    if rc_name < 0 then rc_name
    else if module_name = id then 1
    else check_module_loop id modules rc_name

/-- The function check_module on non-NULL arguments. -/
def check_module (sm : Semanage) (id : CStr) : Int × List StoreCall :=
  if sm.module_list.1 < 0 then (sm.module_list.1, [.module_list])
  else (check_module_loop id sm.module_list.2 sm.module_list.1, [.module_list])

/-- The function check_module_in_policy.  Result: the status and the calls made
to libsemanage. -/
def check_module_in_policy (sm : Semanage) (secure_app : secure_app_t) :
    Run (Int × List StoreCall) :=
  match secure_app.id with
  | none => .done (-EINVAL, [])
  | some id =>
    match create_semanage_handle sm with
    | .undefined => .undefined
    | .out_of_fuel => .out_of_fuel
    | .done (rc, connected, calls) =>
      if rc < 0 then .done (rc, calls)
      else if rc ≠ 0 then
        -- create_semanage_handle has destroyed the handle, which is used below
        .undefined
      else
        .done ((check_module sm id).1,
          calls ++ (check_module sm id).2 ++ (destroy_semanage_handle sm connected).2)

/-- The function remove_selinux_rules.  Result: the status returned, the file
system left and the calls made to libsemanage.  The two removals of
rc = remove_app_module_files(...) + remove_pp_files(...) act on different
files and are taken from left to right.  alloc_ok 6 is the strdup of
remove_module.  After remove_module the code reaches end2, where rc is assigned
the result of destroy_semanage_handle. -/
def remove_selinux_rules (env : Environ) (alloc_ok : Nat → Bool) (os : Calls) (sm : Semanage)
    (fs : FileSystem) (secure_app : secure_app_t) (selinux_rules_dir : Option CStr) :
    Run (Int × FileSystem × List StoreCall) :=
  match secure_app.id with
  | none => .done (-EINVAL, fs, [])
  | some id =>
    let init := init_selinux_module env alloc_ok (some id) none none selinux_rules_dir
    if init.1 < 0 then .done (init.1, fs, [])
    else
      let m := init.2
      let r1 := remove_app_module_files os fs m
      let r2 := remove_pp_files os r1.2 m
      if r1.1 + r2.1 < 0 then
        -- goto end
        .done (r1.1 + r2.1, r2.2, [])
      else
        match create_semanage_handle sm with
        | .undefined => .undefined
        | .out_of_fuel => .out_of_fuel
        | .done (rc, connected, calls) =>
          if rc < 0 then .done (rc, r2.2, calls)
          else if rc ≠ 0 then
            -- create_semanage_handle has destroyed the handle, which is used below
            .undefined
          else
            match remove_module sm (alloc_ok 6) id with
            | .undefined => .undefined
            | .out_of_fuel => .out_of_fuel
            | .done (_, removal) =>
              .done ((destroy_semanage_handle sm connected).1, r2.2,
                calls ++ removal ++ (destroy_semanage_handle sm connected).2)

/-! ## The SMACK rules (src/smack-template.c) -/

def MAX_ACCESS_SIZE : Nat := 6
def SMACK_COMMENT_CHAR : Char := '#'
def DEFAULT_SMACK_TEMPLATE_FILE : CStr := "/usr/share/security-manager/app-template.smack".toList
def DEFAULT_SMACK_RULES_DIR : CStr := "/etc/smack/accesses.d/".toList
def prefix_app_rules : CStr := "app-".toList

/-- The names of the SMACK extended attributes (linux/xattr.h). -/
def XATTR_NAME_SMACK : CStr := "security.SMACK64".toList
def XATTR_NAME_SMACKEXEC : CStr := "security.SMACK64EXEC".toList
def XATTR_NAME_SMACKTRANSMUTE : CStr := "security.SMACK64TRANSMUTE".toList

/-- A rule held by the accumulator struct smack_accesses of libsmack. -/
structure smack_rule where
  subject : CStr
  object : CStr
  access : CStr
deriving DecidableEq

/-- One entry of the table path_type_definitions (smack-label.h, not in the
sources), with the three fields that smack.c reads. -/
structure path_type_definitions_t where
  label : CStr
  is_executable : Bool
  is_transmute : Bool

/-- What the SMACK backend takes from outside smack-template.c and smack.c.
SMACK_LABEL_LEN (sys/smack.h) and suffix_exec (smack-label.h) are constants
that are not in the sources; SMACK_TEMPLATE_FILE and SMACK_RULES_DIR are the
answers of secure_getenv.  The other fields are the outcomes of calls, each the
value the code holds in rc after the call: negative when it fails.
smack_accesses_add depends on the rules already held and the rule added;
smack_accesses_save gives its status and the bytes it writes;
generate_label gives its status and the label of the application for an id;
init_path_type_definitions gives its status and the table for an id; the
check_ functions are those of utils.h. -/
structure SmackCalls where
  SMACK_LABEL_LEN : Nat
  suffix_exec : CStr
  SMACK_TEMPLATE_FILE : Option CStr
  SMACK_RULES_DIR : Option CStr
  smack_enabled : Bool
  strdup_ok : Bool
  malloc_ok : Bool
  generate_label : CStr → Int × CStr
  smack_accesses_new : Int
  smack_accesses_add : List smack_rule → smack_rule → Int
  smack_accesses_apply : List smack_rule → Int
  smack_accesses_save : List smack_rule → Int × Bytes
  smack_accesses_add_from_file : Bytes → Int
  smack_accesses_clear : Int
  open_write : CStr → Int
  open_read : CStr → Int
  init_path_type_definitions : Option CStr → Int × (Nat → path_type_definitions_t)
  check_file_exists : CStr → Bool
  check_file_type_reg : CStr → Bool
  check_file_type_dir : CStr → Bool
  check_executable : CStr → Bool
  lsetxattr : CStr → CStr → CStr → Int

/-- Calls made by the SMACK backend to libsmack, to the kernel and to the file
system, in the order of the trace. -/
inductive SmackCall where
  | smack_accesses_new
  | smack_accesses_apply
  | open_write (file : CStr) (mode : Nat)
  | smack_accesses_save
  | open_read (file : CStr)
  | smack_accesses_add_from_file
  | smack_accesses_clear
  | smack_accesses_free
  | close
  | remove_file (file : CStr)
  | lsetxattr (path name value : CStr)
deriving DecidableEq

/-- The host as the SMACK backend changes it: the files, the extended
attributes of the paths, and the calls made so far. -/
structure Host where
  fs : FileSystem
  xattr : CStr → CStr → Option CStr
  calls : List SmackCall

/-- The host after one more call. -/
def Host.call (host : Host) (c : SmackCall) : Host :=
  { host with calls := host.calls ++ [c] }

/-- The struct smack_handle once init_smack_handle has filled it: the id, the
label of the application and the rules accumulated. -/
structure smack_handle_t where
  id : CStr
  app_label : CStr
  smack_accesses : List smack_rule

/-- The macro MAX_SMACK_RULE_SIZE, the size of the array after of parse_line. -/
def MAX_SMACK_RULE_SIZE (sk : SmackCalls) : Nat := sk.SMACK_LABEL_LEN * 2 + MAX_ACCESS_SIZE + 2

/-- The function init_smack_handle on a non-NULL id.  Result: the status, the
handle (meaningful when the status is 0) and the host. -/
def init_smack_handle (sk : SmackCalls) (host : Host) (id : CStr) :
    Int × smack_handle_t × Host :=
  if !sk.strdup_ok then (-ENOMEM, ⟨[], [], []⟩, host)
  else if (sk.generate_label id).1 < 0 then ((sk.generate_label id).1, ⟨[], [], []⟩, host)
  else if sk.smack_accesses_new < 0 then
    (sk.smack_accesses_new, ⟨[], [], []⟩, host.call .smack_accesses_new)
  else (0, ⟨id, (sk.generate_label id).2, []⟩, host.call .smack_accesses_new)

/-- The function count_space on a non-NULL line. -/
def count_space (line : CStr) : Int := line.count ' '

/-- The function strtok of the C library with the delimiter " ": none (NULL)
when only spaces are left, else the next token and what follows its delimiter. -/
def strtok (s : CStr) : Option (CStr × CStr) :=
  if s.dropWhile (fun c => c = ' ') = [] then none
  else
    some ((s.dropWhile (fun c => c = ' ')).takeWhile (fun c => c ≠ ' '),
      ((s.dropWhile (fun c => c = ' ')).dropWhile (fun c => c ≠ ' ')).drop 1)

/-- The ~APP~ loop of the SMACK parse_line.  The line lives in the array of
SMACK_LABEL_LEN bytes of parse_template_file and the array after has
MAX_SMACK_RULE_SIZE bytes; a copy that leaves one of them is undefined. -/
def SmackTemplate.replace_loop (sk : SmackCalls) (app_label : CStr) : Nat → CStr → Run CStr
  | fuel, line =>
    match strstr line REPLACE_APP with
    | none => .done line
    | some pos =>
      match fuel with
      | 0 => .out_of_fuel
      | fuel + 1 =>
        let after := line.drop (pos + REPLACE_APP.length)
        if after.length < MAX_SMACK_RULE_SIZE sk ∧
            pos + app_label.length + after.length < sk.SMACK_LABEL_LEN then
          SmackTemplate.replace_loop sk app_label fuel (line.take pos ++ app_label ++ after)
        else .undefined

/-- The function parse_line of smack-template.c on a non-NULL line and a filled
handle.  Result: the status and the handle with its rules.  When strtok gives
NULL, NULL reaches strncpy; when a token fills its array, strncpy leaves it
without NUL (for access, followed by bytes never written): both are undefined.
A smack_accesses_add that fails is taken to add nothing. -/
def SmackTemplate.parse_line (sk : SmackCalls) (fuel : Nat) (line : CStr)
    (smack_handle : smack_handle_t) : Run (Int × smack_handle_t) :=
  if line.head? = some SMACK_COMMENT_CHAR then .done (0, smack_handle)
  else if line.head? = some '\n' then .done (0, smack_handle)
  else
    match SmackTemplate.replace_loop sk smack_handle.app_label fuel
        (line.takeWhile (fun c => c ≠ '\n')) with
    | .undefined => .undefined
    | .out_of_fuel => .out_of_fuel
    | .done line1 =>
      if count_space line1 ≠ 2 then .done (-EINVAL, smack_handle)
      else
        match strtok line1 with
        | none => .undefined
        | some (subject, rest1) =>
          match strtok rest1 with
          | none => .undefined
          | some (object, rest2) =>
            match strtok rest2 with
            | none => .undefined
            | some (access, _) =>
              if sk.SMACK_LABEL_LEN ≤ subject.length ∨ sk.SMACK_LABEL_LEN ≤ object.length ∨
                  MAX_ACCESS_SIZE ≤ access.length then .undefined
              else if sk.smack_accesses_add smack_handle.smack_accesses
                  ⟨subject, object, access⟩ < 0 then
                .done (sk.smack_accesses_add smack_handle.smack_accesses
                  ⟨subject, object, access⟩, smack_handle)
              else
                .done (0, { smack_handle with
                  smack_accesses := smack_handle.smack_accesses ++ [⟨subject, object, access⟩] })

/-- The loop while (rc >= 0 && fgets(line, MAX_SMACK_LABEL_SIZE, f)) of
parse_template_file.  Arguments: a bound on the turns, the unread bytes of the
template, the current rc, the handle. -/
def parse_template_file_loop (sk : SmackCalls) (fuel : Nat) :
    Nat → Bytes → Int → smack_handle_t → Run (Int × smack_handle_t)
  | n, stream, rc, smack_handle =>
    if rc < 0 then .done (rc, smack_handle)
    else
      match fgets sk.SMACK_LABEL_LEN stream with
      | none => .done (rc, smack_handle)
      | some (buf, rest) =>
        match n with
        | 0 => .out_of_fuel
        | n + 1 =>
          match SmackTemplate.parse_line sk fuel (c_str buf) smack_handle with
          | .done (rc1, handle1) => parse_template_file_loop sk fuel n rest rc1 handle1
          | .undefined => .undefined
          | .out_of_fuel => .out_of_fuel

/-- The function parse_template_file on non-NULL arguments; the result of
fclose is only logged. -/
def parse_template_file (os : Calls) (sk : SmackCalls) (fuel : Nat) (fs : FileSystem)
    (smack_template_file : CStr) (smack_handle : smack_handle_t) :
    Run (Int × smack_handle_t) :=
  if os.fopen_r smack_template_file < 0 then .done (os.fopen_r smack_template_file, smack_handle)
  else
    match fs smack_template_file with
    | none => .done (-ENOENT, smack_handle)
    | some content => parse_template_file_loop sk fuel content.length content 0 smack_handle

/-- The function get_smack_rules_file_path on non-NULL arguments: none (NULL)
when malloc fails. -/
def get_smack_rules_file_path (sk : SmackCalls) (smack_rules_dir id : CStr) : Option CStr :=
  if !sk.malloc_ok then none else some (smack_rules_dir ++ prefix_app_rules ++ id)

/-- The function apply_save_accesses_file on non-NULL arguments.  The file is
opened with O_CREAT | O_WRONLY | O_TRUNC and the mode 0644: once open it
exists and is empty; smack_accesses_save then writes its bytes. -/
def apply_save_accesses_file (sk : SmackCalls) (host : Host) (smack_rules_dir : CStr)
    (smack_handle : smack_handle_t) : Int × Host :=
  if sk.smack_enabled ∧ sk.smack_accesses_apply smack_handle.smack_accesses < 0 then
    (sk.smack_accesses_apply smack_handle.smack_accesses, host.call .smack_accesses_apply)
  else
    let host1 := if sk.smack_enabled then host.call .smack_accesses_apply else host
    match get_smack_rules_file_path sk smack_rules_dir smack_handle.id with
    | none => (-EINVAL, host1)
    | some file =>
      if sk.open_write file < 0 then (sk.open_write file, host1.call (.open_write file 0o644))
      else
        (((sk.smack_accesses_save smack_handle.smack_accesses).1),
          { fs := host1.fs.write file (sk.smack_accesses_save smack_handle.smack_accesses).2,
            xattr := host1.xattr,
            calls := host1.calls ++ [.open_write file 0o644, .smack_accesses_save, .close] })

/-- The function remove_load_rules on a non-NULL file.  open with O_RDONLY
fails on a missing file. -/
def remove_load_rules (sk : SmackCalls) (host : Host) (file : CStr) : Int × Host :=
  if sk.open_read file < 0 then (sk.open_read file, host.call (.open_read file))
  else
    match host.fs file with
    | none => (-ENOENT, host.call (.open_read file))
    | some content =>
      if sk.smack_accesses_new < 0 then
        (sk.smack_accesses_new,
          { host with calls := host.calls ++ [.open_read file, .smack_accesses_new, .close] })
      else if sk.smack_accesses_add_from_file content < 0 then
        (sk.smack_accesses_add_from_file content,
          { host with calls := host.calls ++ [.open_read file, .smack_accesses_new,
              .smack_accesses_add_from_file, .smack_accesses_free, .close] })
      else
        (sk.smack_accesses_clear,
          { host with calls := host.calls ++ [.open_read file, .smack_accesses_new,
              .smack_accesses_add_from_file, .smack_accesses_clear, .smack_accesses_free,
              .close] })

def get_smack_template_file (sk : SmackCalls) (value : Option CStr) : CStr :=
  match value with
  | some v => v
  | none =>
    match sk.SMACK_TEMPLATE_FILE with
    | some v => v
    | none => DEFAULT_SMACK_TEMPLATE_FILE

def get_smack_rules_dir (sk : SmackCalls) (value : Option CStr) : CStr :=
  match value with
  | some v => v
  | none =>
    match sk.SMACK_RULES_DIR with
    | some v => v
    | none => DEFAULT_SMACK_RULES_DIR

/-- The function create_smack_rules of smack-template.c. -/
def create_smack_rules (os : Calls) (sk : SmackCalls) (fuel : Nat) (host : Host)
    (secure_app : secure_app_t) (smack_template_file smack_rules_dir : Option CStr) :
    Run (Int × Host) :=
  match secure_app.id with
  | none => .done (-EINVAL, host)
  | some id =>
    let init := init_smack_handle sk host id
    if init.1 < 0 then .done (init.1, init.2.2)
    else
      match parse_template_file os sk fuel init.2.2.fs
          (get_smack_template_file sk smack_template_file) init.2.1 with
      | .undefined => .undefined
      | .out_of_fuel => .out_of_fuel
      | .done (rc, smack_handle) =>
        if rc < 0 then .done (rc, init.2.2.call .smack_accesses_free)
        else
          let save := apply_save_accesses_file sk init.2.2
            (get_smack_rules_dir sk smack_rules_dir) smack_handle
          if save.1 < 0 then .done (save.1, save.2.call .smack_accesses_free)
          else .done (0, save.2.call .smack_accesses_free)

/-- The function remove_smack_rules.  remove_file is the one of utils.h: the
status given by the host, a removal that succeeds deleting the file. -/
def remove_smack_rules (os : Calls) (sk : SmackCalls) (host : Host) (secure_app : secure_app_t)
    (smack_rules_dir : Option CStr) : Int × Host :=
  match secure_app.id with
  | none => (-EINVAL, host)
  | some id =>
    match get_smack_rules_file_path sk (get_smack_rules_dir sk smack_rules_dir) id with
    | none => (-EINVAL, host)
    | some file =>
      let unload := if sk.smack_enabled then remove_load_rules sk host file else (0, host)
      if unload.1 < 0 then unload
      else
        ((remove_file os unload.2.fs file).1,
          { fs := (remove_file os unload.2.fs file).2, xattr := unload.2.xattr,
            calls := unload.2.calls ++ [.remove_file file] })

/-! ## The SMACK labels of the files (src/smack.c) -/

/-- The function set_smack: lsetxattr, which sets the attribute when it
succeeds. -/
def set_smack (sk : SmackCalls) (host : Host) (path xattr value : CStr) : Int × Host :=
  if sk.lsetxattr path xattr value < 0 then
    (sk.lsetxattr path xattr value, host.call (.lsetxattr path xattr value))
  else
    (0, { fs := host.fs,
          xattr := fun p n => if p = path ∧ n = xattr then some value else host.xattr p n,
          calls := host.calls ++ [.lsetxattr path xattr value] })

/-- The function label_file. -/
def label_file (sk : SmackCalls) (host : Host) (path label : CStr) : Int × Host :=
  if !sk.check_file_exists path then (-1, host)
  else
    let r := set_smack sk host path XATTR_NAME_SMACK label
    if r.1 < 0 then r else (0, r.2)

/-- The function label_dir_transmute. -/
def label_dir_transmute (sk : SmackCalls) (host : Host) (path : CStr) : Int × Host :=
  if !sk.check_file_type_dir path then (0, host)
  else
    let r := set_smack sk host path XATTR_NAME_SMACKTRANSMUTE "TRUE".toList
    if r.1 < 0 then r else (0, r.2)

/-- The function label_exec.  The copy of the label is cut at
strlen(label) - strlen(suffix_exec), an unsigned difference: a label shorter
than the suffix gives a write outside the copy. -/
def label_exec (sk : SmackCalls) (host : Host) (path label : CStr) : Run (Int × Host) :=
  if !sk.check_file_type_reg path then .done (0, host)
  else if !sk.check_executable path then .done (0, host)
  else if label.length < sk.suffix_exec.length then .undefined
  else
    let r := set_smack sk host path XATTR_NAME_SMACKEXEC
      (label.take (label.length - sk.suffix_exec.length))
    if r.1 < 0 then .done r else .done (0, r.2)

/-- The function label_path. -/
def label_path (sk : SmackCalls) (host : Host) (path label : CStr)
    (is_executable is_transmute : Bool) : Run (Int × Host) :=
  let r := label_file sk host path label
  if r.1 < 0 then .done r
  else
    match (if is_executable then label_exec sk r.2 path label else .done (0, r.2)) with
    | .undefined => .undefined
    | .out_of_fuel => .out_of_fuel
    | .done (rc, host1) =>
      if rc < 0 then .done (rc, host1)
      else if is_transmute then
        let t := label_dir_transmute sk host1 path
        if t.1 < 0 then .done t else .done (0, t.2)
      else .done (0, host1)

/-- The function smack_process_path. -/
def smack_process_path (sk : SmackCalls) (host : Host) (path : path_t)
    (path_type_definitions : Nat → path_type_definitions_t) : Run (Int × Host) :=
  match label_path sk host path.path (path_type_definitions path.path_type).label
      (path_type_definitions path.path_type).is_executable
      (path_type_definitions path.path_type).is_transmute with
  | .undefined => .undefined
  | .out_of_fuel => .out_of_fuel
  | .done (rc, host1) => if rc < 0 then .done (rc, host1) else .done (0, host1)

/-- The loop of smack_process_paths over the paths that are left. -/
def smack_process_paths_loop (sk : SmackCalls)
    (path_type_definitions : Nat → path_type_definitions_t) : List path_t → Host → Run (Int × Host)
  | [], host => .done (0, host)
  | path :: paths, host =>
    match smack_process_path sk host path path_type_definitions with
    | .undefined => .undefined
    | .out_of_fuel => .out_of_fuel
    | .done (rc, host1) =>
      if rc < 0 then .done (rc, host1)
      else smack_process_paths_loop sk path_type_definitions paths host1

/-- The function smack_process_paths. -/
def smack_process_paths (sk : SmackCalls) (host : Host) (secure_app : secure_app_t)
    (path_type_definitions : Nat → path_type_definitions_t) : Run (Int × Host) :=
  smack_process_paths_loop sk path_type_definitions secure_app.paths host

/-- The function install_smack.  The create_smack_rules it calls is the one of
smack-template.c, with NULL for the template and the directory. -/
def install_smack (os : Calls) (sk : SmackCalls) (fuel : Nat) (host : Host)
    (secure_app : secure_app_t) : Run (Int × Host) :=
  if (sk.init_path_type_definitions secure_app.id).1 < 0 then
    .done ((sk.init_path_type_definitions secure_app.id).1, host)
  else
    match create_smack_rules os sk fuel host secure_app none none with
    | .undefined => .undefined
    | .out_of_fuel => .out_of_fuel
    | .done (rc, host1) =>
      if rc < 0 then .done (rc, host1)
      else
        match smack_process_paths sk host1 secure_app
            (sk.init_path_type_definitions secure_app.id).2 with
        | .undefined => .undefined
        | .out_of_fuel => .out_of_fuel
        | .done (rc2, host2) =>
          if rc2 < 0 then
            -- error2: the result of remove_smack_rules is only logged
            .done (rc2, (remove_smack_rules os sk host2 secure_app none).2)
          else .done (rc2, host2)

/-- The function uninstall_smack. -/
def uninstall_smack (os : Calls) (sk : SmackCalls) (host : Host) (secure_app : secure_app_t) :
    Int × Host :=
  let r := remove_smack_rules os sk host secure_app none
  if r.1 < 0 then r else (0, r.2)

/-! ## The turns of the substitution loops -/

/-- The substitution loop replace_loop with the count of its turns: the number
of replacements made and the line at the end. -/
def replace_loop_turns (token repl : CStr) : Nat → CStr → Run (Nat × CStr)
  | fuel, line =>
    match strstr line token with
    | none => .done (0, line)
    | some pos =>
      match fuel with
      | 0 => .out_of_fuel
      | fuel + 1 =>
        let after := line.drop (pos + token.length)
        if after.length < MAX_LINE_SIZE_MODULE ∧
            pos + repl.length + after.length < MAX_LINE_SIZE_MODULE then
          match replace_loop_turns token repl fuel (line.take pos ++ repl ++ after) with
          | .done (k, out) => .done (k + 1, out)
          | .undefined => .undefined
          | .out_of_fuel => .out_of_fuel
        else .undefined

/-! ## The command-line client (src/main-security-manager-cmd.c) -/

/-- A request made to the server through the library security-manager.h. -/
inductive ManagerCall where
  | clean
  | display
  | set_id (id : CStr)
  | add_path (path path_type : CStr)
  | add_permission (permission : CStr)
  | install
  | uninstall
  | log (log_on log_off : Bool)
deriving DecidableEq

/-- The library security-manager.h, which is not in the sources: the status of
a request, given the requests made before it and their statuses. -/
abbrev SecurityManager := List (ManagerCall × Int) → ManagerCall → Int

/-- The globals of the client that the commands change: last_status, id_set,
and the requests made so far through the global security_manager. -/
structure Client where
  last_status : Int
  id_set : Int
  requests : List (ManagerCall × Int)

/-- The globals when the program starts. -/
def Client.start : Client := { last_status := 0, id_set := 0, requests := [] }

/-- The statement last_status = rc = security_manager_...(security_manager, ...). -/
def Client.request (m : SecurityManager) (st : Client) (c : ManagerCall) : Client :=
  { st with last_status := m st.requests c, requests := st.requests ++ [(c, m st.requests c)] }

/-- The loop while (r < ac && strcmp(av[r], ";")) r++ of plink.  Arguments: the
words, ac - r, r.  A word read past the end of the words is undefined. -/
def plink_loop (av : List CStr) : Nat → Nat → Run Nat
  | 0, r => .done r
  | n + 1, r =>
    match av[r]? with
    | none => .undefined
    | some w => if w = ";".toList then .done r else plink_loop av n (r + 1)

/-- The function plink.  Result: the value returned and the value stored in used. -/
def plink (ac : Int) (av : List CStr) (maxi : Int) : Run (Int × Int) :=
  match plink_loop av (if maxi < ac then maxi else ac).toNat 0 with
  | .done r => .done (r, r + if (r : Int) < (if maxi < ac then maxi else ac) then 1 else 0)
  | .undefined => .undefined
  | .out_of_fuel => .out_of_fuel

/-- The function do_clean.  Result: the value returned and the globals. -/
def do_clean (m : SecurityManager) (st : Client) (ac : Int) (av : List CStr) :
    Run (Int × Client) :=
  match plink ac av 1 with
  | .undefined => .undefined
  | .out_of_fuel => .out_of_fuel
  | .done (n, uc) =>
    if n < 1 then .done (uc, { st with last_status := -EINVAL })
    else if (st.request m .clean).last_status < 0 then .done (uc, st.request m .clean)
    else .done (uc, { st.request m .clean with id_set := 0 })

/-- The function do_display. -/
def do_display (m : SecurityManager) (st : Client) (ac : Int) (av : List CStr) :
    Run (Int × Client) :=
  match plink ac av 1 with
  | .undefined => .undefined
  | .out_of_fuel => .out_of_fuel
  | .done (n, uc) =>
    if n < 1 then .done (uc, { st with last_status := -EINVAL })
    else .done (uc, st.request m .display)

/-- The function do_id. -/
def do_id (m : SecurityManager) (st : Client) (ac : Int) (av : List CStr) :
    Run (Int × Client) :=
  match plink ac av 2 with
  | .undefined => .undefined
  | .out_of_fuel => .out_of_fuel
  | .done (n, uc) =>
    if n < 2 then .done (uc, { st with last_status := -EINVAL })
    else
      match av[1]? with
      | none => .undefined
      | some id =>
        if id.length ≤ 0 then .done (uc, { st with last_status := -EINVAL })
        else if (st.request m (.set_id id)).last_status < 0 then
          .done (uc, st.request m (.set_id id))
        else .done (uc, { st.request m (.set_id id) with id_set := 1 })

/-- The function do_path. -/
def do_path (m : SecurityManager) (st : Client) (ac : Int) (av : List CStr) :
    Run (Int × Client) :=
  match plink ac av 3 with
  | .undefined => .undefined
  | .out_of_fuel => .out_of_fuel
  | .done (n, uc) =>
    if n < 3 then .done (uc, { st with last_status := -EINVAL })
    else
      match av[1]?, av[2]? with
      | some path, some path_type =>
        if path.length ≤ 0 then .done (uc, { st with last_status := -EINVAL })
        else .done (uc, st.request m (.add_path path path_type))
      | _, _ => .undefined

/-- The function do_permission.  When id_set is 0 it returns after its LOG,
last_status being left as it is. -/
def do_permission (m : SecurityManager) (st : Client) (ac : Int) (av : List CStr) :
    Run (Int × Client) :=
  match plink ac av 2 with
  | .undefined => .undefined
  | .out_of_fuel => .out_of_fuel
  | .done (n, uc) =>
    if st.id_set = 0 then .done (uc, st)
    else if n < 2 then .done (uc, { st with last_status := -EINVAL })
    else
      match av[1]? with
      | none => .undefined
      | some permission =>
        if permission.length ≤ 0 then .done (uc, { st with last_status := -EINVAL })
        else .done (uc, st.request m (.add_permission permission))

/-- The function do_install. -/
def do_install (m : SecurityManager) (st : Client) (ac : Int) (av : List CStr) :
    Run (Int × Client) :=
  match plink ac av 1 with
  | .undefined => .undefined
  | .out_of_fuel => .out_of_fuel
  | .done (n, uc) =>
    if n < 1 then .done (uc, { st with last_status := -EINVAL })
    else .done (uc, st.request m .install)

/-- The function do_uninstall. -/
def do_uninstall (m : SecurityManager) (st : Client) (ac : Int) (av : List CStr) :
    Run (Int × Client) :=
  match plink ac av 1 with
  | .undefined => .undefined
  | .out_of_fuel => .out_of_fuel
  | .done (n, uc) =>
    if n < 1 then .done (uc, { st with last_status := -EINVAL })
    else .done (uc, st.request m .uninstall)

/-- The function do_log.  With an argument that is neither on nor off it
returns after its message, last_status being left as it is. -/
def do_log (m : SecurityManager) (st : Client) (ac : Int) (av : List CStr) :
    Run (Int × Client) :=
  match plink ac av 2 with
  | .undefined => .undefined
  | .out_of_fuel => .out_of_fuel
  | .done (n, uc) =>
    if 1 < n then
      match av[1]? with
      | none => .undefined
      | some w =>
        if ¬ w = "on".toList ∧ ¬ w = "off".toList then .done (uc, st)
        else .done (uc, st.request m (.log (w = "on".toList) (w = "off".toList)))
    else .done (uc, st.request m (.log false false))

/-- The commands that do_help knows, in the order of its tests. -/
def help_topics : List CStr :=
  ["log".toList, "quit".toList, "help".toList, "clean".toList, "id".toList, "path".toList,
    "permission".toList, "install".toList, "uninstall".toList]

/-- The function do_help: 2 when ac > 1 and av[1] is one of the commands it
knows, 1 otherwise.  The texts printed are left out. -/
def do_help (ac : Int) (av : List CStr) : Run Int :=
  if 1 < ac then
    match av[1]? with
    | none => .undefined
    | some w => if w ∈ help_topics then .done 2 else .done 1
  else .done 1

/-- How a command ends: it returns to do_all, or it calls exit. -/
inductive Step where
  | returned (rc : Int) (st : Client)
  | exited (code : Int) (st : Client)

/-- A command handler that returns. -/
def Step.of (r : Run (Int × Client)) : Run Step :=
  match r with
  | .done (rc, st) => .done (.returned rc st)
  | .undefined => .undefined
  | .out_of_fuel => .out_of_fuel

/-- The function do_any. -/
def do_any (m : SecurityManager) (st : Client) (ac : Int) (av : List CStr) : Run Step :=
  if ac = 0 then .done (.returned 0 st)
  else
    match av[0]? with
    | none => .undefined
    | some w =>
      if w = "log".toList then Step.of (do_log m st ac av)
      else if w = "clean".toList then Step.of (do_clean m st ac av)
      else if w = "display".toList then Step.of (do_display m st ac av)
      else if w = "id".toList then Step.of (do_id m st ac av)
      else if w = "path".toList then Step.of (do_path m st ac av)
      else if w = "permission".toList then Step.of (do_permission m st ac av)
      else if w = "install".toList then Step.of (do_install m st ac av)
      else if w = "uninstall".toList then Step.of (do_uninstall m st ac av)
      else if w = "quit".toList then .done (.exited 0 st)
      else if w = "help".toList ∨ w = "?".toList then
        match do_help ac av with
        | .done rc => .done (.returned rc st)
        | .undefined => .undefined
        | .out_of_fuel => .out_of_fuel
      else .done (.returned 1 st)

/-- The function do_all; the echo of the words is left out.  The first
argument bounds the turns of the loop while (ac).  Result: the code given to
exit, or none when do_all returns, and the globals. -/
def do_all (m : SecurityManager) : Nat → Client → Int → List CStr → Int → Run (Option Int × Client)
  | fuel, st, ac, av, quit =>
    if ac = 0 then .done (none, st)
    else
      match fuel with
      | 0 => .out_of_fuel
      | fuel + 1 =>
        match do_any m { st with last_status := 0 } ac av with
        | .undefined => .undefined
        | .out_of_fuel => .out_of_fuel
        | .done (.exited code st1) => .done (some code, st1)
        | .done (.returned rc st1) =>
          if quit ≠ 0 ∧ (rc ≤ 0 ∨ st1.last_status < 0) then .done (some 1, st1)
          else do_all m fuel st1 (ac - rc) (av.drop rc.toNat) quit

/-- The end of main when actions are given on the command line, once the
options are scanned and security_manager_create has succeeded:
do_all(ac - optind, av + optind, 1); return 0.  Argument: the words after the
options.  Result: the exit status of the process and the globals. -/
def main_actions (m : SecurityManager) (words : List CStr) : Run (Int × Client) :=
  match do_all m words.length Client.start words.length words 1 with
  | .done (some code, st) => .done (code, st)
  | .done (none, st) => .done (0, st)
  | .undefined => .undefined
  | .out_of_fuel => .out_of_fuel

/-- The loop of main over the lines of the standard input, each line being
given by its words, as strtok cuts them into the array str of 40 pointers (a
line of 40 words or more is written past the array): do_all(nstr, str, 0).
Result: the code given to exit, or none at the end of the input. -/
def main_lines (m : SecurityManager) : List (List CStr) → Client → Run (Option Int × Client)
  | [], st => .done (none, st)
  | words :: lines, st =>
    if 40 ≤ words.length then .undefined
    else
      match do_all m words.length st words.length words 0 with
      | .done (none, st1) => main_lines m lines st1
      | .done (some code, st1) => .done (some code, st1)
      | .undefined => .undefined
      | .out_of_fuel => .out_of_fuel

/-! ## The daemon (src/main-security-managerd.c) -/

def INT_MAX : Int := 2147483647

/-- The loop and the return of isid, on the bytes left and the value so far.
value is a long long: below INT_MAX before each step, it stays far from the
bounds of its type. -/
def isid_loop : CStr → Int → Int
  | [], value => if value ≤ INT_MAX then value else -1
  | c :: text, value =>
    if value < INT_MAX then
      if c < '0' ∨ c > '9' ∨ value ≥ INT_MAX then -1
      else isid_loop text (10 * value + (c.toNat - '0'.toNat : Int))
    else if value ≤ INT_MAX then value else -1

/-- The function isid. -/
def isid (text : CStr) : Int := isid_loop text 0

/-- The loop for (;;) of enddir.  A pointer into the path is given by the bytes
from it to the end of the path; the arguments are a bound on the turns, i, c
and r. -/
def enddir_loop : Nat → CStr → Option CStr → Option CStr → Run (Option CStr)
  | 0, _, _, _ => .out_of_fuel
  | fuel + 1, i, c, r =>
    -- while (*i == '/') i++;  if (*i) r = c;  while (*i != '/') if (!*i++) return r;
    if ((i.dropWhile (fun x => x = '/')).dropWhile (fun x => x ≠ '/')) = [] then
      .done (if i.dropWhile (fun x => x = '/') ≠ [] then c else r)
    else
      enddir_loop fuel ((i.dropWhile (fun x => x = '/')).dropWhile (fun x => x ≠ '/'))
        (some ((i.dropWhile (fun x => x = '/')).dropWhile (fun x => x ≠ '/')))
        (if i.dropWhile (fun x => x = '/') ≠ [] then c else r)

/-- The function enddir: NULL (none) or the bytes from the pointer returned to
the end of the path. -/
def enddir (path : CStr) : Run (Option CStr) := enddir_loop (path.length + 1) path none none

/-! ## Vocabulary of the statements -/

/-- A host on which every library call succeeds and the compiler changes nothing. -/
def calls_ok : Calls :=
  { fopen_r := fun _ => 0, fopen_w := fun _ => 0, fputs := fun _ _ _ => 1,
    fclose_r := fun _ => 0, fclose_w := fun _ => 0, remove_file := fun _ => 0,
    launch_compile := fun fs => (0, fs) }

/-- A file system with one file. -/
def single_file (path : CStr) (content : Bytes) : FileSystem :=
  fun p => if p = path then some content else none

/-- The bytes are made of whole lines: empty, or ending with a newline. -/
def whole_lines (s : Bytes) : Prop := ∀ c, s.getLast? = some c → c = '\n'

/-- The label of a path in the .fc file as the specification words it: the
global public label for a public path type, else the label generated from the
selinux id and the suffix of the path type. -/
def fc_label (api : LabelApi) (selinux_id : CStr) (p : path_t) : CStr :=
  if (api.get_path_type_info p.path_type).2.2 then api.public_app
  else (api.generate_label selinux_id (api.get_path_type_info p.path_type).2.1).2

/-- The .fc content the specification words: one line
path gen_context(system_u:object_r:label,s0) and a newline per path, in order. -/
def fc_content (api : LabelApi) (selinux_id : CStr) : List path_t → Bytes
  | [] => []
  | p :: paths =>
    p.path ++ " gen_context(system_u:object_r:".toList ++ fc_label api selinux_id p
      ++ ",s0)\n".toList ++ fc_content api selinux_id paths

/-- A label interface for the examples: every path type is a private type of
suffix data, and the label of an id and a suffix is App:id:suffix. -/
def label_api_example : LabelApi :=
  { get_path_type_info := fun _ => (0, "data".toList, false),
    generate_label := fun selinux_id suffix => (0, "App:".toList ++ selinux_id ++ [':'] ++ suffix),
    public_app := "public_app".toList }

/-- A label interface with a public path type: the path type 1 is public, every
other path type is a private type of suffix data. -/
def label_api_public : LabelApi :=
  { get_path_type_info := fun k =>
      if k = 1 then (0, "public".toList, true) else (0, "data".toList, false),
    generate_label := fun selinux_id suffix => (0, "App:".toList ++ selinux_id ++ [':'] ++ suffix),
    public_app := "public_app".toList }

/-- A policy store on which every call succeeds. -/
def semanage_ok : Semanage :=
  { handle_create := true, connect := 0, set_default_priority := 0, disconnect := 0,
    module_install_file := fun _ => 0, commit := 0, module_remove := fun _ => 0,
    module_list := (0, []) }

/-- A file system that holds the two default templates and nothing else. -/
def templates_only : FileSystem :=
  fun p =>
    if p = DEFAULT_SELINUX_TE_TEMPLATE_FILE then some "type ~APP~_t;\n".toList
    else if p = DEFAULT_SELINUX_IF_TEMPLATE_FILE then some "interface(~ID~)\n".toList
    else none

/-- The module descriptor of the id x with the default directory and templates. -/
def module_x : selinux_module_t :=
  (init_selinux_module ⟨none, none, none⟩ (fun _ => true) (some "x".toList) none none none).2

/-- The module descriptor that init_selinux_module builds when its allocations
succeed. -/
def module_of (env : Environ) (id : CStr)
    (selinux_te_template_file selinux_if_template_file selinux_rules_dir : Option CStr) :
    selinux_module_t :=
  { id := some id,
    selinux_id := some (dash_to_underscore id),
    selinux_te_file := some (get_selinux_rules_dir env selinux_rules_dir ++ id ++ TE_EXTENSION),
    selinux_if_file := some (get_selinux_rules_dir env selinux_rules_dir ++ id ++ IF_EXTENSION),
    selinux_fc_file := some (get_selinux_rules_dir env selinux_rules_dir ++ id ++ FC_EXTENSION),
    selinux_pp_file := some (get_selinux_rules_dir env selinux_rules_dir ++ id ++ PP_EXTENSION),
    selinux_rules_dir := some (get_selinux_rules_dir env selinux_rules_dir),
    selinux_te_template_file := some (get_selinux_te_template_file env selinux_te_template_file),
    selinux_if_template_file := some (get_selinux_if_template_file env selinux_if_template_file) }

/-- The calls of a function that takes a store handle for the time of the call:
none at all when it returned before asking for the handle; those of
create_semanage_handle alone when the acquisition failed; else the acquisition,
some work that destroys nothing, and last the calls of one
destroy_semanage_handle.  In each case as many handles destroyed as created. -/
def handle_scoped (sm : Semanage) (calls : List StoreCall) : Prop :=
  calls.count .handle_destroy = calls.count .handle_create ∧
  (calls = [] ∨
   ∃ rc connected acquire, create_semanage_handle sm = .done (rc, connected, acquire) ∧
     ((rc < 0 ∧ calls = acquire) ∨
      (rc = 0 ∧ ∃ work, StoreCall.handle_destroy ∉ acquire ++ work ∧
        calls = acquire ++ work ++ (destroy_semanage_handle sm connected).2 ∧
        calls.count .handle_destroy = 1)))

/-- A host with SMACK enabled on which every call succeeds: labels of at most
254 bytes, the exec suffix :Exec, the application label App:id, an empty
table of path types, every path an existing regular executable file. -/
def smack_ok : SmackCalls :=
  { SMACK_LABEL_LEN := 255, suffix_exec := ":Exec".toList,
    SMACK_TEMPLATE_FILE := none, SMACK_RULES_DIR := none,
    smack_enabled := true, strdup_ok := true, malloc_ok := true,
    generate_label := fun id => (0, "App:".toList ++ id),
    smack_accesses_new := 0, smack_accesses_add := fun _ _ => 0,
    smack_accesses_apply := fun _ => 0, smack_accesses_save := fun _ => (0, "rules\n".toList),
    smack_accesses_add_from_file := fun _ => 0, smack_accesses_clear := 0,
    open_write := fun _ => 3, open_read := fun _ => 3,
    init_path_type_definitions := fun _ => (0, fun _ => ⟨"App:x:Exec".toList, true, false⟩),
    check_file_exists := fun _ => true, check_file_type_reg := fun _ => true,
    check_file_type_dir := fun _ => false, check_executable := fun _ => true,
    lsetxattr := fun _ _ _ => 0 }

/-- A host with the given files, no extended attribute and no call made yet. -/
def host_of (fs : FileSystem) : Host :=
  { fs := fs, xattr := fun _ _ => none, calls := [] }

/-- The tokens of a line as the specification words it: the maximal runs of
bytes that are neither a space nor a tabulation. -/
def whitespace_tokens (line : CStr) : List CStr :=
  (line.splitOnP (fun c => c = ' ' || c = '\t')).filter (fun t => t ≠ [])

/-- The line is made of three fields, each non-empty and without a space, two
fields being separated by one space. -/
def three_fields (line subject object access : CStr) : Prop :=
  line = subject ++ ' ' :: (object ++ ' ' :: access) ∧
    subject ≠ [] ∧ object ≠ [] ∧ access ≠ [] ∧ ' ' ∉ subject ∧ ' ' ∉ object ∧ ' ' ∉ access

/-- A server that accepts every request. -/
def manager_ok : SecurityManager := fun _ _ => 0

/-- Among the requests made, the id was set (a set_id request with a non-empty
id that succeeded) and no clean request has succeeded since. -/
def id_established (requests : List (ManagerCall × Int)) : Prop :=
  ∃ before id rc after, requests = before ++ (ManagerCall.set_id id, rc) :: after ∧
    id ≠ [] ∧ 0 ≤ rc ∧ ∀ rc1, (ManagerCall.clean, rc1) ∈ after → rc1 < 0

/-- Every add_permission request was made with a non-empty permission, the id
being set by the requests before it. -/
def permissions_guarded (requests : List (ManagerCall × Int)) : Prop :=
  ∀ before permission rc after,
    requests = before ++ (ManagerCall.add_permission permission, rc) :: after →
    id_established before ∧ permission ≠ []

/-- What holds of the globals of the client after any number of commands. -/
def client_invariant (st : Client) : Prop :=
  (st.id_set = 0 ∨ st.id_set = 1) ∧ (st.id_set = 1 ↔ id_established st.requests) ∧
    permissions_guarded st.requests

/-- What one command does to the globals: it sets last_status only, or it makes
one request, id_set becoming 0 after a clean and 1 after a set_id that
succeeded. -/
inductive command_effect (m : SecurityManager) (st : Client) : Client → Prop where
  | status (v : Int) : command_effect m st { st with last_status := v }
  | neutral (c : ManagerCall) (h1 : ∀ id, c ≠ .set_id id) (h2 : c ≠ .clean)
      (h3 : ∀ p, c ≠ .add_permission p) : command_effect m st (st.request m c)
  | permission (p : CStr) (hp : p ≠ []) (hid : st.id_set ≠ 0) :
      command_effect m st (st.request m (.add_permission p))
  | clean_failed (h : m st.requests .clean < 0) : command_effect m st (st.request m .clean)
  | clean_done (h : 0 ≤ m st.requests .clean) :
      command_effect m st { st.request m .clean with id_set := 0 }
  | id_failed (id : CStr) (hid : id ≠ []) (h : m st.requests (.set_id id) < 0) :
      command_effect m st (st.request m (.set_id id))
  | id_done (id : CStr) (hid : id ≠ []) (h : 0 ≤ m st.requests (.set_id id)) :
      command_effect m st { st.request m (.set_id id) with id_set := 1 }

/-! ## Identifier and artifact paths -/

theorem dash_to_underscore_length (s : CStr) : (dash_to_underscore s).length = s.length := by
  induction s with
  | nil => rfl
  | cons c s ih => simp [dash_to_underscore, ih]

theorem dash_to_underscore_getElem? (s : CStr) (i : Nat) :
    (dash_to_underscore s)[i]? = (s[i]?).map (fun c => if c = '-' then '_' else c) := by
  induction s generalizing i with
  | nil => simp [dash_to_underscore]
  | cons c s ih =>
    cases i with
    | zero => simp [dash_to_underscore]
    | succ i => simpa [dash_to_underscore] using ih i

theorem dash_to_underscore_mem (s : CStr) (c : Char) :
    c ∈ dash_to_underscore s ↔ ∃ d ∈ s, c = if d = '-' then '_' else d := by
  induction s with
  | nil => simp [dash_to_underscore]
  | cons x s ih => simp [dash_to_underscore, ih]

theorem dash_not_mem_dash_to_underscore (s : CStr) : '-' ∉ dash_to_underscore s := by
  rw [dash_to_underscore_mem]
  rintro ⟨d, _, hd⟩
  by_cases h : d = '-'
  · rw [if_pos h] at hd
    exact absurd hd (by decide)
  · rw [if_neg h] at hd
    exact h hd.symm

/-- C1: when init_selinux_module succeeds, the module keeps the id as given
(dashes included) and its selinux id is dash_to_underscore of the id: same
length, '_' at every position where the id has '-', the byte of the id at
every other position, hence no '-' and every other byte preserved. -/
theorem init_selinux_module_selinux_id (env : Environ) (alloc_ok : Nat → Bool) (id : CStr)
    (te_template if_template rules_dir : Option CStr)
    (hok : (init_selinux_module env alloc_ok (some id) te_template if_template rules_dir).1 = 0) :
    (init_selinux_module env alloc_ok (some id) te_template if_template rules_dir).2.id = some id ∧
    (init_selinux_module env alloc_ok (some id) te_template if_template rules_dir).2.selinux_id
      = some (dash_to_underscore id) ∧
    (dash_to_underscore id).length = id.length ∧
    (∀ i : Nat, (dash_to_underscore id)[i]? = (id[i]?).map (fun c => if c = '-' then '_' else c)) ∧
    '-' ∉ dash_to_underscore id ∧
    (∀ (i : Nat) (c : Char), id[i]? = some c → c ≠ '-' → (dash_to_underscore id)[i]? = some c) := by
  refine ⟨?_, ?_, dash_to_underscore_length id, dash_to_underscore_getElem? id,
    dash_not_mem_dash_to_underscore id, ?_⟩
  · revert hok
    simp only [init_selinux_module, generate_path_module_files, selinux_module_zero]
    cases alloc_ok 0 <;> cases alloc_ok 1 <;> cases alloc_ok 2 <;> cases alloc_ok 3 <;>
      cases alloc_ok 4 <;> cases alloc_ok 5 <;> simp [ENOMEM, free_selinux_module,
        free_path_module_files]
  · revert hok
    simp only [init_selinux_module, generate_path_module_files, selinux_module_zero]
    cases alloc_ok 0 <;> cases alloc_ok 1 <;> cases alloc_ok 2 <;> cases alloc_ok 3 <;>
      cases alloc_ok 4 <;> cases alloc_ok 5 <;> simp [ENOMEM, free_selinux_module,
        free_path_module_files]
  · intro i c hc hne
    rw [dash_to_underscore_getElem?, hc]
    simp [hne]

/-- Witness of C1: the id agl-can gives the id agl-can and the selinux id agl_can. -/
theorem init_selinux_module_selinux_id_witness :
    (init_selinux_module ⟨none, none, none⟩ (fun _ => true) (some "agl-can".toList)
      none none none).2.id = some "agl-can".toList ∧
    (init_selinux_module ⟨none, none, none⟩ (fun _ => true) (some "agl-can".toList)
      none none none).2.selinux_id = some "agl_can".toList :=
  ⟨(init_selinux_module_selinux_id ⟨none, none, none⟩ (fun _ => true) "agl-can".toList
      none none none (by decide)).1,
   (init_selinux_module_selinux_id ⟨none, none, none⟩ (fun _ => true) "agl-can".toList
      none none none (by decide)).2.1⟩

/-- Counterexample to C2: with the rules directory /tmp/rules and the id x the
.te path is /tmp/rulesx.te, not /tmp/rules/x.te. -/
theorem generate_path_module_files_separator_counterexample :
    (generate_path_module_files (fun _ => true)
        { selinux_module_zero with
            selinux_rules_dir := some "/tmp/rules".toList, id := some "x".toList }).2.selinux_te_file
      = some "/tmp/rulesx.te".toList ∧
    ¬ (generate_path_module_files (fun _ => true)
        { selinux_module_zero with
            selinux_rules_dir := some "/tmp/rules".toList, id := some "x".toList }).2.selinux_te_file
      = some ("/tmp/rules".toList ++ ['/'] ++ "x".toList ++ TE_EXTENSION) := by
  decide

/-- C2 (amended): when its four malloc succeed, generate_path_module_files
returns 0 and sets the four paths to the rules directory string followed
directly by the id and the extension; no separator is inserted, so for a rules
directory written d/ the paths are d/id.te, d/id.if, d/id.fc and d/id.pp. -/
theorem generate_path_module_files_paths (malloc_ok : Nat → Bool) (m : selinux_module_t)
    (rules_dir id : CStr) (hdir : m.selinux_rules_dir = some rules_dir) (hid : m.id = some id)
    (hmalloc : ∀ k, k < 4 → malloc_ok k = true) :
    generate_path_module_files malloc_ok m =
      (0, { m with selinux_te_file := some (rules_dir ++ id ++ TE_EXTENSION),
                   selinux_if_file := some (rules_dir ++ id ++ IF_EXTENSION),
                   selinux_fc_file := some (rules_dir ++ id ++ FC_EXTENSION),
                   selinux_pp_file := some (rules_dir ++ id ++ PP_EXTENSION) }) ∧
    ∀ d, rules_dir = d ++ ['/'] →
      (generate_path_module_files malloc_ok m).2.selinux_te_file
        = some (d ++ ['/'] ++ id ++ TE_EXTENSION) ∧
      (generate_path_module_files malloc_ok m).2.selinux_if_file
        = some (d ++ ['/'] ++ id ++ IF_EXTENSION) ∧
      (generate_path_module_files malloc_ok m).2.selinux_fc_file
        = some (d ++ ['/'] ++ id ++ FC_EXTENSION) ∧
      (generate_path_module_files malloc_ok m).2.selinux_pp_file
        = some (d ++ ['/'] ++ id ++ PP_EXTENSION) := by
  have h : generate_path_module_files malloc_ok m =
      (0, { m with selinux_te_file := some (rules_dir ++ id ++ TE_EXTENSION),
                   selinux_if_file := some (rules_dir ++ id ++ IF_EXTENSION),
                   selinux_fc_file := some (rules_dir ++ id ++ FC_EXTENSION),
                   selinux_pp_file := some (rules_dir ++ id ++ PP_EXTENSION) }) := by
    simp [generate_path_module_files, hdir, hid, hmalloc 0, hmalloc 1, hmalloc 2, hmalloc 3]
  refine ⟨h, ?_⟩
  intro d hd
  rw [h, hd]
  exact ⟨rfl, rfl, rfl, rfl⟩

/-- Witness of C2 (amended): the default rules directory and the id agl-can. -/
theorem generate_path_module_files_paths_witness :
    (generate_path_module_files (fun _ => true)
        { selinux_module_zero with
            selinux_rules_dir := some DEFAULT_SELINUX_RULES_DIR,
            id := some "agl-can".toList }).2.selinux_te_file
      = some "/usr/share/security-manager/selinux-policy/agl-can.te".toList := by
  have h := (generate_path_module_files_paths (fun _ => true)
    { selinux_module_zero with
        selinux_rules_dir := some DEFAULT_SELINUX_RULES_DIR, id := some "agl-can".toList }
    DEFAULT_SELINUX_RULES_DIR "agl-can".toList rfl rfl (fun _ _ => rfl)).1
  rw [h]
  decide

/-! ## Substitution of the tokens -/

theorem strstr_eq_none_iff (hay needle : CStr) : strstr hay needle = none ↔ ¬ needle <:+: hay := by
  induction hay with
  | nil => by_cases h : needle = [] <;> simp [strstr, h]
  | cons c hay ih =>
    rw [strstr, List.infix_cons_iff]
    by_cases h : needle <+: c :: hay
    · simp [h]
    · simp [h, ih]

theorem strstr_eq_some (hay needle : CStr) (i : Nat) (h : strstr hay needle = some i) :
    hay = hay.take i ++ needle ++ hay.drop (i + needle.length) := by
  induction hay generalizing i with
  | nil =>
    by_cases hn : needle = []
    · simp [hn]
    · simp [strstr, hn] at h
  | cons c hay ih =>
    rw [strstr] at h
    by_cases hp : needle <+: c :: hay
    · rw [if_pos hp] at h
      cases h
      simpa using (List.prefix_iff_eq_append.1 hp).symm
    · rw [if_neg hp] at h
      cases hs : strstr hay needle with
      | none => simp [hs] at h
      | some j =>
        rw [hs] at h
        cases h
        have e := ih j hs
        have e2 : j + 1 + needle.length = (j + needle.length) + 1 := by omega
        rw [e2, List.take_succ_cons, List.drop_succ_cons]
        simpa using e

/-- The first occurrence of a token that starts with c is right after a
beginning that does not hold c. -/
theorem strstr_append_of_not_mem (a b t : CStr) (c : Char) (hc : c ∉ a) :
    strstr (a ++ (c :: t) ++ b) (c :: t) = some a.length := by
  induction a with
  | nil => simp [strstr]
  | cons x a ih =>
    have hx : ¬ c = x := fun e => hc (by simp [e])
    have ha : c ∉ a := fun e => hc (by simp [e])
    simp only [List.cons_append, strstr, List.cons_prefix_cons, hx, false_and, if_false]
    have := ih ha
    simp only [List.append_assoc, List.cons_append] at this
    simp [this]

theorem infix_of_infix_append_left (c : Char) (t s l : CStr) (hc : c ∉ s)
    (h : c :: t <:+: s ++ l) : c :: t <:+: l := by
  induction s with
  | nil => simpa using h
  | cons x s ih =>
    have hx : ¬ c = x := fun e => hc (by simp [e])
    have hs : c ∉ s := fun e => hc (by simp [e])
    rw [List.cons_append, List.infix_cons_iff] at h
    rcases h with h | h
    · simp [hx] at h
    · exact ih hs h

theorem infix_of_infix_append_right (c : Char) (t b l : CStr) (hc : c ∉ b)
    (h : t ++ [c] <:+: l ++ b) : t ++ [c] <:+: l := by
  rw [← List.reverse_infix] at h ⊢
  rw [List.reverse_append, List.reverse_append] at h
  rw [List.reverse_append]
  exact infix_of_infix_append_left c t.reverse b.reverse l.reverse (by simpa using hc)
    (by simpa using h)

/-- A token that starts and ends with c and lies in a ++ s ++ b, where neither
a nor b holds c, lies in s. -/
theorem infix_middle (c : Char) (t a s b : CStr) (ha : c ∉ a) (hb : c ∉ b)
    (h : c :: (t ++ [c]) <:+: a ++ s ++ b) : c :: (t ++ [c]) <:+: s := by
  have h1 : c :: (t ++ [c]) <:+: s ++ b := by
    rw [List.append_assoc] at h
    exact infix_of_infix_append_left c _ a _ ha h
  have h2 := infix_of_infix_append_right c (c :: t) b s hb (by simpa using h1)
  simpa using h2

theorem replace_id_prefix_of_append (a s b : CStr) (hs : '~' ∉ s) (hne : s ≠ [])
    (hI : s ≠ ['I']) (hD : s ≠ ['D']) (hID : s ≠ ['I', 'D'])
    (h : REPLACE_ID <+: a ++ s ++ b) : REPLACE_ID <+: a := by
  unfold REPLACE_ID at *
  rcases a with _ | ⟨a0, _ | ⟨a1, _ | ⟨a2, _ | ⟨a3, a⟩⟩⟩⟩ <;>
    rcases s with _ | ⟨s0, _ | ⟨s1, _ | ⟨s2, s⟩⟩⟩ <;>
    simp_all [List.cons_prefix_cons] <;>
    first
      | exact h
      | exact hI h.2.1.symm
      | exact hD h.2.2.1.symm
      | exact hID h.2.1.symm h.2.2.1.symm

/-- Replacing ~APP~ by a string s without '~' that is neither empty nor one of
I, D, ID creates no occurrence of ~ID~. -/
theorem replace_id_infix_of_append (a s b : CStr) (hs : '~' ∉ s) (hne : s ≠ [])
    (hI : s ≠ ['I']) (hD : s ≠ ['D']) (hID : s ≠ ['I', 'D'])
    (h : REPLACE_ID <:+: a ++ s ++ b) : REPLACE_ID <:+: a ++ REPLACE_APP ++ b := by
  induction a with
  | nil =>
    have h1 : REPLACE_ID <:+: b := by
      have := infix_of_infix_append_left '~' ['I', 'D', '~'] s b hs (by simpa [REPLACE_ID] using h)
      simpa [REPLACE_ID] using this
    exact h1.trans (List.suffix_append _ _).isInfix
  | cons x a ih =>
    rw [List.cons_append, List.cons_append, List.infix_cons_iff] at h
    rcases h with h | h
    · have h1 : REPLACE_ID <+: x :: a :=
        replace_id_prefix_of_append (x :: a) s b hs hne hI hD hID (by simpa using h)
      rw [List.append_assoc]
      exact (h1.trans (List.prefix_append _ _)).isInfix
    · rw [List.cons_append, List.cons_append, List.infix_cons_iff]
      exact Or.inr (ih h)

theorem replace_loop_of_none (token repl : CStr) (fuel : Nat) (line : CStr)
    (h : strstr line token = none) : replace_loop token repl fuel line = .done line := by
  cases fuel <;> simp [replace_loop, h]

theorem replace_loop_zero_of_some (token repl : CStr) (line : CStr) (pos : Nat)
    (h : strstr line token = some pos) : replace_loop token repl 0 line = .out_of_fuel := by
  simp [replace_loop, h]

theorem replace_loop_succ_of_some (token repl : CStr) (fuel : Nat) (line : CStr) (pos : Nat)
    (h : strstr line token = some pos) :
    replace_loop token repl (fuel + 1) line =
      if (line.drop (pos + token.length)).length < MAX_LINE_SIZE_MODULE ∧
          pos + repl.length + (line.drop (pos + token.length)).length < MAX_LINE_SIZE_MODULE then
        replace_loop token repl fuel (line.take pos ++ repl ++ line.drop (pos + token.length))
      else .undefined := by
  rw [replace_loop]
  simp only [h]

/-- A property kept by each replacement holds at the end of the loop, where no
occurrence of the token is left. -/
theorem replace_loop_done (token repl : CStr) (P : CStr → Prop)
    (hstep : ∀ line pos, P line → strstr line token = some pos →
      P (line.take pos ++ repl ++ line.drop (pos + token.length)))
    (fuel : Nat) (line out : CStr) (hP : P line)
    (h : replace_loop token repl fuel line = .done out) : P out ∧ ¬ token <:+: out := by
  induction fuel generalizing line with
  | zero =>
    cases hs : strstr line token with
    | none =>
      rw [replace_loop_of_none _ _ _ _ hs] at h
      cases h
      exact ⟨hP, (strstr_eq_none_iff _ _).1 hs⟩
    | some pos =>
      rw [replace_loop_zero_of_some _ _ _ _ hs] at h
      cases h
  | succ fuel ih =>
    cases hs : strstr line token with
    | none =>
      rw [replace_loop_of_none _ _ _ _ hs] at h
      cases h
      exact ⟨hP, (strstr_eq_none_iff _ _).1 hs⟩
    | some pos =>
      rw [replace_loop_succ_of_some _ _ _ _ _ hs] at h
      split at h
      · exact ih _ (hstep line pos hP hs) h
      · cases h

/-- Each replacement of a token with two '~' by a string without '~' takes two
'~' away, so the loop ends within half the number of '~' of the line. -/
theorem replace_loop_fuel (token repl : CStr) (htok : token.count '~' = 2) (hrepl : '~' ∉ repl)
    (fuel : Nat) (line : CStr) (hfuel : line.count '~' / 2 ≤ fuel) :
    replace_loop token repl fuel line ≠ .out_of_fuel := by
  induction fuel generalizing line with
  | zero =>
    cases hs : strstr line token with
    | none => simp [replace_loop_of_none _ _ _ _ hs]
    | some pos =>
      have e := congrArg (List.count '~') (strstr_eq_some line token pos hs)
      simp only [List.count_append, htok] at e
      omega
  | succ fuel ih =>
    cases hs : strstr line token with
    | none => simp [replace_loop_of_none _ _ _ _ hs]
    | some pos =>
      rw [replace_loop_succ_of_some _ _ _ _ _ hs]
      split
      · apply ih
        have e := congrArg (List.count '~') (strstr_eq_some line token pos hs)
        simp only [List.count_append, htok] at e
        simp only [List.count_append, List.count_eq_zero.2 hrepl]
        omega
      · simp

theorem replace_loop_count_le (token repl : CStr) (htok : token.count '~' = 2)
    (hrepl : '~' ∉ repl) (fuel : Nat) (line out : CStr)
    (h : replace_loop token repl fuel line = .done out) :
    out.count '~' ≤ line.count '~' := by
  refine (replace_loop_done token repl (fun l => l.count '~' ≤ line.count '~') ?_ fuel line out
    (Nat.le_refl _) h).1
  intro l pos hl hs
  have e := congrArg (List.count '~') (strstr_eq_some l token pos hs)
  simp only [List.count_append, htok] at e
  simp only [List.count_append, List.count_eq_zero.2 hrepl]
  omega

theorem tilde_not_mem_dash_to_underscore (id : CStr) (h : '~' ∉ id) :
    '~' ∉ dash_to_underscore id := by
  rw [dash_to_underscore_mem]
  rintro ⟨d, hd, e⟩
  by_cases hdash : d = '-'
  · rw [if_pos hdash] at e
    exact absurd e (by decide)
  · rw [if_neg hdash] at e
    exact h (e ▸ hd)

theorem dash_to_underscore_eq_map (s : CStr) :
    dash_to_underscore s = s.map (fun c => if c = '-' then '_' else c) := by
  induction s with
  | nil => rfl
  | cons c s ih => simp [dash_to_underscore, ih]

/-- A string without '-' and '_' is the image by dash_to_underscore of itself only. -/
theorem dash_to_underscore_eq_iff (s t : CStr) (h1 : '_' ∉ t) (h2 : '-' ∉ t) :
    dash_to_underscore s = t ↔ s = t := by
  induction s generalizing t with
  | nil => simp [dash_to_underscore, eq_comm]
  | cons c s ih =>
    cases t with
    | nil => simp [dash_to_underscore]
    | cons d t =>
      have hd1 : ¬ '_' = d := fun e => h1 (List.mem_cons.2 (Or.inl e))
      have hd2 : ¬ '-' = d := fun e => h2 (List.mem_cons.2 (Or.inl e))
      have ht1 : '_' ∉ t := fun e => h1 (by simp [e])
      have ht2 : '-' ∉ t := fun e => h2 (by simp [e])
      simp only [dash_to_underscore, List.cons.injEq, ih t ht1 ht2]
      by_cases hc : c = '-'
      · simp only [if_pos hc]
        constructor
        · rintro ⟨e, _⟩
          exact absurd e hd1
        · rintro ⟨e, _⟩
          exact absurd (hc ▸ e).symm (fun e2 => hd2 e2.symm)
      · simp only [if_neg hc]

theorem take_drop_middle (a t b : CStr) :
    (a ++ t ++ b).take a.length = a ∧ (a ++ t ++ b).drop (a.length + t.length) = b := by
  constructor
  · rw [List.append_assoc, List.take_left']
    rfl
  · have h : a.length + t.length = (a ++ t).length := by simp
    rw [h, List.drop_left']
    rfl

/-- The loop on a line with one token between two parts without '~', when the
replacement holds no occurrence of the token and the new line fits the buffer. -/
theorem replace_loop_single (c : Char) (t repl a b : CStr) (fuel : Nat) (ha : c ∉ a) (hb : c ∉ b)
    (hrepl : ¬ c :: (t ++ [c]) <:+: repl)
    (hfit : a.length + repl.length + b.length < MAX_LINE_SIZE_MODULE) :
    replace_loop (c :: (t ++ [c])) repl (fuel + 1) (a ++ c :: (t ++ [c]) ++ b)
      = .done (a ++ repl ++ b) := by
  have hs := strstr_append_of_not_mem a b (t ++ [c]) c ha
  rw [replace_loop_succ_of_some _ _ _ _ _ hs]
  obtain ⟨e1, e2⟩ := take_drop_middle a (c :: (t ++ [c])) b
  rw [e1, e2, if_pos ⟨by omega, hfit⟩]
  apply replace_loop_of_none
  rw [strstr_eq_none_iff]
  exact fun h => hrepl (infix_middle c t a repl b ha hb h)

/-- The loop leaves a line without '~' in its two outer parts alone when the
middle part holds no occurrence of the token. -/
theorem replace_loop_untouched (c : Char) (t repl a s b : CStr) (fuel : Nat) (ha : c ∉ a)
    (hb : c ∉ b) (hs : ¬ c :: (t ++ [c]) <:+: s) :
    replace_loop (c :: (t ++ [c])) repl fuel (a ++ s ++ b) = .done (a ++ s ++ b) := by
  apply replace_loop_of_none
  rw [strstr_eq_none_iff]
  exact fun h => hs (infix_middle c t a s b ha hb h)

theorem replace_app_infix_dash_to_underscore (id : CStr)
    (h : REPLACE_APP <:+: dash_to_underscore id) : REPLACE_APP <:+: id := by
  rw [dash_to_underscore_eq_map, List.isInfix_map_iff] at h
  obtain ⟨l, hl, e⟩ := h
  rw [← dash_to_underscore_eq_map] at e
  have := (dash_to_underscore_eq_iff l REPLACE_APP (by decide) (by decide)).1 e.symm
  exact this ▸ hl

theorem strstr_some_le (hay needle : CStr) (i : Nat) (h : strstr hay needle = some i) :
    i + needle.length ≤ hay.length := by
  induction hay generalizing i with
  | nil =>
    by_cases hn : needle = []
    · simp [strstr, hn] at h
      simp [hn, h]
    · simp [strstr, hn] at h
  | cons c hay ih =>
    rw [strstr] at h
    by_cases hp : needle <+: c :: hay
    · rw [if_pos hp] at h
      cases h
      simpa using hp.length_le
    · rw [if_neg hp] at h
      cases hs : strstr hay needle with
      | none => simp [hs] at h
      | some j =>
        rw [hs] at h
        cases h
        have := ih j hs
        simp only [List.length_cons]
        omega

/-- What one replacement does to the length of the line. -/
theorem replace_step_length (token repl line : CStr) (pos : Nat)
    (hs : strstr line token = some pos) :
    (line.drop (pos + token.length)).length + (pos + token.length) = line.length ∧
    (line.take pos ++ repl ++ line.drop (pos + token.length)).length
      = pos + repl.length + (line.drop (pos + token.length)).length := by
  have h := strstr_some_le line token pos hs
  simp only [List.length_append, List.length_take, List.length_drop]
  omega

/-- The loop stays inside the buffer when each replacement keeps a property that
bounds the line it gives. -/
theorem replace_loop_ne_undefined (token repl : CStr) (P : CStr → Prop)
    (hstep : ∀ line pos, P line → strstr line token = some pos →
      P (line.take pos ++ repl ++ line.drop (pos + token.length)))
    (hsize : ∀ line, P line → line.length < MAX_LINE_SIZE_MODULE)
    (fuel : Nat) (line : CStr) (hP : P line) :
    replace_loop token repl fuel line ≠ .undefined := by
  induction fuel generalizing line with
  | zero =>
    cases hs : strstr line token with
    | none => simp [replace_loop_of_none _ _ _ _ hs]
    | some pos => simp [replace_loop_zero_of_some _ _ _ _ hs]
  | succ fuel ih =>
    cases hs : strstr line token with
    | none => simp [replace_loop_of_none _ _ _ _ hs]
    | some pos =>
      have h1 := replace_step_length token repl line pos hs
      have h2 := hsize _ (hstep line pos hP hs)
      have h3 := hsize _ hP
      rw [replace_loop_succ_of_some _ _ _ _ _ hs, if_pos ⟨by omega, by omega⟩]
      exact ih _ (hstep line pos hP hs)

/-- The bound kept by the replacements of a token of two '~' by a string
without '~' of length r: the length of the line plus r for each pair of '~'
still on the line. -/
theorem replace_step_bound (token repl line : CStr) (pos r B : Nat)
    (htok : token.count '~' = 2) (hrepl : '~' ∉ repl) (hr : repl.length = r)
    (hs : strstr line token = some pos) (hB : line.length + line.count '~' / 2 * r ≤ B) :
    (line.take pos ++ repl ++ line.drop (pos + token.length)).length
      + (line.take pos ++ repl ++ line.drop (pos + token.length)).count '~' / 2 * r ≤ B := by
  have h1 := replace_step_length token repl line pos hs
  have e := congrArg (List.count '~') (strstr_eq_some line token pos hs)
  simp only [List.count_append, htok] at e
  have hc : (line.take pos ++ repl ++ line.drop (pos + token.length)).count '~' + 2
      = line.count '~' := by
    simp only [List.count_append, List.count_eq_zero.2 hrepl]
    omega
  obtain ⟨k, hk⟩ : ∃ k, (line.take pos ++ repl ++ line.drop (pos + token.length)).count '~' / 2
      = k := ⟨_, rfl⟩
  have hk2 : line.count '~' / 2 = k + 1 := by omega
  rw [hk]
  rw [hk2, Nat.succ_mul] at hB
  omega

/-- Counterexample to C3: on the line ~~APP~~ with the id ID (no '~' in it), the
~APP~ pass writes ID between the two outer '~' and parse_line returns the line
~ID~, which holds the token ~ID~. -/
theorem parse_line_tokens_counterexample :
    '~' ∉ "ID".toList ∧
    parse_line 1 "~~APP~~".toList "ID".toList (dash_to_underscore "ID".toList)
      = .done (0, "~ID~".toList) ∧
    REPLACE_ID <:+: "~ID~".toList := by
  refine ⟨by decide, rfl, ?_⟩
  exact List.infix_refl _

/-- C3 (amended): for every template line and every id without '~', parse_line
run with fuel for half the '~' of the line ends; it returns a line (status 0)
when the line and one id per pair of '~' fit the buffer; and the line it
returns holds no occurrence of ~APP~, and no occurrence of ~ID~ either when
the id is not empty and is none of I, D and ID. -/
theorem parse_line_tokens_replaced (fuel : Nat) (line id : CStr) (htilde : '~' ∉ id)
    (hfuel : line.count '~' / 2 ≤ fuel) :
    parse_line fuel line id (dash_to_underscore id) ≠ .out_of_fuel ∧
    (line.length + line.count '~' / 2 * id.length < MAX_LINE_SIZE_MODULE →
      ∃ out, parse_line fuel line id (dash_to_underscore id) = .done (0, out)) ∧
    (∀ rc out, parse_line fuel line id (dash_to_underscore id) = .done (rc, out) →
      rc = 0 ∧ ¬ REPLACE_APP <:+: out ∧
      (id ≠ [] → id ≠ ['I'] → id ≠ ['D'] → id ≠ ['I', 'D'] → ¬ REPLACE_ID <:+: out)) := by
  have hsid := tilde_not_mem_dash_to_underscore id htilde
  have hstep1 : ∀ l pos, l.length + l.count '~' / 2 * id.length
        ≤ line.length + line.count '~' / 2 * id.length →
      strstr l REPLACE_ID = some pos →
      (l.take pos ++ id ++ l.drop (pos + REPLACE_ID.length)).length
        + (l.take pos ++ id ++ l.drop (pos + REPLACE_ID.length)).count '~' / 2 * id.length
        ≤ line.length + line.count '~' / 2 * id.length :=
    fun l pos hl hs => replace_step_bound REPLACE_ID id l pos _ _ (by decide) htilde rfl hs hl
  have hstep2 : ∀ l pos, l.length + l.count '~' / 2 * id.length
        ≤ line.length + line.count '~' / 2 * id.length →
      strstr l REPLACE_APP = some pos →
      (l.take pos ++ dash_to_underscore id ++ l.drop (pos + REPLACE_APP.length)).length
        + (l.take pos ++ dash_to_underscore id ++ l.drop (pos + REPLACE_APP.length)).count '~'
          / 2 * id.length
        ≤ line.length + line.count '~' / 2 * id.length :=
    fun l pos hl hs => replace_step_bound REPLACE_APP (dash_to_underscore id) l pos _ _
      (by decide) hsid (dash_to_underscore_length id) hs hl
  cases h1 : replace_loop REPLACE_ID id fuel line with
  | out_of_fuel => exact absurd h1 (replace_loop_fuel _ _ (by decide) htilde fuel line hfuel)
  | undefined =>
    refine ⟨by simp [parse_line, h1], fun hfit => ?_, fun rc out h => by simp [parse_line, h1] at h⟩
    exact absurd h1 (replace_loop_ne_undefined REPLACE_ID id _ hstep1
      (fun l hl => by omega) fuel line (Nat.le_refl _))
  | done l1 =>
    have hid1 := (replace_loop_done REPLACE_ID id (fun _ => True) (fun _ _ _ _ => trivial)
      fuel line l1 trivial h1).2
    have hcount := replace_loop_count_le REPLACE_ID id (by decide) htilde fuel line l1 h1
    have hbound := (replace_loop_done REPLACE_ID id _ hstep1 fuel line l1 (Nat.le_refl _) h1).1
    cases h2 : replace_loop REPLACE_APP (dash_to_underscore id) fuel l1 with
    | out_of_fuel =>
      exact absurd h2 (replace_loop_fuel _ _ (by decide) hsid fuel l1 (by omega))
    | undefined =>
      refine ⟨by simp [parse_line, h1, h2], fun hfit => ?_,
        fun rc out h => by simp [parse_line, h1, h2] at h⟩
      exact absurd h2 (replace_loop_ne_undefined REPLACE_APP _ _ hstep2
        (fun l hl => by omega) fuel l1 hbound)
    | done l2 =>
      refine ⟨by simp [parse_line, h1, h2], fun _ => ⟨l2, by simp [parse_line, h1, h2]⟩, ?_⟩
      intro rc out h
      simp only [parse_line, h1, h2, Run.done.injEq, Prod.mk.injEq] at h
      obtain ⟨hrc, hout⟩ := h
      subst hout
      refine ⟨hrc.symm, ?_, ?_⟩
      · exact (replace_loop_done REPLACE_APP _ (fun _ => True) (fun _ _ _ _ => trivial)
          fuel l1 l2 trivial h2).2
      · intro hne hI hD hID
        have hne2 : dash_to_underscore id ≠ [] := fun e =>
          hne ((dash_to_underscore_eq_iff id [] (by simp) (by simp)).1 e)
        have hI2 : dash_to_underscore id ≠ ['I'] := fun e =>
          hI ((dash_to_underscore_eq_iff id ['I'] (by decide) (by decide)).1 e)
        have hD2 : dash_to_underscore id ≠ ['D'] := fun e =>
          hD ((dash_to_underscore_eq_iff id ['D'] (by decide) (by decide)).1 e)
        have hID2 : dash_to_underscore id ≠ ['I', 'D'] := fun e =>
          hID ((dash_to_underscore_eq_iff id ['I', 'D'] (by decide) (by decide)).1 e)
        refine (replace_loop_done REPLACE_APP _ (fun l => ¬ REPLACE_ID <:+: l) ?_
          fuel l1 l2 hid1 h2).1
        intro l pos hl hs hnew
        apply hl
        rw [strstr_eq_some l REPLACE_APP pos hs]
        exact replace_id_infix_of_append _ _ _ hsid hne2 hI2 hD2 hID2 hnew

/-- Witness of C3 (amended): the line a~ID~b~APP~ and the id x-y. -/
theorem parse_line_tokens_replaced_witness :
    ∃ out, parse_line 2 "a~ID~b~APP~\n".toList "x-y".toList (dash_to_underscore "x-y".toList)
        = .done (0, out) :=
  (parse_line_tokens_replaced 2 "a~ID~b~APP~\n".toList "x-y".toList (by decide)
    (by decide)).2.1 (by decide)

theorem replace_loop_self_diverges (fuel : Nat) :
    replace_loop REPLACE_ID REPLACE_ID fuel REPLACE_ID = .out_of_fuel := by
  have hs : strstr REPLACE_ID REPLACE_ID = some 0 := by decide
  induction fuel with
  | zero => exact replace_loop_zero_of_some _ _ _ _ hs
  | succ fuel ih =>
    rw [replace_loop_succ_of_some _ _ _ _ _ hs, if_pos (by decide)]
    exact ih

/-- Counterexample to C4: with the id ~ID~ on the line ~ID~ (nothing before or
after the token) each replacement writes the token back, so the ~ID~ loop has
not ended after any number of turns and parse_line yields no line. -/
theorem parse_line_id_token_counterexample :
    "~ID~".toList ≠ [] ∧
    ∀ fuel, parse_line fuel ([] ++ REPLACE_ID ++ []) "~ID~".toList
        (dash_to_underscore "~ID~".toList) = .out_of_fuel ∧
      parse_line fuel ([] ++ REPLACE_ID ++ []) "~ID~".toList
        (dash_to_underscore "~ID~".toList) ≠ .done (0, [] ++ "~ID~".toList ++ []) := by
  refine ⟨by decide, fun fuel => ?_⟩
  have h : parse_line fuel ([] ++ REPLACE_ID ++ []) "~ID~".toList
      (dash_to_underscore "~ID~".toList) = .out_of_fuel := by
    have := replace_loop_self_diverges fuel
    simp only [parse_line, List.nil_append, List.append_nil]
    rw [show "~ID~".toList = REPLACE_ID from rfl, this]
  exact ⟨h, by rw [h]; simp⟩

/-- C4 (amended): for every id that holds neither the token ~ID~ nor the token
~APP~, and all a and b without '~' such that the line with the id in place of
the token fits the 2048-byte buffer, parse_line turns a ++ ~ID~ ++ b into
a ++ id ++ b and a ++ ~APP~ ++ b into a ++ selinux_id ++ b, the inserted text
being left as it is. -/
theorem parse_line_single_token (fuel : Nat) (a b id : CStr) (ha : '~' ∉ a) (hb : '~' ∉ b)
    (hid : ¬ REPLACE_ID <:+: id) (happ : ¬ REPLACE_APP <:+: id)
    (hfit : a.length + id.length + b.length < MAX_LINE_SIZE_MODULE) :
    parse_line (fuel + 1) (a ++ REPLACE_ID ++ b) id (dash_to_underscore id)
      = .done (0, a ++ id ++ b) ∧
    parse_line (fuel + 1) (a ++ REPLACE_APP ++ b) id (dash_to_underscore id)
      = .done (0, a ++ dash_to_underscore id ++ b) := by
  constructor
  · have h1 := replace_loop_single '~' ['I', 'D'] id a b fuel ha hb hid hfit
    have h2 := replace_loop_untouched '~' ['A', 'P', 'P'] (dash_to_underscore id) a id b
      (fuel + 1) ha hb happ
    simp only [parse_line]
    rw [show REPLACE_ID = '~' :: (['I', 'D'] ++ ['~']) from rfl, h1]
    simp only []
    rw [show REPLACE_APP = '~' :: (['A', 'P', 'P'] ++ ['~']) from rfl, h2]
  · have h1 := replace_loop_untouched '~' ['I', 'D'] id a REPLACE_APP b (fuel + 1) ha hb
      (by decide)
    have h2 := replace_loop_single '~' ['A', 'P', 'P'] (dash_to_underscore id) a b fuel ha hb
      (fun h => happ (replace_app_infix_dash_to_underscore id h))
      (by rw [dash_to_underscore_length]; exact hfit)
    simp only [parse_line]
    rw [show REPLACE_ID = '~' :: (['I', 'D'] ++ ['~']) from rfl, h1]
    simp only []
    rw [show REPLACE_APP = '~' :: (['A', 'P', 'P'] ++ ['~']) from rfl, h2]

/-- Witness of C4 (amended): the id agl-can on the lines type ~ID~_t; and type ~APP~_t; -/
theorem parse_line_single_token_witness :
    parse_line 1 ("type ".toList ++ REPLACE_ID ++ "_t;\n".toList) "agl-can".toList
        (dash_to_underscore "agl-can".toList)
      = .done (0, "type ".toList ++ "agl-can".toList ++ "_t;\n".toList) ∧
    parse_line 1 ("type ".toList ++ REPLACE_APP ++ "_t;\n".toList) "agl-can".toList
        (dash_to_underscore "agl-can".toList)
      = .done (0, "type ".toList ++ dash_to_underscore "agl-can".toList ++ "_t;\n".toList) :=
  parse_line_single_token 0 "type ".toList "_t;\n".toList "agl-can".toList (by decide)
    (by decide) (by decide) (by decide) (by decide)

/-! ## Reading the template line by line -/

theorem read_line_append (k : Nat) (s : Bytes) : (read_line k s).1 ++ (read_line k s).2 = s := by
  induction k generalizing s with
  | zero => simp [read_line]
  | succ k ih =>
    cases s with
    | nil => simp [read_line]
    | cons c s =>
      by_cases hc : c = '\n'
      · simp [read_line, hc]
      · simp [read_line, hc, ih s]

theorem read_line_rest_length (k : Nat) (c : Char) (s : Bytes) :
    (read_line (k + 1) (c :: s)).2.length ≤ s.length := by
  have h := congrArg List.length (read_line_append (k + 1) (c :: s))
  have h1 : 1 ≤ (read_line (k + 1) (c :: s)).1.length := by
    by_cases hc : c = '\n' <;> simp [read_line, hc]
  simp only [List.length_append, List.length_cons] at h
  omega

theorem whole_lines_tail (c : Char) (s : Bytes) (h : whole_lines (c :: s)) : whole_lines s := by
  cases s with
  | nil => intro d hd; simp at hd
  | cons x s => intro d hd; exact h d (by simpa using hd)

/-- Reading one line out of whole lines does not depend on what follows them. -/
theorem read_line_whole_lines (k : Nat) (pre rest : Bytes) (hne : pre ≠ [])
    (hpre : whole_lines pre) :
    read_line k (pre ++ rest) = ((read_line k pre).1, (read_line k pre).2 ++ rest) ∧
    whole_lines (read_line k pre).2 := by
  induction k generalizing pre with
  | zero => simpa [read_line] using hpre
  | succ k ih =>
    cases pre with
    | nil => exact absurd rfl hne
    | cons c p =>
      by_cases hc : c = '\n'
      · simpa [read_line, hc] using whole_lines_tail c p hpre
      · have hp : p ≠ [] := by
          rintro rfl
          exact hc (hpre c (by simp))
        have := ih p hp (whole_lines_tail c p hpre)
        refine ⟨?_, ?_⟩
        · have h1 := this.1
          simp only [List.cons_append, read_line, hc, if_false]
          change (c :: (read_line k (p ++ rest)).1, (read_line k (p ++ rest)).2) = _
          rw [h1]
        · simpa [read_line, hc] using this.2

/-- A whole line that fits the buffer is read by one call. -/
theorem read_line_single (k : Nat) (body post : Bytes) (hbody : '\n' ∉ body)
    (hlen : body.length < k) :
    read_line k (body ++ ['\n'] ++ post) = (body ++ ['\n'], post) := by
  induction body generalizing k with
  | nil =>
    cases k with
    | zero => omega
    | succ k => simp [read_line]
  | cons c body ih =>
    cases k with
    | zero => omega
    | succ k =>
      have hc : ¬ c = '\n' := fun e => hbody (by simp [e])
      have hb : '\n' ∉ body := fun e => hbody (by simp [e])
      have := ih k hb (by simpa using hlen)
      simp only [List.cons_append, read_line, hc, if_false]
      simp only [List.append_assoc, List.cons_append, List.nil_append] at this
      simp [this]

theorem c_str_eq_self (s : Bytes) (h : '\x00' ∉ s) : c_str s = s := by
  unfold c_str
  rw [List.takeWhile_eq_self_iff]
  intro x hx
  simp only [ne_eq, decide_eq_true_eq]
  exact fun e => h (e ▸ hx)

theorem parse_line_no_token (fuel : Nat) (line id selinux_id : CStr)
    (hid : ¬ REPLACE_ID <:+: line) (happ : ¬ REPLACE_APP <:+: line) :
    parse_line fuel line id selinux_id = .done (0, line) := by
  simp only [parse_line]
  rw [replace_loop_of_none _ _ _ _ ((strstr_eq_none_iff _ _).2 hid)]
  simp only []
  rw [replace_loop_of_none _ _ _ _ ((strstr_eq_none_iff _ _).2 happ)]

theorem template_to_module_loop_nil (os : Calls) (fuel : Nat) (module id selinux_id : CStr)
    (n : Nat) (written : Bytes) (rc : Int) :
    template_to_module_loop os fuel module id selinux_id n [] written rc = .done (rc, written) := by
  cases n <;> simp [template_to_module_loop, fgets]

theorem template_to_module_loop_succ (os : Calls) (fuel : Nat) (module id selinux_id : CStr)
    (n : Nat) (c : Char) (s written : Bytes) (rc : Int) :
    template_to_module_loop os fuel module id selinux_id (n + 1) (c :: s) written rc =
      match parse_line fuel (c_str (read_line (MAX_LINE_SIZE_MODULE - 1) (c :: s)).1)
          id selinux_id with
      | .done (rc1, line) =>
        if rc1 < 0 then .done (rc1, written)
        else if os.fputs module written line < 0 then
          .done (os.fputs module written line, written)
        else
          template_to_module_loop os fuel module id selinux_id n
            (read_line (MAX_LINE_SIZE_MODULE - 1) (c :: s)).2 (written ++ line)
            (os.fputs module written line)
      | .undefined => .undefined
      | .out_of_fuel => .out_of_fuel := by
  rw [template_to_module_loop]
  simp only [fgets, reduceCtorEq, if_false]

/-- The loop has enough turns as soon as it has one per byte of the stream. -/
theorem template_to_module_loop_fuel (os : Calls) (fuel : Nat) (module id selinux_id : CStr)
    (n m : Nat) (s written : Bytes) (rc : Int) (hn : s.length ≤ n) (hm : s.length ≤ m) :
    template_to_module_loop os fuel module id selinux_id n s written rc =
      template_to_module_loop os fuel module id selinux_id m s written rc := by
  induction n generalizing m s written rc with
  | zero =>
    have : s = [] := List.length_eq_zero.1 (by omega)
    subst this
    simp [template_to_module_loop_nil]
  | succ n ih =>
    cases s with
    | nil => simp [template_to_module_loop_nil]
    | cons c s =>
      cases m with
      | zero => simp at hm
      | succ m =>
        rw [template_to_module_loop_succ, template_to_module_loop_succ]
        have hr := read_line_rest_length (MAX_LINE_SIZE_MODULE - 2) c s
        have e : MAX_LINE_SIZE_MODULE - 2 + 1 = MAX_LINE_SIZE_MODULE - 1 := by decide
        rw [e] at hr
        simp only [List.length_cons] at hn hm
        cases parse_line fuel (c_str (read_line (MAX_LINE_SIZE_MODULE - 1) (c :: s)).1)
            id selinux_id with
        | undefined => rfl
        | out_of_fuel => rfl
        | done r =>
          obtain ⟨rc1, line⟩ := r
          simp only []
          split
          · rfl
          · split
            · rfl
            · exact ih m _ _ _ (by omega) (by omega)

/-- The loop on whole lines followed by more bytes: the loop on the whole
lines, then, unless it stopped on an error, the loop on the rest. -/
theorem template_to_module_loop_append (os : Calls) (fuel : Nat) (module id selinux_id : CStr)
    (m n k : Nat) (pre rest written : Bytes) (rc : Int) (hpre : whole_lines pre)
    (hm : pre.length ≤ m) (hn : (pre ++ rest).length ≤ n) (hk : rest.length ≤ k) (hrc : 0 ≤ rc) :
    template_to_module_loop os fuel module id selinux_id n (pre ++ rest) written rc =
      match template_to_module_loop os fuel module id selinux_id m pre written rc with
      | .done (rc1, w1) =>
        if rc1 < 0 then .done (rc1, w1)
        else template_to_module_loop os fuel module id selinux_id k rest w1 rc1
      | .undefined => .undefined
      | .out_of_fuel => .out_of_fuel := by
  induction m generalizing n pre written rc with
  | zero =>
    have : pre = [] := List.length_eq_zero.1 (by omega)
    subst this
    rw [template_to_module_loop_nil]
    simp only [List.nil_append, if_neg (not_lt.2 hrc)]
    exact template_to_module_loop_fuel _ _ _ _ _ _ _ _ _ _ (by simpa using hn) hk
  | succ m ih =>
    cases pre with
    | nil =>
      rw [template_to_module_loop_nil]
      simp only [List.nil_append, if_neg (not_lt.2 hrc)]
      exact template_to_module_loop_fuel _ _ _ _ _ _ _ _ _ _ (by simpa using hn) hk
    | cons c p =>
      cases n with
      | zero => simp at hn
      | succ n =>
        have hw := read_line_whole_lines (MAX_LINE_SIZE_MODULE - 1) (c :: p) rest (by simp) hpre
        have hr := read_line_rest_length (MAX_LINE_SIZE_MODULE - 2) c p
        have e : MAX_LINE_SIZE_MODULE - 2 + 1 = MAX_LINE_SIZE_MODULE - 1 := by decide
        rw [e] at hr
        rw [List.cons_append, template_to_module_loop_succ, template_to_module_loop_succ,
          ← List.cons_append, hw.1]
        simp only [List.length_cons, List.length_append] at hn hm
        cases parse_line fuel (c_str (read_line (MAX_LINE_SIZE_MODULE - 1) (c :: p)).1)
            id selinux_id with
        | undefined => rfl
        | out_of_fuel => rfl
        | done r =>
          obtain ⟨rc1, line⟩ := r
          simp only []
          by_cases h1 : rc1 < 0
          · simp only [if_pos h1]
          · simp only [if_neg h1]
            by_cases h2 : os.fputs module written line < 0
            · simp only [if_pos h2]
            · simp only [if_neg h2]
              exact ih n _ _ _ hw.2 (by omega) (by simp only [List.length_append]; omega)
                (not_lt.1 h2)

/-- One turn of the loop on a whole line without token: the line is written as
it is, then the loop goes on with the rest. -/
theorem template_to_module_loop_line (os : Calls) (fuel : Nat) (module id selinux_id : CStr)
    (n : Nat) (body post written : Bytes) (rc : Int) (hbody : '\n' ∉ body)
    (hlen : body.length + 1 < MAX_LINE_SIZE_MODULE) (hnul : '\x00' ∉ body)
    (hid : ¬ REPLACE_ID <:+: body ++ ['\n']) (happ : ¬ REPLACE_APP <:+: body ++ ['\n'])
    (hn : post.length ≤ n) :
    template_to_module_loop os fuel module id selinux_id (n + 1) (body ++ ['\n'] ++ post)
        written rc =
      if os.fputs module written (body ++ ['\n']) < 0 then
        .done (os.fputs module written (body ++ ['\n']), written)
      else
        template_to_module_loop os fuel module id selinux_id post.length post
          (written ++ (body ++ ['\n'])) (os.fputs module written (body ++ ['\n'])) := by
  obtain ⟨c, t, hct⟩ := List.exists_cons_of_ne_nil
    (show body ++ ['\n'] ++ post ≠ [] by simp)
  have hread : read_line (MAX_LINE_SIZE_MODULE - 1) (body ++ ['\n'] ++ post)
      = (body ++ ['\n'], post) :=
    read_line_single _ body post hbody (by
      have : MAX_LINE_SIZE_MODULE - 1 + 1 = MAX_LINE_SIZE_MODULE := by decide
      omega)
  have hstr : c_str (body ++ ['\n']) = body ++ ['\n'] := by
    apply c_str_eq_self
    simp only [List.mem_append, List.mem_singleton, not_or]
    exact ⟨hnul, by decide⟩
  rw [hct, template_to_module_loop_succ, ← hct, hread]
  simp only [hstr, parse_line_no_token fuel _ id selinux_id hid happ, lt_self_iff_false,
    if_false]
  split
  · rfl
  · exact template_to_module_loop_fuel _ _ _ _ _ _ _ _ _ _ hn (Nat.le_refl _)

/-- Counterexample to C5: the comment line #~ID~ of a template is written as #x
to the module of the id x. -/
theorem template_to_module_comment_counterexample :
    ∃ fs, template_to_module calls_ok 1 (single_file "t".toList "#~ID~\n".toList)
        "t".toList "m".toList "x".toList "x".toList = .done (0, fs) ∧
      fs "m".toList = some "#x\n".toList ∧ "#x\n".toList ≠ "#~ID~\n".toList :=
  ⟨_, rfl, rfl, by decide⟩

/-- C5 (amended): in the loop of template_to_module, a whole template line of
fewer than 2048 bytes that holds no NUL and neither ~ID~ nor ~APP~ is written
to the module unchanged, whatever its first byte and for every id: the loop on
pre ++ line ++ post, where pre is made of whole lines, is the loop on pre,
then (unless a write failed) the line itself appended to the bytes written,
then the loop on post.  A blank line is such a line; a line that starts with
'#' is one only if it holds no token. -/
theorem template_to_module_loop_line_unchanged (os : Calls) (fuel : Nat)
    (module id selinux_id : CStr) (pre body post written : Bytes) (rc : Int)
    (hpre : whole_lines pre) (hbody : '\n' ∉ body)
    (hlen : body.length + 1 < MAX_LINE_SIZE_MODULE) (hnul : '\x00' ∉ body)
    (hid : ¬ REPLACE_ID <:+: body ++ ['\n']) (happ : ¬ REPLACE_APP <:+: body ++ ['\n'])
    (hrc : 0 ≤ rc) :
    template_to_module_loop os fuel module id selinux_id
        (pre ++ (body ++ ['\n'] ++ post)).length (pre ++ (body ++ ['\n'] ++ post)) written rc =
      match template_to_module_loop os fuel module id selinux_id pre.length pre written rc with
      | .done (rc1, w1) =>
        if rc1 < 0 then .done (rc1, w1)
        else if os.fputs module w1 (body ++ ['\n']) < 0 then
          .done (os.fputs module w1 (body ++ ['\n']), w1)
        else
          template_to_module_loop os fuel module id selinux_id post.length post
            (w1 ++ (body ++ ['\n'])) (os.fputs module w1 (body ++ ['\n']))
      | .undefined => .undefined
      | .out_of_fuel => .out_of_fuel := by
  rw [template_to_module_loop_append os fuel module id selinux_id pre.length _
    (body.length + post.length + 1) pre (body ++ ['\n'] ++ post) written rc hpre (Nat.le_refl _)
    (Nat.le_refl _) (by simp; omega) hrc]
  cases template_to_module_loop os fuel module id selinux_id pre.length pre written rc with
  | undefined => rfl
  | out_of_fuel => rfl
  | done r =>
    obtain ⟨rc1, w1⟩ := r
    simp only []
    rw [template_to_module_loop_line os fuel module id selinux_id _ body post w1 rc1 hbody hlen
      hnul hid happ (by omega)]

/-- Witness of C5 (amended): a blank line between a rule line and a comment. -/
theorem template_to_module_loop_line_unchanged_witness :
    template_to_module_loop calls_ok 1 "m".toList "x".toList "x".toList
        ("allow ~APP~;\n".toList ++ ([] ++ ['\n'] ++ "# end\n".toList)).length
        ("allow ~APP~;\n".toList ++ ([] ++ ['\n'] ++ "# end\n".toList)) [] 0 =
      match template_to_module_loop calls_ok 1 "m".toList "x".toList "x".toList
          "allow ~APP~;\n".toList.length "allow ~APP~;\n".toList [] 0 with
      | .done (rc1, w1) =>
        if rc1 < 0 then .done (rc1, w1)
        else if calls_ok.fputs "m".toList w1 ([] ++ ['\n']) < 0 then
          .done (calls_ok.fputs "m".toList w1 ([] ++ ['\n']), w1)
        else
          template_to_module_loop calls_ok 1 "m".toList "x".toList "x".toList
            "# end\n".toList.length "# end\n".toList
            (w1 ++ ([] ++ ['\n'])) (calls_ok.fputs "m".toList w1 ([] ++ ['\n']))
      | .undefined => .undefined
      | .out_of_fuel => .out_of_fuel :=
  template_to_module_loop_line_unchanged calls_ok 1 "m".toList "x".toList "x".toList
    "allow ~APP~;\n".toList [] "# end\n".toList [] 0 (by simp [whole_lines]) (by simp)
    (by decide) (by simp) (by decide) (by decide) (by decide)

theorem generate_app_module_fc_loop_content (api : LabelApi) (os : Calls)
    (selinux_fc_file selinux_id : CStr) (paths : List path_t) (written : Bytes) (rc : Int)
    (hinfo : ∀ p ∈ paths, 0 ≤ (api.get_path_type_info p.path_type).1)
    (hpriv : ∀ p ∈ paths, (api.get_path_type_info p.path_type).2.2 = false)
    (hlabel : ∀ p ∈ paths,
      0 ≤ (api.generate_label selinux_id (api.get_path_type_info p.path_type).2.1).1)
    (hlen : ∀ p ∈ paths,
      p.path.length + (fc_label api selinux_id p).length + 32 + 6 < MAX_LINE_SIZE_MODULE)
    (hputs : ∀ w s, 0 ≤ os.fputs selinux_fc_file w s) :
    ∃ rc1, generate_app_module_fc_loop api os selinux_fc_file selinux_id paths written rc
      = .done (rc1, written ++ fc_content api selinux_id paths) := by
  induction paths generalizing written rc with
  | nil => exact ⟨rc, by simp [generate_app_module_fc_loop, fc_content]⟩
  | cons p paths ih =>
    have h1 := hinfo p (List.mem_cons_self _ _)
    have hpub := hpriv p (List.mem_cons_self _ _)
    have h2 := hlabel p (List.mem_cons_self _ _)
    have h3 := hlen p (List.mem_cons_self _ _)
    have hl : fc_label api selinux_id p
        = (api.generate_label selinux_id (api.get_path_type_info p.path_type).2.1).2 := by
      simp [fc_label, hpub]
    rw [hl] at h3
    obtain ⟨rc1, h⟩ := ih
      (written ++ (p.path ++ GEN_CONTEXT_BEGIN ++
        (api.generate_label selinux_id (api.get_path_type_info p.path_type).2.1).2
        ++ GEN_CONTEXT_END))
      (os.fputs selinux_fc_file written (p.path ++ GEN_CONTEXT_BEGIN ++
        (api.generate_label selinux_id (api.get_path_type_info p.path_type).2.1).2
        ++ GEN_CONTEXT_END))
      (fun q hq => hinfo q (List.mem_cons_of_mem _ hq))
      (fun q hq => hpriv q (List.mem_cons_of_mem _ hq))
      (fun q hq => hlabel q (List.mem_cons_of_mem _ hq))
      (fun q hq => hlen q (List.mem_cons_of_mem _ hq))
    refine ⟨rc1, ?_⟩
    simp only [generate_app_module_fc_loop, if_neg (not_lt.2 h1), hpub, Bool.not_false,
      if_true, if_neg (not_lt.2 h2), ge_iff_le, if_neg (not_le.2 h3), Bool.false_eq_true,
      if_false, if_neg (not_lt.2 (hputs _ _)), h, fc_content, hl]
    simp [GEN_CONTEXT_BEGIN, GEN_CONTEXT_END]

/-- When every path type is private and every step succeeds (the file opens,
every path type is known, every label is generated, every line passes the
length check, every write succeeds), generate_app_module_fc writes to the .fc
file, for the paths in their order, one line
path gen_context(system_u:object_r:label,s0) and a newline per path, the label
being the generated one; it returns the status of fclose. -/
theorem generate_app_module_fc_private_content (api : LabelApi) (os : Calls) (fs : FileSystem)
    (selinux_fc_file selinux_id : CStr) (paths : List path_t)
    (hopen : 0 ≤ os.fopen_w selinux_fc_file)
    (hinfo : ∀ p ∈ paths, 0 ≤ (api.get_path_type_info p.path_type).1)
    (hpriv : ∀ p ∈ paths, (api.get_path_type_info p.path_type).2.2 = false)
    (hlabel : ∀ p ∈ paths,
      0 ≤ (api.generate_label selinux_id (api.get_path_type_info p.path_type).2.1).1)
    (hlen : ∀ p ∈ paths,
      p.path.length + (fc_label api selinux_id p).length + 32 + 6 < MAX_LINE_SIZE_MODULE)
    (hputs : ∀ w s, 0 ≤ os.fputs selinux_fc_file w s) :
    generate_app_module_fc api os fs selinux_fc_file paths selinux_id
      = .done (os.fclose_w selinux_fc_file,
          fs.write selinux_fc_file (fc_content api selinux_id paths)) := by
  obtain ⟨rc1, h⟩ := generate_app_module_fc_loop_content api os selinux_fc_file selinux_id
    paths [] 0 hinfo hpriv hlabel hlen hputs
  simp only [generate_app_module_fc, if_neg (not_lt.2 hopen), h, List.nil_append]

/-- The loop of generate_app_module_fc at a path of a public type that is
known: label is the global public_app and free(label) is reached on both
branches of the length check. -/
theorem generate_app_module_fc_loop_public (api : LabelApi) (os : Calls)
    (selinux_fc_file selinux_id : CStr) (p : path_t) (paths : List path_t) (written : Bytes)
    (rc : Int) (hinfo : 0 ≤ (api.get_path_type_info p.path_type).1)
    (hpub : (api.get_path_type_info p.path_type).2.2 = true) :
    generate_app_module_fc_loop api os selinux_fc_file selinux_id (p :: paths) written rc
      = .undefined := by
  simp only [generate_app_module_fc_loop, if_neg (not_lt.2 hinfo), hpub, Bool.not_true,
    Bool.false_eq_true, if_false, if_true, ite_self]

/-- C7, the code at a failing input: the id x and the single path
/opt/x/public of a public path type, every call succeeding and the line
passing the length check.  The specification gives the .fc file the line
/opt/x/public gen_context(system_u:object_r:public_app,s0); in
generate_app_module_fc the label of this path is the global public_app, which
is given to free before the line is written, and the run is undefined.  The
same path with a private type is written with the generated label. -/
theorem generate_app_module_fc_public_undefined :
    (label_api_public.get_path_type_info 1).2.2 = true ∧
    0 ≤ (label_api_public.get_path_type_info 1).1 ∧
    "/opt/x/public".toList.length + label_api_public.public_app.length + 32 + 6
      < MAX_LINE_SIZE_MODULE ∧
    fc_content label_api_public "x".toList [⟨"/opt/x/public".toList, 1⟩]
      = "/opt/x/public gen_context(system_u:object_r:public_app,s0)\n".toList ∧
    generate_app_module_fc label_api_public calls_ok templates_only "x.fc".toList
        [⟨"/opt/x/public".toList, 1⟩] "x".toList = .undefined ∧
    generate_app_module_fc label_api_public calls_ok templates_only "x.fc".toList
        [⟨"/opt/x/public".toList, 0⟩] "x".toList
      = .done (0, templates_only.write "x.fc".toList
          "/opt/x/public gen_context(system_u:object_r:App:x:data,s0)\n".toList) :=
  ⟨rfl, by decide, by decide, by decide, rfl, rfl⟩

/-- The loop of generate_app_module_fc at a path whose line would reach the
bound: nothing more is written and rc keeps the non-negative status of the
label. -/
theorem generate_app_module_fc_loop_too_long (api : LabelApi) (os : Calls)
    (selinux_fc_file selinux_id : CStr) (p : path_t) (paths : List path_t) (written : Bytes)
    (rc : Int) (hinfo : 0 ≤ (api.get_path_type_info p.path_type).1)
    (hpub : (api.get_path_type_info p.path_type).2.2 = false)
    (hlabel : 0 ≤ (api.generate_label selinux_id (api.get_path_type_info p.path_type).2.1).1)
    (hlong : MAX_LINE_SIZE_MODULE ≤ p.path.length +
      (api.generate_label selinux_id (api.get_path_type_info p.path_type).2.1).2.length
        + 32 + 6) :
    generate_app_module_fc_loop api os selinux_fc_file selinux_id (p :: paths) written rc
      = .done ((api.generate_label selinux_id (api.get_path_type_info p.path_type).2.1).1,
          written) := by
  simp only [generate_app_module_fc_loop, if_neg (not_lt.2 hinfo), hpub, Bool.not_false,
    if_true, if_neg (not_lt.2 hlabel), ge_iff_le, if_pos hlong, Bool.false_eq_true, if_false]

/-- With the example labels, a single path of 2041 bytes leaves an empty .fc file. -/
theorem generate_app_module_fc_path_2041 (q : CStr) (hq : q.length = 2041) :
    generate_app_module_fc label_api_example calls_ok templates_only "x.fc".toList
      [⟨q, 0⟩] "x".toList = .done (0, templates_only.write "x.fc".toList []) := by
  have hlong : MAX_LINE_SIZE_MODULE ≤ (⟨q, 0⟩ : path_t).path.length +
      (label_api_example.generate_label "x".toList
        (label_api_example.get_path_type_info (⟨q, 0⟩ : path_t).path_type).2.1).2.length
        + 32 + 6 := by
    show MAX_LINE_SIZE_MODULE ≤ q.length + "App:x:data".toList.length + 32 + 6
    rw [hq]
    decide
  have h := generate_app_module_fc_loop_too_long label_api_example calls_ok "x.fc".toList
    "x".toList ⟨q, 0⟩ [] [] 0 (le_refl (0 : Int)) rfl (le_refl (0 : Int)) hlong
  simp only [generate_app_module_fc, h]
  rw [if_neg (by decide)]
  rfl

/-- C8, the code at a failing input: one path of 2041 bytes, whose line would
pass the bound.  generate_app_module_fc stops at the length check without
giving rc a negative value, then assigns rc the result of fclose: it returns 0
and leaves an empty .fc file. -/
theorem generate_app_module_fc_too_long_returns_zero :
    MAX_LINE_SIZE_MODULE ≤
      ('/' :: List.replicate 2040 'a').length + "App:x:data".toList.length + 32 + 6 ∧
    ∃ fs,
      generate_app_module_fc label_api_example calls_ok templates_only "x.fc".toList
          [⟨'/' :: List.replicate 2040 'a', 0⟩] "x".toList = .done (0, fs) ∧
      fs "x.fc".toList = some [] := by
  have hlen : ('/' :: List.replicate 2040 'a').length = 2041 := by
    rw [List.length_cons, List.length_replicate]
  refine ⟨?_, _, generate_app_module_fc_path_2041 _ hlen, if_pos rfl⟩
  rw [hlen]
  decide

/-- C9, the code at a failing input: the id x, every call succeeding except
launch_compile, which returns -1.  create_selinux_rules removes the three
source files, then assigns rc the result of destroy_semanage_handle and
returns 0. -/
theorem create_selinux_rules_compile_failure_returns_zero :
    (({ calls_ok with launch_compile := fun fs => (-1, fs) } : Calls).launch_compile
        templates_only).1 < 0 ∧
    ∃ fs calls,
      create_selinux_rules ⟨none, none, none⟩ (fun _ => true) label_api_example
          { calls_ok with launch_compile := fun fs => (-1, fs) } semanage_ok 1 templates_only
          ⟨some "x".toList, [⟨"/opt/x/bin/x".toList, 0⟩]⟩ none none none
        = .done (0, fs, calls) ∧
      fs (DEFAULT_SELINUX_RULES_DIR ++ "x.te".toList) = none := by
  refine ⟨by decide, _, _, rfl, ?_⟩
  decide

/-- C10, the code at a failing input: the id x, every call succeeding except
the fclose of the .te template, which fails with EIO (5).
generate_app_module_files returns -5 at once and the .te file that the call
has just written is still there. -/
theorem generate_app_module_files_leaves_te_file :
    templates_only (DEFAULT_SELINUX_RULES_DIR ++ "x.te".toList) = none ∧
    ∃ fs,
      generate_app_module_files label_api_example
          { calls_ok with
              fclose_r := fun p => if p = DEFAULT_SELINUX_TE_TEMPLATE_FILE then -5 else 0 }
          1 templates_only module_x ⟨some "x".toList, [⟨"/opt/x/bin/x".toList, 0⟩]⟩
        = .done (-5, fs) ∧
      fs (DEFAULT_SELINUX_RULES_DIR ++ "x.te".toList) = some "type x_t;\n".toList := by
  refine ⟨by decide, _, rfl, ?_⟩
  decide

/-! ## Install and uninstall of the SELinux module -/

theorem init_selinux_module_ok (env : Environ) (alloc_ok : Nat → Bool) (id : CStr)
    (te_template if_template rules_dir : Option CStr) (halloc : ∀ k, alloc_ok k = true) :
    init_selinux_module env alloc_ok (some id) te_template if_template rules_dir
      = (0, module_of env id te_template if_template rules_dir) := by
  simp [init_selinux_module, generate_path_module_files, selinux_module_zero, halloc, module_of]

theorem create_semanage_handle_ok (sm : Semanage) (hh : sm.handle_create = true)
    (hc : 0 ≤ sm.connect) (hp : sm.set_default_priority = 0) :
    create_semanage_handle sm
      = .done (0, true, [.handle_create, .set_create_store, .connect, .set_default_priority]) := by
  simp [create_semanage_handle, hh, not_lt.2 hc, hp]

theorem remove_app_module_files_module_of (os : Calls) (fs : FileSystem) (env : Environ)
    (id : CStr) (te_template if_template rules_dir : Option CStr) :
    remove_app_module_files os fs (module_of env id te_template if_template rules_dir) =
      if os.remove_file (get_selinux_rules_dir env rules_dir ++ id ++ TE_EXTENSION) < 0 then
        (os.remove_file (get_selinux_rules_dir env rules_dir ++ id ++ TE_EXTENSION), fs)
      else if os.remove_file (get_selinux_rules_dir env rules_dir ++ id ++ IF_EXTENSION) < 0 then
        (os.remove_file (get_selinux_rules_dir env rules_dir ++ id ++ IF_EXTENSION),
          fs.erase (get_selinux_rules_dir env rules_dir ++ id ++ TE_EXTENSION))
      else if os.remove_file (get_selinux_rules_dir env rules_dir ++ id ++ FC_EXTENSION) < 0 then
        (os.remove_file (get_selinux_rules_dir env rules_dir ++ id ++ FC_EXTENSION),
          (fs.erase (get_selinux_rules_dir env rules_dir ++ id ++ TE_EXTENSION)).erase
            (get_selinux_rules_dir env rules_dir ++ id ++ IF_EXTENSION))
      else
        (0, ((fs.erase (get_selinux_rules_dir env rules_dir ++ id ++ TE_EXTENSION)).erase
            (get_selinux_rules_dir env rules_dir ++ id ++ IF_EXTENSION)).erase
            (get_selinux_rules_dir env rules_dir ++ id ++ FC_EXTENSION)) := by
  simp only [remove_app_module_files, module_of, remove_file]
  split_ifs <;> rfl

theorem remove_pp_files_module_of (os : Calls) (fs : FileSystem) (env : Environ)
    (id : CStr) (te_template if_template rules_dir : Option CStr) :
    remove_pp_files os fs (module_of env id te_template if_template rules_dir) =
      if os.remove_file (get_selinux_rules_dir env rules_dir ++ id ++ PP_EXTENSION) < 0 then
        (os.remove_file (get_selinux_rules_dir env rules_dir ++ id ++ PP_EXTENSION), fs)
      else (0, fs.erase (get_selinux_rules_dir env rules_dir ++ id ++ PP_EXTENSION)) := by
  simp only [remove_pp_files, module_of, remove_file]
  split_ifs <;> rfl

theorem erase_self (fs : FileSystem) (p : CStr) : fs.erase p p = none := if_pos rfl

theorem erase_none (fs : FileSystem) (p q : CStr) (h : fs q = none) : fs.erase p q = none := by
  unfold FileSystem.erase
  split
  · rfl
  · exact h

/-- Counterexample to C11: the id x, the compiler failing with -1 and the
removal of x.te failing with EACCES (-13).  The clean-up stops at x.te: x.if
and x.fc, written by the call, are still there when it returns. -/
theorem create_selinux_rules_cleanup_counterexample :
    ∃ st fs calls,
      create_selinux_rules ⟨none, none, none⟩ (fun _ => true) label_api_example
          { calls_ok with
              launch_compile := fun fs => (-1, fs),
              remove_file := fun p =>
                if p = DEFAULT_SELINUX_RULES_DIR ++ "x.te".toList then -13 else 0 }
          semanage_ok 1 templates_only
          ⟨some "x".toList, [⟨"/opt/x/bin/x".toList, 0⟩]⟩ none none none
        = .done (st, fs, calls) ∧
      fs (DEFAULT_SELINUX_RULES_DIR ++ "x.if".toList) = some "interface(x)\n".toList ∧
      fs (DEFAULT_SELINUX_RULES_DIR ++ "x.fc".toList)
        = some "/opt/x/bin/x gen_context(system_u:object_r:App:x:data,s0)\n".toList := by
  refine ⟨_, _, _, rfl, ?_, ?_⟩ <;> decide

/-- C11 (amended): in create_selinux_rules, once the handle is taken and the
three sources are generated: if the compiler fails, remove_app_module_files is
run on what the compiler left, which removes .te, .if and .fc in this order
and stops at the first removal that fails (nothing is removed when the removal
of .te fails, all three are gone when the three removals succeed); if
install_module fails, remove_pp_files is run first and then
remove_app_module_files in the same way (the four files are gone when the four
removals succeed); on success the files are those the compiler left. -/
theorem create_selinux_rules_cleanup (env : Environ) (alloc_ok : Nat → Bool) (api : LabelApi)
    (os : Calls) (sm : Semanage) (fuel : Nat) (fs fs1 : FileSystem) (secure_app : secure_app_t)
    (id dir : CStr) (te_template if_template rules_dir : Option CStr) (rc : Int)
    (hid : secure_app.id = some id) (halloc : ∀ k, alloc_ok k = true)
    (hh : sm.handle_create = true) (hc : 0 ≤ sm.connect) (hp : sm.set_default_priority = 0)
    (hgen : generate_app_module_files api os fuel fs
      (module_of env id te_template if_template rules_dir) secure_app = .done (rc, fs1))
    (hrc : 0 ≤ rc) (hdir : dir = get_selinux_rules_dir env rules_dir) :
    ∃ st fs2 calls,
      create_selinux_rules env alloc_ok api os sm fuel fs secure_app te_template if_template
        rules_dir = .done (st, fs2, calls) ∧
      ((os.launch_compile fs1).1 < 0 →
        fs2 = (remove_app_module_files os (os.launch_compile fs1).2
          (module_of env id te_template if_template rules_dir)).2 ∧
        (os.remove_file (dir ++ id ++ TE_EXTENSION) < 0 → fs2 = (os.launch_compile fs1).2) ∧
        (0 ≤ os.remove_file (dir ++ id ++ TE_EXTENSION) →
          0 ≤ os.remove_file (dir ++ id ++ IF_EXTENSION) →
          0 ≤ os.remove_file (dir ++ id ++ FC_EXTENSION) →
          fs2 (dir ++ id ++ TE_EXTENSION) = none ∧ fs2 (dir ++ id ++ IF_EXTENSION) = none ∧
          fs2 (dir ++ id ++ FC_EXTENSION) = none)) ∧
      (0 ≤ (os.launch_compile fs1).1 →
        (install_module sm (some (dir ++ id ++ PP_EXTENSION))).1 < 0 →
        fs2 = (remove_app_module_files os
          (remove_pp_files os (os.launch_compile fs1).2
            (module_of env id te_template if_template rules_dir)).2
          (module_of env id te_template if_template rules_dir)).2 ∧
        (0 ≤ os.remove_file (dir ++ id ++ PP_EXTENSION) →
          0 ≤ os.remove_file (dir ++ id ++ TE_EXTENSION) →
          0 ≤ os.remove_file (dir ++ id ++ IF_EXTENSION) →
          0 ≤ os.remove_file (dir ++ id ++ FC_EXTENSION) →
          fs2 (dir ++ id ++ PP_EXTENSION) = none ∧ fs2 (dir ++ id ++ TE_EXTENSION) = none ∧
          fs2 (dir ++ id ++ IF_EXTENSION) = none ∧ fs2 (dir ++ id ++ FC_EXTENSION) = none)) ∧
      (0 ≤ (os.launch_compile fs1).1 →
        0 ≤ (install_module sm (some (dir ++ id ++ PP_EXTENSION))).1 →
        fs2 = (os.launch_compile fs1).2) := by
  subst hdir
  have hpp : (module_of env id te_template if_template rules_dir).selinux_pp_file
      = some (get_selinux_rules_dir env rules_dir ++ id ++ PP_EXTENSION) := rfl
  simp only [create_selinux_rules, hid, init_selinux_module_ok env alloc_ok id te_template
    if_template rules_dir halloc, create_semanage_handle_ok sm hh hc hp, hgen,
    lt_self_iff_false, if_false, ne_eq, not_true_eq_false, if_neg (not_lt.2 hrc), hpp]
  by_cases hcomp : (os.launch_compile fs1).1 < 0
  · simp only [if_pos hcomp]
    refine ⟨_, _, _, rfl, fun _ => ⟨rfl, ?_, ?_⟩, fun h => absurd hcomp (not_lt.2 h),
      fun h => absurd hcomp (not_lt.2 h)⟩
    · intro hte
      rw [remove_app_module_files_module_of, if_pos hte]
    · intro hte hif hfc
      rw [remove_app_module_files_module_of, if_neg (not_lt.2 hte), if_neg (not_lt.2 hif),
        if_neg (not_lt.2 hfc)]
      exact ⟨erase_none _ _ _ (erase_none _ _ _ (erase_self _ _)),
        erase_none _ _ _ (erase_self _ _), erase_self _ _⟩
  · simp only [if_neg hcomp]
    by_cases hinst : (install_module sm
        (some (get_selinux_rules_dir env rules_dir ++ id ++ PP_EXTENSION))).1 < 0
    · simp only [if_pos hinst]
      refine ⟨_, _, _, rfl, fun h => absurd h hcomp, fun _ _ => ⟨rfl, ?_⟩,
        fun _ h => absurd hinst (not_lt.2 h)⟩
      intro hpp2 hte hif hfc
      rw [remove_pp_files_module_of, if_neg (not_lt.2 hpp2), remove_app_module_files_module_of,
        if_neg (not_lt.2 hte), if_neg (not_lt.2 hif), if_neg (not_lt.2 hfc)]
      exact ⟨erase_none _ _ _ (erase_none _ _ _ (erase_none _ _ _ (erase_self _ _))),
        erase_none _ _ _ (erase_none _ _ _ (erase_self _ _)),
        erase_none _ _ _ (erase_self _ _), erase_self _ _⟩
    · simp only [if_neg hinst]
      exact ⟨_, _, _, rfl, fun h => absurd h hcomp, fun _ h => absurd h hinst, fun _ _ => rfl⟩

/-- Witness of C11 (amended): the id x, the compiler failing, every removal
succeeding. -/
theorem create_selinux_rules_cleanup_witness :
    ∃ st fs2 calls,
      create_selinux_rules ⟨none, none, none⟩ (fun _ => true) label_api_example
          { calls_ok with launch_compile := fun fs => (-1, fs) } semanage_ok 1 templates_only
          ⟨some "x".toList, [⟨"/opt/x/bin/x".toList, 0⟩]⟩ none none none
        = .done (st, fs2, calls) ∧
      fs2 (DEFAULT_SELINUX_RULES_DIR ++ "x".toList ++ TE_EXTENSION) = none ∧
      fs2 (DEFAULT_SELINUX_RULES_DIR ++ "x".toList ++ IF_EXTENSION) = none ∧
      fs2 (DEFAULT_SELINUX_RULES_DIR ++ "x".toList ++ FC_EXTENSION) = none := by
  obtain ⟨st, fs2, calls, h, h1, _, _⟩ := create_selinux_rules_cleanup ⟨none, none, none⟩
    (fun _ => true) label_api_example { calls_ok with launch_compile := fun fs => (-1, fs) }
    semanage_ok 1 templates_only _ ⟨some "x".toList, [⟨"/opt/x/bin/x".toList, 0⟩]⟩
    "x".toList DEFAULT_SELINUX_RULES_DIR none none none 0 rfl (fun _ => rfl) rfl (by decide) rfl
    rfl (by decide) rfl
  exact ⟨st, fs2, calls, h, (h1 (by decide)).2.2 (by decide) (by decide) (by decide)⟩

/-! ## The store handle is scoped to the call -/

theorem handle_scoped_nil (sm : Semanage) : handle_scoped sm [] :=
  ⟨rfl, Or.inl rfl⟩

theorem handle_scoped_failed (sm : Semanage) (rc : Int) (connected : Bool)
    (acquire : List StoreCall)
    (h : create_semanage_handle sm = .done (rc, connected, acquire)) (hrc : rc < 0) :
    handle_scoped sm acquire := by
  refine ⟨?_, Or.inr ⟨rc, connected, acquire, h, Or.inl ⟨hrc, rfl⟩⟩⟩
  unfold create_semanage_handle at h
  split_ifs at h
  · cases h
    simp [destroy_semanage_handle]
  · cases h
    simp [destroy_semanage_handle]
  · cases h
    exact absurd hrc (by decide)

theorem handle_scoped_released (sm : Semanage) (connected : Bool) (acquire work : List StoreCall)
    (h : create_semanage_handle sm = .done (0, connected, acquire))
    (hd : StoreCall.handle_destroy ∉ work) (hc : StoreCall.handle_create ∉ work) :
    handle_scoped sm (acquire ++ work ++ (destroy_semanage_handle sm connected).2) := by
  have hshape : connected = true ∧ acquire
      = [.handle_create, .set_create_store, .connect, .set_default_priority] := by
    unfold create_semanage_handle at h
    split_ifs at h with h1 h2 h3
    · simp only [Run.done.injEq, Prod.mk.injEq] at h
      exact absurd h.1 (ne_of_lt h2)
    · simp only [Run.done.injEq, Prod.mk.injEq] at h
      exact absurd h.1 h3
    · simp only [Run.done.injEq, Prod.mk.injEq] at h
      exact ⟨h.2.1.symm, h.2.2.symm⟩
  obtain ⟨hconn, hacq⟩ := hshape
  have hcount : (acquire ++ work ++ (destroy_semanage_handle sm connected).2).count
      .handle_destroy = 1 := by
    subst hconn hacq
    simp [destroy_semanage_handle, List.count_eq_zero.2 hd]
  have hcount2 : (acquire ++ work ++ (destroy_semanage_handle sm connected).2).count
      .handle_create = 1 := by
    subst hconn hacq
    simp [destroy_semanage_handle, List.count_eq_zero.2 hc]
  refine ⟨by rw [hcount, hcount2], Or.inr ⟨0, connected, acquire, h, Or.inr ⟨rfl, work, ?_, rfl,
    hcount⟩⟩⟩
  subst hacq
  simpa using hd

theorem install_module_calls (sm : Semanage) (pp_file : Option CStr) :
    StoreCall.handle_destroy ∉ (install_module sm pp_file).2 ∧
    StoreCall.handle_create ∉ (install_module sm pp_file).2 := by
  unfold install_module
  split_ifs <;> simp

theorem remove_module_calls (sm : Semanage) (strdup_ok : Bool) (module_name : CStr) (rc : Int)
    (calls : List StoreCall) (h : remove_module sm strdup_ok module_name = .done (rc, calls)) :
    StoreCall.handle_destroy ∉ calls ∧ StoreCall.handle_create ∉ calls := by
  unfold remove_module at h
  split_ifs at h <;> cases h <;> simp

theorem check_module_calls (sm : Semanage) (id : CStr) :
    StoreCall.handle_destroy ∉ (check_module sm id).2 ∧
    StoreCall.handle_create ∉ (check_module sm id).2 := by
  unfold check_module
  split_ifs <;> simp

theorem create_semanage_handle_cases (sm : Semanage) :
    create_semanage_handle sm = .undefined ∨
    (∃ rc acquire, rc < 0 ∧ create_semanage_handle sm = .done (rc, false, acquire)) ∨
    (∃ rc acquire, 0 < rc ∧ create_semanage_handle sm = .done (rc, false, acquire)) ∨
    create_semanage_handle sm
      = .done (0, true, [.handle_create, .set_create_store, .connect, .set_default_priority]) := by
  unfold create_semanage_handle
  by_cases hh : sm.handle_create = true
  · by_cases hc : sm.connect < 0
    · right; left
      exact ⟨sm.connect, [.handle_create, .set_create_store, .connect]
        ++ (destroy_semanage_handle sm false).2, hc, by simp [hh, hc]⟩
    · by_cases hp : sm.set_default_priority = 0
      · right; right; right
        simp [hh, hc, hp]
      · rcases lt_or_gt_of_ne hp with hneg | hpos
        · right; left
          exact ⟨sm.set_default_priority,
            [.handle_create, .set_create_store, .connect, .set_default_priority]
              ++ (destroy_semanage_handle sm true).2, hneg, by simp [hh, hc, hp]⟩
        · right; right; left
          exact ⟨sm.set_default_priority,
            [.handle_create, .set_create_store, .connect, .set_default_priority]
              ++ (destroy_semanage_handle sm true).2, hpos, by simp [hh, hc, hp]⟩
  · left
    simp [hh]

theorem create_selinux_rules_handle_scoped (env : Environ) (alloc_ok : Nat → Bool)
    (api : LabelApi) (os : Calls) (sm : Semanage) (fuel : Nat) (fs fs1 : FileSystem)
    (secure_app : secure_app_t) (te_template if_template rules_dir : Option CStr) (rc : Int)
    (calls : List StoreCall)
    (h : create_selinux_rules env alloc_ok api os sm fuel fs secure_app te_template if_template
      rules_dir = .done (rc, fs1, calls)) : handle_scoped sm calls := by
  unfold create_selinux_rules at h
  split at h
  · cases h
    exact handle_scoped_nil sm
  · rename_i id hid
    simp only [] at h
    by_cases hinit : (init_selinux_module env alloc_ok (some id) te_template if_template
        rules_dir).1 < 0
    · simp only [if_pos hinit] at h
      cases h
      exact handle_scoped_nil sm
    · simp only [if_neg hinit] at h
      rcases create_semanage_handle_cases sm with h1 | ⟨rc0, acq, hneg, h1⟩ |
          ⟨rc0, acq, hpos, h1⟩ | h1
      · simp [h1] at h
      · simp only [h1, if_pos hneg] at h
        cases h
        exact handle_scoped_failed sm _ false _ h1 hneg
      · simp only [h1, if_neg (not_lt.2 (le_of_lt hpos)), ne_eq, if_pos (ne_of_gt hpos)] at h
        cases h
      · simp only [h1, lt_self_iff_false, if_false, ne_eq, not_true_eq_false] at h
        cases hg : generate_app_module_files api os fuel fs (init_selinux_module env alloc_ok
            (some id) te_template if_template rules_dir).2 secure_app with
        | undefined => simp [hg] at h
        | out_of_fuel => simp [hg] at h
        | done r =>
          obtain ⟨rcg, fsg⟩ := r
          simp only [hg] at h
          by_cases h2 : rcg < 0
          · simp only [if_pos h2] at h
            cases h
            simpa using handle_scoped_released sm true _ [] h1 (by simp) (by simp)
          · simp only [if_neg h2] at h
            by_cases h3 : (os.launch_compile fsg).1 < 0
            · simp only [if_pos h3] at h
              cases h
              simpa using handle_scoped_released sm true _ [] h1 (by simp) (by simp)
            · simp only [if_neg h3] at h
              split_ifs at h
              · cases h
                exact handle_scoped_released sm true _ _ h1
                  (install_module_calls sm _).1 (install_module_calls sm _).2
              · cases h
                exact handle_scoped_released sm true _ _ h1
                  (install_module_calls sm _).1 (install_module_calls sm _).2

theorem remove_selinux_rules_handle_scoped (env : Environ) (alloc_ok : Nat → Bool) (os : Calls)
    (sm : Semanage) (fs fs1 : FileSystem) (secure_app : secure_app_t)
    (rules_dir : Option CStr) (rc : Int) (calls : List StoreCall)
    (h : remove_selinux_rules env alloc_ok os sm fs secure_app rules_dir
      = .done (rc, fs1, calls)) : handle_scoped sm calls := by
  unfold remove_selinux_rules at h
  split at h
  · cases h
    exact handle_scoped_nil sm
  · rename_i id hid
    simp only [] at h
    by_cases hinit : (init_selinux_module env alloc_ok (some id) none none rules_dir).1 < 0
    · simp only [if_pos hinit] at h
      cases h
      exact handle_scoped_nil sm
    · simp only [if_neg hinit] at h
      split_ifs at h with hrm
      · cases h
        exact handle_scoped_nil sm
      · rcases create_semanage_handle_cases sm with h1 | ⟨rc0, acq, hneg, h1⟩ |
            ⟨rc0, acq, hpos, h1⟩ | h1
        · simp [h1] at h
        · simp only [h1, if_pos hneg] at h
          cases h
          exact handle_scoped_failed sm _ false _ h1 hneg
        · simp only [h1, if_neg (not_lt.2 (le_of_lt hpos)), ne_eq, if_pos (ne_of_gt hpos)] at h
          cases h
        · simp only [h1, lt_self_iff_false, if_false, ne_eq, not_true_eq_false] at h
          cases hrem : remove_module sm (alloc_ok 6) id with
          | undefined => simp [hrem] at h
          | out_of_fuel => simp [hrem] at h
          | done r =>
            obtain ⟨rcm, removal⟩ := r
            simp only [hrem] at h
            cases h
            exact handle_scoped_released sm true _ removal h1
              (remove_module_calls sm _ _ _ _ hrem).1 (remove_module_calls sm _ _ _ _ hrem).2

theorem check_module_in_policy_handle_scoped (sm : Semanage) (secure_app : secure_app_t)
    (rc : Int) (calls : List StoreCall)
    (h : check_module_in_policy sm secure_app = .done (rc, calls)) : handle_scoped sm calls := by
  unfold check_module_in_policy at h
  split at h
  · cases h
    exact handle_scoped_nil sm
  · rcases create_semanage_handle_cases sm with h1 | ⟨rc0, acq, hneg, h1⟩ |
        ⟨rc0, acq, hpos, h1⟩ | h1
    · simp [h1] at h
    · simp only [h1, if_pos hneg] at h
      cases h
      exact handle_scoped_failed sm _ false _ h1 hneg
    · simp only [h1, if_neg (not_lt.2 (le_of_lt hpos)), ne_eq, if_pos (ne_of_gt hpos)] at h
      cases h
    · simp only [h1, lt_self_iff_false, if_false, ne_eq, not_true_eq_false] at h
      cases h
      exact handle_scoped_released sm true _ _ h1
        (check_module_calls sm _).1 (check_module_calls sm _).2

/-- C12: in create_selinux_rules, remove_selinux_rules and
check_module_in_policy, whenever the function returns, the calls it made to the
store are scoped: when create_semanage_handle succeeded they end with the calls
of one destroy_semanage_handle, the only destruction of the handle; when
create_semanage_handle failed the function makes no call of its own after it;
when the function returned before asking for a handle it made no call at all.
As many handles are destroyed as were created, so none outlives the call. -/
theorem semanage_handle_scoped (env : Environ) (alloc_ok : Nat → Bool) (api : LabelApi)
    (os : Calls) (sm : Semanage) (fuel : Nat) (fs : FileSystem) (secure_app : secure_app_t)
    (te_template if_template rules_dir : Option CStr) :
    (∀ rc fs1 calls,
      create_selinux_rules env alloc_ok api os sm fuel fs secure_app te_template if_template
        rules_dir = .done (rc, fs1, calls) → handle_scoped sm calls) ∧
    (∀ rc fs1 calls,
      remove_selinux_rules env alloc_ok os sm fs secure_app rules_dir = .done (rc, fs1, calls) →
        handle_scoped sm calls) ∧
    (∀ rc calls,
      check_module_in_policy sm secure_app = .done (rc, calls) → handle_scoped sm calls) :=
  ⟨fun rc fs1 calls h => create_selinux_rules_handle_scoped env alloc_ok api os sm fuel fs fs1
      secure_app te_template if_template rules_dir rc calls h,
   fun rc fs1 calls h => remove_selinux_rules_handle_scoped env alloc_ok os sm fs fs1 secure_app
      rules_dir rc calls h,
   fun rc calls h => check_module_in_policy_handle_scoped sm secure_app rc calls h⟩

/-- Witness of C12: the install of the id x on a host where everything
succeeds, its uninstall, and the query of the policy. -/
theorem semanage_handle_scoped_witness :
    (∃ rc fs1 calls,
      create_selinux_rules ⟨none, none, none⟩ (fun _ => true) label_api_example calls_ok
        semanage_ok 1 templates_only ⟨some "x".toList, []⟩ none none none
        = .done (rc, fs1, calls) ∧ handle_scoped semanage_ok calls) ∧
    (∃ rc fs1 calls,
      remove_selinux_rules ⟨none, none, none⟩ (fun _ => true) calls_ok semanage_ok
        templates_only ⟨some "x".toList, []⟩ none = .done (rc, fs1, calls) ∧
      handle_scoped semanage_ok calls) ∧
    (∃ rc calls,
      check_module_in_policy semanage_ok ⟨some "x".toList, []⟩ = .done (rc, calls) ∧
      handle_scoped semanage_ok calls) :=
  ⟨⟨_, _, _, rfl, (semanage_handle_scoped ⟨none, none, none⟩ (fun _ => true) label_api_example
      calls_ok semanage_ok 1 templates_only ⟨some "x".toList, []⟩ none none none).1 _ _ _ rfl⟩,
   ⟨_, _, _, rfl, (semanage_handle_scoped ⟨none, none, none⟩ (fun _ => true) label_api_example
      calls_ok semanage_ok 1 templates_only ⟨some "x".toList, []⟩ none none none).2.1 _ _ _ rfl⟩,
   ⟨_, _, rfl, (semanage_handle_scoped ⟨none, none, none⟩ (fun _ => true) label_api_example
      calls_ok semanage_ok 1 templates_only ⟨some "x".toList, []⟩ none none none).2.2 _ _ rfl⟩⟩

/-! ## Uninstall of the SELinux module -/

/-- Counterexample to C14: on a host with SMACK enabled, a first uninstall of
the id x removes the rules file and returns 0; the second one, the file being
gone, fails in remove_load_rules with -ENOENT.  And when the unloading fails
(smack_accesses_clear returns -1) the rules file is not deleted. -/
theorem remove_smack_rules_twice_counterexample :
    (remove_smack_rules calls_ok smack_ok
      (host_of (single_file (DEFAULT_SMACK_RULES_DIR ++ "app-x".toList) "rules\n".toList))
      ⟨some "x".toList, []⟩ none).1 = 0 ∧
    (remove_smack_rules calls_ok smack_ok
      (remove_smack_rules calls_ok smack_ok
        (host_of (single_file (DEFAULT_SMACK_RULES_DIR ++ "app-x".toList) "rules\n".toList))
        ⟨some "x".toList, []⟩ none).2
      ⟨some "x".toList, []⟩ none).1 = -2 ∧
    (remove_smack_rules calls_ok { smack_ok with smack_accesses_clear := -1 }
      (host_of (single_file (DEFAULT_SMACK_RULES_DIR ++ "app-x".toList) "rules\n".toList))
      ⟨some "x".toList, []⟩ none).1 = -1 ∧
    (remove_smack_rules calls_ok { smack_ok with smack_accesses_clear := -1 }
      (host_of (single_file (DEFAULT_SMACK_RULES_DIR ++ "app-x".toList) "rules\n".toList))
      ⟨some "x".toList, []⟩ none).2.fs (DEFAULT_SMACK_RULES_DIR ++ "app-x".toList)
      = some "rules\n".toList := by
  refine ⟨?_, ?_, ?_, ?_⟩ <;> decide

theorem remove_load_rules_fs (sk : SmackCalls) (host : Host) (file : CStr) :
    (remove_load_rules sk host file).2.fs = host.fs := by
  unfold remove_load_rules
  cases host.fs file <;> simp only [] <;> split_ifs <;> rfl

theorem remove_load_rules_missing (sk : SmackCalls) (host : Host) (file : CStr)
    (h : host.fs file = none) : (remove_load_rules sk host file).1 < 0 := by
  unfold remove_load_rules
  rw [h]
  simp only []
  split_ifs with h1
  · exact h1
  · show -ENOENT < 0
    decide

/-- C14 (amended): remove_smack_rules stops at the first failure.  With SMACK
enabled it first unloads the rules read from the file app-id, and when that
fails (as it does when the file does not exist) it returns this negative
status and leaves the files as they are; with SMACK not enabled, or once the
unloading has succeeded, it returns the status of remove_file, and the file is
gone when the removal succeeds. -/
theorem remove_smack_rules_stops_at_failure (os : Calls) (sk : SmackCalls) (host : Host)
    (secure_app : secure_app_t) (id file : CStr) (smack_rules_dir : Option CStr)
    (hid : secure_app.id = some id) (hmalloc : sk.malloc_ok = true)
    (hfile : file = get_smack_rules_dir sk smack_rules_dir ++ prefix_app_rules ++ id) :
    (sk.smack_enabled = true → (remove_load_rules sk host file).1 < 0 →
      remove_smack_rules os sk host secure_app smack_rules_dir = remove_load_rules sk host file ∧
      (remove_smack_rules os sk host secure_app smack_rules_dir).2.fs = host.fs) ∧
    (sk.smack_enabled = true → host.fs file = none →
      (remove_smack_rules os sk host secure_app smack_rules_dir).1 < 0) ∧
    ((sk.smack_enabled = false ∨ 0 ≤ (remove_load_rules sk host file).1) →
      (remove_smack_rules os sk host secure_app smack_rules_dir).1 = os.remove_file file ∧
      (0 ≤ os.remove_file file →
        (remove_smack_rules os sk host secure_app smack_rules_dir).2.fs file = none)) := by
  subst hfile
  have hpath : get_smack_rules_file_path sk (get_smack_rules_dir sk smack_rules_dir) id
      = some (get_smack_rules_dir sk smack_rules_dir ++ prefix_app_rules ++ id) := by
    simp [get_smack_rules_file_path, hmalloc]
  refine ⟨?_, ?_, ?_⟩
  · intro hen hfail
    have : remove_smack_rules os sk host secure_app smack_rules_dir
        = remove_load_rules sk host
          (get_smack_rules_dir sk smack_rules_dir ++ prefix_app_rules ++ id) := by
      simp only [remove_smack_rules, hid, hpath, hen, if_true, if_pos hfail]
    rw [this]
    exact ⟨rfl, remove_load_rules_fs sk host _⟩
  · intro hen hmiss
    have hfail := remove_load_rules_missing sk host _ hmiss
    simp only [remove_smack_rules, hid, hpath, hen, if_true, if_pos hfail]
    exact hfail
  · intro hcase
    have hun : ¬ (if sk.smack_enabled = true then remove_load_rules sk host
        (get_smack_rules_dir sk smack_rules_dir ++ prefix_app_rules ++ id) else (0, host)).1
        < 0 := by
      rcases hcase with h | h
      · simp [h]
      · split_ifs
        · exact not_lt.2 h
        · simp
    simp only [remove_smack_rules, hid, hpath, if_neg hun]
    refine ⟨?_, ?_⟩
    · unfold remove_file
      split_ifs <;> rfl
    · intro hrm
      simp only [remove_file, if_neg (not_lt.2 hrm)]
      exact erase_self _ _

/-- Witness of C14 (amended): the second uninstall of the id x, its rules file
being gone, on a host with SMACK enabled. -/
theorem remove_smack_rules_stops_at_failure_witness :
    (remove_smack_rules calls_ok smack_ok (host_of (fun _ => none)) ⟨some "x".toList, []⟩
      none).1 < 0 :=
  (remove_smack_rules_stops_at_failure calls_ok smack_ok (host_of (fun _ => none))
    ⟨some "x".toList, []⟩ "x".toList (DEFAULT_SMACK_RULES_DIR ++ prefix_app_rules ++ "x".toList)
    none rfl rfl rfl).2.1 rfl rfl

/-! ## Applying and saving the SMACK rules -/

/-- C17: in apply_save_accesses_file, when SMACK is enabled the rules are
applied to the kernel first: if that fails the function returns the negative
status having made this call only, the files being left as they were; if it
succeeds, the call that opens the rules file comes right after it.  When SMACK
is not enabled no call applies the rules and, the file being opened (created
or truncated, mode 0644), the file holds exactly what smack_accesses_save
wrote and the status is the one of smack_accesses_save. -/
theorem apply_save_accesses_file_order (sk : SmackCalls) (host : Host) (smack_rules_dir : CStr)
    (smack_handle : smack_handle_t) (file : CStr) (hmalloc : sk.malloc_ok = true)
    (hfile : file = smack_rules_dir ++ prefix_app_rules ++ smack_handle.id) :
    (sk.smack_enabled = true → sk.smack_accesses_apply smack_handle.smack_accesses < 0 →
      apply_save_accesses_file sk host smack_rules_dir smack_handle
        = (sk.smack_accesses_apply smack_handle.smack_accesses,
            { fs := host.fs, xattr := host.xattr,
              calls := host.calls ++ [.smack_accesses_apply] })) ∧
    (sk.smack_enabled = true → 0 ≤ sk.smack_accesses_apply smack_handle.smack_accesses →
      ∃ later, (apply_save_accesses_file sk host smack_rules_dir smack_handle).2.calls
        = host.calls ++ [.smack_accesses_apply, .open_write file 0o644] ++ later) ∧
    (sk.smack_enabled = false →
      SmackCall.smack_accesses_apply ∉
        ((apply_save_accesses_file sk host smack_rules_dir smack_handle).2.calls.drop
          host.calls.length) ∧
      (0 ≤ sk.open_write file →
        apply_save_accesses_file sk host smack_rules_dir smack_handle
          = ((sk.smack_accesses_save smack_handle.smack_accesses).1,
              { fs := host.fs.write file (sk.smack_accesses_save smack_handle.smack_accesses).2,
                xattr := host.xattr,
                calls := host.calls ++ [.open_write file 0o644, .smack_accesses_save, .close] }) ∧
        (apply_save_accesses_file sk host smack_rules_dir smack_handle).2.fs file
          = some (sk.smack_accesses_save smack_handle.smack_accesses).2)) := by
  subst hfile
  have hpath : get_smack_rules_file_path sk smack_rules_dir smack_handle.id
      = some (smack_rules_dir ++ prefix_app_rules ++ smack_handle.id) := by
    simp [get_smack_rules_file_path, hmalloc]
  refine ⟨?_, ?_, ?_⟩
  · intro hen hfail
    simp [apply_save_accesses_file, hen, hfail, Host.call]
  · intro hen hok
    simp only [apply_save_accesses_file, hen, true_and, if_neg (not_lt.2 hok), if_true, hpath,
      Host.call]
    split_ifs
    · exact ⟨[], by simp⟩
    · exact ⟨[.smack_accesses_save, .close], by simp⟩
  · intro hdis
    constructor
    · simp only [apply_save_accesses_file, hdis, Bool.false_eq_true, false_and, if_false, hpath,
        Host.call]
      split_ifs <;> simp
    · intro hopen
      have h : apply_save_accesses_file sk host smack_rules_dir smack_handle
          = ((sk.smack_accesses_save smack_handle.smack_accesses).1,
              { fs := host.fs.write (smack_rules_dir ++ prefix_app_rules ++ smack_handle.id)
                  (sk.smack_accesses_save smack_handle.smack_accesses).2,
                xattr := host.xattr,
                calls := host.calls ++ [.open_write
                  (smack_rules_dir ++ prefix_app_rules ++ smack_handle.id) 0o644,
                  .smack_accesses_save, .close] }) := by
        simp only [apply_save_accesses_file, hdis, Bool.false_eq_true, false_and, if_false,
          hpath, if_neg (not_lt.2 hopen)]
      rw [h]
      exact ⟨rfl, if_pos rfl⟩

/-- Witness of C17: the rules of the id x on a host with SMACK not enabled,
where the rules file held older bytes. -/
theorem apply_save_accesses_file_order_witness :
    (apply_save_accesses_file { smack_ok with smack_enabled := false }
      (host_of (single_file (DEFAULT_SMACK_RULES_DIR ++ "app-x".toList) "older\n".toList))
      DEFAULT_SMACK_RULES_DIR ⟨"x".toList, "App:x".toList, []⟩).2.fs
        (DEFAULT_SMACK_RULES_DIR ++ prefix_app_rules ++ "x".toList)
      = some ({ smack_ok with smack_enabled := false }.smack_accesses_save []).2 :=
  (((apply_save_accesses_file_order { smack_ok with smack_enabled := false }
    (host_of (single_file (DEFAULT_SMACK_RULES_DIR ++ "app-x".toList) "older\n".toList))
    DEFAULT_SMACK_RULES_DIR ⟨"x".toList, "App:x".toList, []⟩
    (DEFAULT_SMACK_RULES_DIR ++ prefix_app_rules ++ "x".toList) rfl rfl).2.2 rfl).2
    (by decide)).2

/-! ## Labelling the files -/

theorem label_path_missing (sk : SmackCalls) (host : Host) (path label : CStr)
    (is_executable is_transmute : Bool) (h : sk.check_file_exists path = false) :
    label_path sk host path label is_executable is_transmute = .done (-1, host) := by
  simp [label_path, label_file, h]

theorem smack_process_paths_loop_append (sk : SmackCalls)
    (defs : Nat → path_type_definitions_t) (before after : List path_t) (host host1 : Host)
    (h : smack_process_paths_loop sk defs before host = .done (0, host1)) :
    smack_process_paths_loop sk defs (before ++ after) host
      = smack_process_paths_loop sk defs after host1 := by
  induction before generalizing host with
  | nil =>
    simp only [smack_process_paths_loop, Run.done.injEq, Prod.mk.injEq, true_and] at h
    rw [List.nil_append, h]
  | cons p before ih =>
    simp only [List.cons_append, smack_process_paths_loop] at h ⊢
    cases hp : smack_process_path sk host p defs with
    | undefined => simp [hp] at h
    | out_of_fuel => simp [hp] at h
    | done r =>
      obtain ⟨rc, host2⟩ := r
      simp only [hp] at h ⊢
      by_cases hrc : rc < 0
      · simp only [if_pos hrc, Run.done.injEq, Prod.mk.injEq] at h
        exact absurd (h.1 ▸ hrc) (by decide)
      · simp only [if_neg hrc] at h ⊢
        exact ih host2 h

/-- Counterexample to C18: two paths, the first of which does not exist.
smack_process_paths returns -1 and the second path, which exists, has not
been given its label. -/
theorem smack_process_paths_missing_counterexample :
    ∃ host,
      smack_process_paths { smack_ok with check_file_exists := fun p => p ≠ "/missing".toList }
          (host_of (fun _ => none))
          ⟨some "x".toList, [⟨"/missing".toList, 0⟩, ⟨"/opt/x/bin/x".toList, 0⟩]⟩
          (fun _ => ⟨"App:x:Exec".toList, true, false⟩)
        = .done (-1, host) ∧
      host.xattr "/opt/x/bin/x".toList XATTR_NAME_SMACK = none :=
  ⟨_, rfl, rfl⟩

/-- C18 (amended): in the SMACK labelling loop a path that does not exist is
fatal: when the paths before it have been labelled, label_file returns -1 for
it, smack_process_paths returns -1 at once and the paths after it are not
labelled; install_smack then returns -1, after remove_smack_rules has been
run. -/
theorem smack_process_paths_missing (os : Calls) (sk : SmackCalls) (fuel : Nat)
    (host host1 host2 : Host) (secure_app : secure_app_t) (before after : List path_t)
    (p : path_t) (rc : Int) (hpaths : secure_app.paths = before ++ p :: after)
    (hmissing : sk.check_file_exists p.path = false)
    (hbefore : smack_process_paths_loop sk (sk.init_path_type_definitions secure_app.id).2
      before host1 = .done (0, host2)) :
    smack_process_paths sk host1 secure_app (sk.init_path_type_definitions secure_app.id).2
      = .done (-1, host2) ∧
    (0 ≤ (sk.init_path_type_definitions secure_app.id).1 →
      create_smack_rules os sk fuel host secure_app none none = .done (rc, host1) → 0 ≤ rc →
      install_smack os sk fuel host secure_app
        = .done (-1, (remove_smack_rules os sk host2 secure_app none).2)) := by
  have hloop : smack_process_paths sk host1 secure_app
      (sk.init_path_type_definitions secure_app.id).2 = .done (-1, host2) := by
    unfold smack_process_paths
    rw [hpaths, smack_process_paths_loop_append sk _ before (p :: after) host1 host2 hbefore]
    simp [smack_process_paths_loop, smack_process_path, label_path_missing sk host2 p.path _ _ _
      hmissing]
  refine ⟨hloop, fun hinit hcreate hrc => ?_⟩
  simp [install_smack, not_lt.2 hinit, hcreate, not_lt.2 hrc, hloop]

/-- Witness of C18 (amended): the missing path comes second. -/
theorem smack_process_paths_missing_witness :
    ∃ host, smack_process_paths
        { smack_ok with check_file_exists := fun p => p ≠ "/missing".toList }
        (host_of (fun _ => none))
        ⟨some "x".toList, [⟨"/opt/x/bin/x".toList, 0⟩, ⟨"/missing".toList, 0⟩]⟩
        (({ smack_ok with check_file_exists := fun p => p ≠ "/missing".toList } :
          SmackCalls).init_path_type_definitions (some "x".toList)).2
      = .done (-1, host) ∧
      host.xattr "/opt/x/bin/x".toList XATTR_NAME_SMACK = some "App:x:Exec".toList :=
  ⟨_, (smack_process_paths_missing calls_ok
    { smack_ok with check_file_exists := fun p => p ≠ "/missing".toList } 1
    (host_of (fun _ => none)) (host_of (fun _ => none)) _
    ⟨some "x".toList, [⟨"/opt/x/bin/x".toList, 0⟩, ⟨"/missing".toList, 0⟩]⟩
    [⟨"/opt/x/bin/x".toList, 0⟩] [] ⟨"/missing".toList, 0⟩ 0 rfl (by decide) rfl).1, rfl⟩

theorem take_strip_suffix (v suffix : CStr) :
    (v ++ suffix).take ((v ++ suffix).length - suffix.length) = v := by
  rw [List.length_append, Nat.add_sub_cancel]
  exact List.take_left v suffix

theorem set_smack_fs (sk : SmackCalls) (host : Host) (path xattr value : CStr) :
    (set_smack sk host path xattr value).2.fs = host.fs := by
  unfold set_smack
  split_ifs <;> rfl

theorem set_smack_other (sk : SmackCalls) (host : Host) (path xattr value p name : CStr)
    (h : name ≠ xattr) : (set_smack sk host path xattr value).2.xattr p name = host.xattr p name := by
  unfold set_smack
  split_ifs
  · rfl
  · simp [h]

theorem set_smack_ok (sk : SmackCalls) (host : Host) (path xattr value : CStr)
    (h : 0 ≤ sk.lsetxattr path xattr value) :
    (set_smack sk host path xattr value).1 = 0 ∧
    (set_smack sk host path xattr value).2.xattr path xattr = some value := by
  simp [set_smack, not_lt.2 h]

theorem label_dir_transmute_other (sk : SmackCalls) (host : Host) (path p name : CStr)
    (h : name ≠ XATTR_NAME_SMACKTRANSMUTE) :
    (label_dir_transmute sk host path).2.xattr p name = host.xattr p name := by
  unfold label_dir_transmute
  simp only []
  split_ifs
  · rfl
  · exact set_smack_other sk host path _ _ p name h
  · exact set_smack_other sk host path _ _ p name h

theorem label_dir_transmute_fs (sk : SmackCalls) (host : Host) (path : CStr) :
    (label_dir_transmute sk host path).2.fs = host.fs := by
  unfold label_dir_transmute
  simp only []
  split_ifs
  · rfl
  · exact set_smack_fs sk host path _ _
  · exact set_smack_fs sk host path _ _

/-- The end of label_path, once the file and its execution label are set. -/
theorem label_path_tail (sk : SmackCalls) (host1 : Host) (path : CStr) (is_transmute : Bool) :
    ∃ rc host2,
      (if is_transmute = true then
          if (label_dir_transmute sk host1 path).1 < 0 then
            Run.done (label_dir_transmute sk host1 path)
          else .done (0, (label_dir_transmute sk host1 path).2)
        else .done (0, host1)) = .done (rc, host2) ∧
      (∀ p name, name ≠ XATTR_NAME_SMACKTRANSMUTE → host2.xattr p name = host1.xattr p name) ∧
      host2.fs = host1.fs ∧ (is_transmute = false → rc = 0) := by
  cases is_transmute with
  | false => exact ⟨0, host1, by simp, fun _ _ _ => rfl, rfl, fun _ => rfl⟩
  | true =>
    by_cases h : (label_dir_transmute sk host1 path).1 < 0
    · exact ⟨(label_dir_transmute sk host1 path).1, (label_dir_transmute sk host1 path).2,
        by simp [h], fun p name hn => label_dir_transmute_other sk host1 path p name hn,
        label_dir_transmute_fs sk host1 path, fun hf => by simp at hf⟩
    · exact ⟨0, (label_dir_transmute sk host1 path).2,
        by simp [h], fun p name hn => label_dir_transmute_other sk host1 path p name hn,
        label_dir_transmute_fs sk host1 path, fun hf => by simp at hf⟩

/-- Counterexample to C19: a path of the executable role, with the label
App:x:Exec, that exists but is not an executable file.  Labelling returns 0,
sets security.SMACK64 and leaves security.SMACK64EXEC unset. -/
theorem label_path_exec_counterexample :
    ∃ host,
      smack_process_path { smack_ok with check_executable := fun _ => false }
          (host_of (fun _ => none)) ⟨"/opt/x/lib".toList, 0⟩
          (fun _ => ⟨"App:x".toList ++ smack_ok.suffix_exec, true, false⟩)
        = .done (0, host) ∧
      host.xattr "/opt/x/lib".toList XATTR_NAME_SMACK = some "App:x:Exec".toList ∧
      host.xattr "/opt/x/lib".toList XATTR_NAME_SMACKEXEC = none :=
  ⟨_, rfl, rfl, rfl⟩

/-- C19 (amended): for a path entry whose role is executable and whose role
label is v ++ suffix_exec, when the path exists and lsetxattr succeeds,
labelling sets security.SMACK64 to the label; it sets security.SMACK64EXEC to
v only when the path is a regular file that is executable, and otherwise
leaves security.SMACK64EXEC as it was, still without an error. -/
theorem label_path_exec (sk : SmackCalls) (host : Host) (p : path_t)
    (path_type_definitions : Nat → path_type_definitions_t) (v : CStr)
    (hexec : (path_type_definitions p.path_type).is_executable = true)
    (hlabel : (path_type_definitions p.path_type).label = v ++ sk.suffix_exec)
    (hexists : sk.check_file_exists p.path = true)
    (hset : 0 ≤ sk.lsetxattr p.path XATTR_NAME_SMACK (v ++ sk.suffix_exec)) :
    (sk.check_file_type_reg p.path = true → sk.check_executable p.path = true →
      0 ≤ sk.lsetxattr p.path XATTR_NAME_SMACKEXEC v →
      ∃ rc host1, smack_process_path sk host p path_type_definitions = .done (rc, host1) ∧
        host1.xattr p.path XATTR_NAME_SMACK = some (v ++ sk.suffix_exec) ∧
        host1.xattr p.path XATTR_NAME_SMACKEXEC = some v ∧
        ((path_type_definitions p.path_type).is_transmute = false → rc = 0)) ∧
    (sk.check_file_type_reg p.path = false ∨ sk.check_executable p.path = false →
      ∃ rc host1, smack_process_path sk host p path_type_definitions = .done (rc, host1) ∧
        host1.xattr p.path XATTR_NAME_SMACK = some (v ++ sk.suffix_exec) ∧
        host1.xattr p.path XATTR_NAME_SMACKEXEC = host.xattr p.path XATTR_NAME_SMACKEXEC ∧
        ((path_type_definitions p.path_type).is_transmute = false → rc = 0)) := by
  have hfile := set_smack_ok sk host p.path XATTR_NAME_SMACK (v ++ sk.suffix_exec) hset
  have hne1 : XATTR_NAME_SMACK ≠ XATTR_NAME_SMACKTRANSMUTE := by decide
  have hne2 : XATTR_NAME_SMACKEXEC ≠ XATTR_NAME_SMACKTRANSMUTE := by decide
  have hne3 : XATTR_NAME_SMACK ≠ XATTR_NAME_SMACKEXEC := by decide
  have hne4 : XATTR_NAME_SMACKEXEC ≠ XATTR_NAME_SMACK := by decide
  constructor
  · intro hreg hx hset2
    have hexe := set_smack_ok sk (set_smack sk host p.path XATTR_NAME_SMACK
      (v ++ sk.suffix_exec)).2 p.path XATTR_NAME_SMACKEXEC v hset2
    obtain ⟨rc, host2, htail, hother, _, hrc⟩ := label_path_tail sk
      (set_smack sk (set_smack sk host p.path XATTR_NAME_SMACK (v ++ sk.suffix_exec)).2
        p.path XATTR_NAME_SMACKEXEC v).2 p.path (path_type_definitions p.path_type).is_transmute
    refine ⟨if rc < 0 then rc else 0, host2, ?_, ?_, ?_, fun ht => ?_⟩
    · have hlen : ¬ (v ++ sk.suffix_exec).length < sk.suffix_exec.length := by simp
      simp only [smack_process_path, label_path, label_file, hexec, hlabel, hexists, hfile.1,
        label_exec, hreg, hx, take_strip_suffix, hlen]
      simp only [Bool.not_true, Bool.false_eq_true, if_false, if_true, lt_irrefl, hexe.1]
      rw [htail]
      simp only []
      split_ifs <;> rfl
    · rw [hother _ _ hne1, set_smack_other _ _ _ _ _ _ _ hne3]
      exact hfile.2
    · rw [hother _ _ hne2]
      exact hexe.2
    · simp [hrc ht]
  · intro hskip
    obtain ⟨rc, host2, htail, hother, _, hrc⟩ := label_path_tail sk
      (set_smack sk host p.path XATTR_NAME_SMACK (v ++ sk.suffix_exec)).2 p.path
      (path_type_definitions p.path_type).is_transmute
    refine ⟨if rc < 0 then rc else 0, host2, ?_, ?_, ?_, fun ht => ?_⟩
    · rcases hskip with hreg | hx
      · simp only [smack_process_path, label_path, label_file, hexec, hlabel, hexists, hfile.1,
          label_exec, hreg]
        simp only [Bool.not_true, Bool.not_false, Bool.false_eq_true, if_false, if_true,
          lt_irrefl]
        rw [htail]
        simp only []
        split_ifs <;> rfl
      · by_cases hreg : sk.check_file_type_reg p.path = true
        · simp only [smack_process_path, label_path, label_file, hexec, hlabel, hexists,
            hfile.1, label_exec, hreg, hx]
          simp only [Bool.not_true, Bool.not_false, Bool.false_eq_true, if_false, if_true,
            lt_irrefl]
          rw [htail]
          simp only []
          split_ifs <;> rfl
        · simp only [smack_process_path, label_path, label_file, hexec, hlabel, hexists,
            hfile.1, label_exec, Bool.eq_false_iff.mpr hreg]
          simp only [Bool.not_true, Bool.not_false, Bool.false_eq_true, if_false, if_true,
            lt_irrefl]
          rw [htail]
          simp only []
          split_ifs <;> rfl
    · rw [hother _ _ hne1]
      exact hfile.2
    · rw [hother _ _ hne2, set_smack_other _ _ _ _ _ _ _ hne4]
    · simp [hrc ht]

/-- Witness of C19 (amended): the executable /opt/x/bin/x of the application
x gets security.SMACK64 = App:x:Exec and security.SMACK64EXEC = App:x. -/
theorem label_path_exec_witness :
    ∃ rc host1, smack_process_path smack_ok (host_of (fun _ => none))
        ⟨"/opt/x/bin/x".toList, 0⟩
        (fun _ => ⟨"App:x".toList ++ smack_ok.suffix_exec, true, false⟩) = .done (rc, host1) ∧
      host1.xattr "/opt/x/bin/x".toList XATTR_NAME_SMACK = some "App:x:Exec".toList ∧
      host1.xattr "/opt/x/bin/x".toList XATTR_NAME_SMACKEXEC = some "App:x".toList ∧
      (false = false → rc = 0) :=
  (label_path_exec smack_ok (host_of (fun _ => none)) ⟨"/opt/x/bin/x".toList, 0⟩
    (fun _ => ⟨"App:x".toList ++ smack_ok.suffix_exec, true, false⟩) "App:x".toList
    rfl rfl rfl (by decide)).1 rfl rfl (by decide)

/-! ## Installing the SMACK backend -/

theorem label_file_fs (sk : SmackCalls) (host : Host) (path label : CStr) :
    (label_file sk host path label).2.fs = host.fs := by
  unfold label_file
  simp only []
  split_ifs
  · rfl
  · exact set_smack_fs sk host path _ _
  · exact set_smack_fs sk host path _ _

theorem label_exec_fs (sk : SmackCalls) (host host1 : Host) (path label : CStr) (rc : Int)
    (h : label_exec sk host path label = .done (rc, host1)) : host1.fs = host.fs := by
  unfold label_exec at h
  simp only [] at h
  split_ifs at h
  · cases h; rfl
  · cases h; rfl
  · rw [Run.done.injEq] at h
    have h2 : host1 = (set_smack sk host path XATTR_NAME_SMACKEXEC
      (label.take (label.length - sk.suffix_exec.length))).2 := by rw [h]
    rw [h2]
    exact set_smack_fs sk host path _ _
  · cases h
    exact set_smack_fs sk host path _ _

theorem label_path_fs (sk : SmackCalls) (host host1 : Host) (path label : CStr)
    (is_executable is_transmute : Bool) (rc : Int)
    (h : label_path sk host path label is_executable is_transmute = .done (rc, host1)) :
    host1.fs = host.fs := by
  unfold label_path at h
  simp only [] at h
  by_cases hfile : (label_file sk host path label).1 < 0
  · simp only [if_pos hfile, Run.done.injEq] at h
    have h2 : host1 = (label_file sk host path label).2 := by rw [h]
    rw [h2]
    exact label_file_fs sk host path label
  · simp only [if_neg hfile] at h
    have hexec : ∀ rc1 host2,
        (if is_executable = true then label_exec sk (label_file sk host path label).2 path label
          else .done (0, (label_file sk host path label).2)) = .done (rc1, host2) →
        host2.fs = host.fs := by
      intro rc1 host2 he
      split_ifs at he
      · rw [label_exec_fs sk _ host2 path label rc1 he]
        exact label_file_fs sk host path label
      · cases he
        exact label_file_fs sk host path label
    cases he : (if is_executable = true then
        label_exec sk (label_file sk host path label).2 path label
        else .done (0, (label_file sk host path label).2)) with
    | undefined => simp [he] at h
    | out_of_fuel => simp [he] at h
    | done r =>
      obtain ⟨rc1, host2⟩ := r
      have h2 := hexec rc1 host2 he
      simp only [he] at h
      obtain ⟨rc3, host3, htail, _, hfs, _⟩ := label_path_tail sk host2 path is_transmute
      by_cases hrc1 : rc1 < 0
      · simp only [if_pos hrc1] at h
        cases h
        exact h2
      · simp only [if_neg hrc1] at h
        rw [htail] at h
        cases h
        rw [hfs, h2]

theorem smack_process_paths_loop_fs (sk : SmackCalls)
    (defs : Nat → path_type_definitions_t) (paths : List path_t) (host host1 : Host) (rc : Int)
    (h : smack_process_paths_loop sk defs paths host = .done (rc, host1)) :
    host1.fs = host.fs ∧ rc ≤ 0 := by
  induction paths generalizing host with
  | nil =>
    simp only [smack_process_paths_loop] at h
    cases h
    exact ⟨rfl, le_refl _⟩
  | cons p paths ih =>
    simp only [smack_process_paths_loop, smack_process_path] at h
    cases hp : label_path sk host p.path (defs p.path_type).label
        (defs p.path_type).is_executable (defs p.path_type).is_transmute with
    | undefined => simp [hp] at h
    | out_of_fuel => simp [hp] at h
    | done r =>
      obtain ⟨rc1, host2⟩ := r
      have hfs := label_path_fs sk host host2 _ _ _ _ rc1 hp
      simp only [hp] at h
      by_cases hrc1 : rc1 < 0
      · simp only [if_pos hrc1] at h
        cases h
        exact ⟨hfs, le_of_lt hrc1⟩
      · simp only [if_neg hrc1, lt_irrefl, if_false] at h
        obtain ⟨h3, h4⟩ := ih host2 h
        exact ⟨h3.trans hfs, h4⟩

/-- C20: in install_smack, once the path type definitions are set up: when
create_smack_rules fails, install_smack returns its status on the host as
create_smack_rules left it (no path is labelled, remove_smack_rules is not
run); when the rules are created and the labelling fails with rc2,
remove_smack_rules is run on the host the labelling left and install_smack
returns rc2, whatever remove_smack_rules returns; when the labelling succeeds
install_smack returns 0 on the host the labelling left, whose files are those
create_smack_rules left. -/
theorem install_smack_compensation (os : Calls) (sk : SmackCalls) (fuel : Nat) (host : Host)
    (secure_app : secure_app_t)
    (hinit : 0 ≤ (sk.init_path_type_definitions secure_app.id).1) :
    (∀ rc host1, create_smack_rules os sk fuel host secure_app none none = .done (rc, host1) →
      rc < 0 → install_smack os sk fuel host secure_app = .done (rc, host1)) ∧
    (∀ rc host1 rc2 host2,
      create_smack_rules os sk fuel host secure_app none none = .done (rc, host1) → 0 ≤ rc →
      smack_process_paths sk host1 secure_app (sk.init_path_type_definitions secure_app.id).2
        = .done (rc2, host2) →
      (rc2 < 0 → install_smack os sk fuel host secure_app
        = .done (rc2, (remove_smack_rules os sk host2 secure_app none).2)) ∧
      (0 ≤ rc2 → install_smack os sk fuel host secure_app = .done (0, host2) ∧
        host2.fs = host1.fs)) := by
  refine ⟨fun rc host1 hcreate hrc => ?_, fun rc host1 rc2 host2 hcreate hrc hlabel => ⟨?_, ?_⟩⟩
  · simp [install_smack, not_lt.2 hinit, hcreate, hrc]
  · intro hrc2
    simp [install_smack, not_lt.2 hinit, hcreate, not_lt.2 hrc, hlabel, hrc2]
  · intro hrc2
    have hfs := smack_process_paths_loop_fs sk _ _ host1 host2 rc2 hlabel
    have h0 : rc2 = 0 := le_antisymm hfs.2 hrc2
    subst h0
    exact ⟨by simp [install_smack, not_lt.2 hinit, hcreate, not_lt.2 hrc, hlabel], hfs.1⟩

/-- Witness of C20: the id x with one path that does not exist.  The rules
file is written, the labelling fails with -1, and install_smack returns -1
after remove_smack_rules has removed the rules file. -/
theorem install_smack_compensation_witness :
    ∃ host1, install_smack calls_ok { smack_ok with check_file_exists := fun _ => false } 8
        (host_of (single_file DEFAULT_SMACK_TEMPLATE_FILE "System ~APP~ rwx\n".toList))
        ⟨some "x".toList, [⟨"/missing".toList, 0⟩]⟩ = .done (-1, host1) ∧
      host1.fs "/etc/smack/accesses.d/app-x".toList = none ∧
      SmackCall.remove_file "/etc/smack/accesses.d/app-x".toList ∈ host1.calls :=
  ⟨_, ((install_smack_compensation calls_ok
      { smack_ok with check_file_exists := fun _ => false } 8
      (host_of (single_file DEFAULT_SMACK_TEMPLATE_FILE "System ~APP~ rwx\n".toList))
      ⟨some "x".toList, [⟨"/missing".toList, 0⟩]⟩ (by decide)).2 0 _ (-1) _ rfl (by decide)
      rfl).1 (by decide), by decide, by decide⟩

/-! ## The lines of the SMACK template -/

theorem strtok_nil : strtok [] = none := by simp [strtok]

/-- A field followed by a space. -/
theorem strtok_field (t r : CStr) (hne : t ≠ []) (ht : ' ' ∉ t) :
    strtok (t ++ ' ' :: r) = some (t, r) := by
  obtain ⟨c, t1, rfl⟩ := List.exists_cons_of_ne_nil hne
  have hc : ¬ c = ' ' := fun e => ht (by simp [e])
  have hp : ∀ a ∈ c :: t1, (decide (a ≠ ' ')) = true := by
    intro a ha
    simp only [ne_eq, decide_eq_true_eq]
    exact fun e => ht (e ▸ ha)
  have hd : (c :: t1 ++ ' ' :: r).dropWhile (fun c => decide (c = ' ')) = c :: t1 ++ ' ' :: r := by
    simp [List.dropWhile_cons, hc]
  unfold strtok
  rw [hd, List.takeWhile_append_of_pos hp, List.dropWhile_append_of_pos hp]
  simp

theorem strtok_last (t : CStr) (hne : t ≠ []) (ht : ' ' ∉ t) : strtok t = some (t, []) := by
  obtain ⟨c, t1, rfl⟩ := List.exists_cons_of_ne_nil hne
  have hc : ¬ c = ' ' := fun e => ht (by simp [e])
  have hp : ∀ a ∈ c :: t1, (decide (a ≠ ' ')) = true := by
    intro a ha
    simp only [ne_eq, decide_eq_true_eq]
    exact fun e => ht (e ▸ ha)
  have hd : (c :: t1).dropWhile (fun c => decide (c = ' ')) = c :: t1 := by
    simp [List.dropWhile_cons, hc]
  unfold strtok
  rw [hd, List.takeWhile_eq_self_iff.2 hp, List.dropWhile_eq_nil_iff.2 hp]
  simp

/-- What strtok found: spaces, then the token, then a space and the rest, or
the end of the string. -/
theorem strtok_some (l t r : CStr) (h : strtok l = some (t, r)) :
    t ≠ [] ∧ ' ' ∉ t ∧
    ∃ k, l = List.replicate k ' ' ++ (t ++ ' ' :: r) ∨ (l = List.replicate k ' ' ++ t ∧ r = []) := by
  unfold strtok at h
  split_ifs at h with hd
  simp only [Option.some.injEq, Prod.mk.injEq] at h
  obtain ⟨h1, h2⟩ := h
  have hl := List.takeWhile_append_dropWhile (fun c => decide (c = ' ')) l
  have hrep : l.takeWhile (fun c => decide (c = ' '))
      = List.replicate (l.takeWhile (fun c => decide (c = ' '))).length ' ' := by
    rw [List.eq_replicate_iff]
    exact ⟨rfl, fun b hb => by simpa using List.mem_takeWhile_imp hb⟩
  have hsplit := List.takeWhile_append_dropWhile (fun c => decide (c ≠ ' '))
    (l.dropWhile (fun c => decide (c = ' ')))
  rw [h1] at hsplit
  have hhead := List.head_dropWhile_not (fun c => decide (c = ' ')) l hd
  have ht : ' ' ∉ t := by
    intro hm
    rw [← h1] at hm
    simpa using List.mem_takeWhile_imp hm
  have htne : t ≠ [] := by
    intro e
    rw [e, List.nil_append] at hsplit
    obtain ⟨c, d, hcd⟩ := List.exists_cons_of_ne_nil hd
    have := List.head?_dropWhile_not (fun c => decide (c ≠ ' ')) (l.dropWhile (fun c => decide (c = ' ')))
    rw [hsplit] at this
    simp only [hcd, List.head_cons, List.head?_cons] at this hhead
    simp at this hhead
    exact hhead this
  refine ⟨htne, ht, (l.takeWhile (fun c => decide (c = ' '))).length, ?_⟩
  rw [← hrep]
  cases he : (l.dropWhile (fun c => decide (c = ' '))).dropWhile (fun c => decide (c ≠ ' ')) with
  | nil =>
    right
    rw [he] at hsplit h2
    rw [List.append_nil] at hsplit
    refine ⟨?_, by simpa using h2.symm⟩
    rw [hsplit]
    exact hl.symm
  | cons x e =>
    left
    have := List.head?_dropWhile_not (fun c => decide (c ≠ ' ')) (l.dropWhile (fun c => decide (c = ' ')))
    rw [he] at hsplit h2 this
    simp at this h2
    subst this
    subst h2
    rw [hsplit]
    exact hl.symm


theorem count_space_eq_two (line : CStr) : count_space line = 2 ↔ line.count ' ' = 2 := by
  unfold count_space
  exact_mod_cast Iff.rfl

theorem three_fields_strtok (line subject object access : CStr)
    (h : three_fields line subject object access) :
    line.count ' ' = 2 ∧ strtok line = some (subject, object ++ ' ' :: access) ∧
    strtok (object ++ ' ' :: access) = some (object, access) ∧
    strtok access = some (access, []) := by
  obtain ⟨rfl, h1, h2, h3, h4, h5, h6⟩ := h
  refine ⟨?_, strtok_field _ _ h1 h4, strtok_field _ _ h2 h5, strtok_last _ h3 h6⟩
  simp [List.count_append, List.count_eq_zero_of_not_mem h4, List.count_eq_zero_of_not_mem h5,
    List.count_eq_zero_of_not_mem h6]

theorem strtok_three_fields (line subject object access rest1 rest2 rest3 : CStr)
    (h1 : strtok line = some (subject, rest1)) (h2 : strtok rest1 = some (object, rest2))
    (h3 : strtok rest2 = some (access, rest3)) (hcount : line.count ' ' = 2) :
    three_fields line subject object access := by
  obtain ⟨n1, s1, k1, hl1⟩ := strtok_some _ _ _ h1
  obtain ⟨n2, s2, k2, hl2⟩ := strtok_some _ _ _ h2
  obtain ⟨n3, s3, k3, hl3⟩ := strtok_some _ _ _ h3
  have c1 := List.count_eq_zero_of_not_mem s1
  have c2 := List.count_eq_zero_of_not_mem s2
  have c3 := List.count_eq_zero_of_not_mem s3
  rcases hl1 with e1 | ⟨_, e1⟩
  swap
  · rw [e1, strtok_nil] at h2
    cases h2
  rcases hl2 with e2 | ⟨_, e2⟩
  swap
  · rw [e2, strtok_nil] at h3
    cases h3
  have hc1 : line.count ' ' = k1 + 1 + rest1.count ' ' := by
    rw [e1]
    simp [List.count_append, c1]
    omega
  have hc2 : rest1.count ' ' = k2 + 1 + rest2.count ' ' := by
    rw [e2]
    simp [List.count_append, c2]
    omega
  have hk1 : k1 = 0 := by omega
  have hk2 : k2 = 0 := by omega
  have hr2 : rest2.count ' ' = 0 := by omega
  subst hk1 hk2
  simp only [List.replicate_zero, List.nil_append] at e1 e2
  rcases hl3 with e3 | ⟨e3, _⟩
  · rw [e3] at hr2
    simp [List.count_append] at hr2
  · have hk3 : k3 = 0 := by
      rw [e3] at hr2
      simp [List.count_append, c3] at hr2
      exact hr2
    subst hk3
    simp only [List.replicate_zero, List.nil_append] at e3
    subst e3
    subst e2
    exact ⟨e1, n1, n2, n3, s1, s2, s3⟩

/-- The SMACK parse_line past its comment and blank tests and the ~APP~ loop. -/
theorem smack_parse_line_substituted (sk : SmackCalls) (fuel : Nat) (line line1 : CStr)
    (smack_handle : smack_handle_t) (hc : line.head? ≠ some SMACK_COMMENT_CHAR)
    (hn : line.head? ≠ some '\n')
    (hsub : SmackTemplate.replace_loop sk smack_handle.app_label fuel
      (line.takeWhile (fun c => c ≠ '\n')) = .done line1) :
    SmackTemplate.parse_line sk fuel line smack_handle =
      if count_space line1 ≠ 2 then .done (-EINVAL, smack_handle)
      else
        match strtok line1 with
        | none => .undefined
        | some (subject, rest1) =>
          match strtok rest1 with
          | none => .undefined
          | some (object, rest2) =>
            match strtok rest2 with
            | none => .undefined
            | some (access, _) =>
              if sk.SMACK_LABEL_LEN ≤ subject.length ∨ sk.SMACK_LABEL_LEN ≤ object.length ∨
                  MAX_ACCESS_SIZE ≤ access.length then .undefined
              else if sk.smack_accesses_add smack_handle.smack_accesses
                  ⟨subject, object, access⟩ < 0 then
                .done (sk.smack_accesses_add smack_handle.smack_accesses
                  ⟨subject, object, access⟩, smack_handle)
              else
                .done (0, { smack_handle with
                  smack_accesses := smack_handle.smack_accesses ++ [⟨subject, object, access⟩] }) := by
  rw [SmackTemplate.parse_line]
  simp only [if_neg hc, if_neg hn, hsub]

/-- Counterexample to C15: the line "a b c " (a space after the access) of a
template splits on whitespace into the three tokens a, b, c, and parse_line
rejects it with -EINVAL without adding a rule. -/
theorem smack_parse_line_tokens_counterexample :
    whitespace_tokens "a b c ".toList = ["a".toList, "b".toList, "c".toList] ∧
    SmackTemplate.parse_line smack_ok 1 "a b c \n".toList ⟨"x".toList, "App:x".toList, []⟩
      = .done (-EINVAL, ⟨"x".toList, "App:x".toList, []⟩) :=
  ⟨by decide, rfl⟩

/-- C15 (amended): for a SMACK template line that is neither a comment nor
blank and whose ~APP~ substitution gives line1, parse_line tests the number of
space bytes of line1, not its tokens. (1) When line1 does not hold exactly two
spaces, parse_line returns -EINVAL and adds no rule. (2) parse_line returns a
status that is not negative only when line1 is subject, one space, object, one
space, access, the three fields being non-empty and without a space; the
status is then 0. (3) For such a line with subject and object shorter than
SMACK_LABEL_LEN and access shorter than MAX_ACCESS_SIZE, parse_line returns 0
having added the rule (subject, object, access) when smack_accesses_add
accepts it, and returns the negative status of smack_accesses_add, the rules
being unchanged, otherwise. -/
theorem smack_parse_line_fields (sk : SmackCalls) (fuel : Nat) (line line1 : CStr)
    (smack_handle : smack_handle_t) (hc : line.head? ≠ some SMACK_COMMENT_CHAR)
    (hn : line.head? ≠ some '\n')
    (hsub : SmackTemplate.replace_loop sk smack_handle.app_label fuel
      (line.takeWhile (fun c => c ≠ '\n')) = .done line1) :
    (count_space line1 ≠ 2 →
      SmackTemplate.parse_line sk fuel line smack_handle = .done (-EINVAL, smack_handle)) ∧
    (∀ rc handle1, SmackTemplate.parse_line sk fuel line smack_handle = .done (rc, handle1) →
      0 ≤ rc →
      rc = 0 ∧ ∃ subject object access, three_fields line1 subject object access) ∧
    (∀ subject object access, three_fields line1 subject object access →
      subject.length < sk.SMACK_LABEL_LEN → object.length < sk.SMACK_LABEL_LEN →
      access.length < MAX_ACCESS_SIZE →
      SmackTemplate.parse_line sk fuel line smack_handle =
        if sk.smack_accesses_add smack_handle.smack_accesses ⟨subject, object, access⟩ < 0 then
          .done (sk.smack_accesses_add smack_handle.smack_accesses ⟨subject, object, access⟩,
            smack_handle)
        else
          .done (0, { smack_handle with
            smack_accesses := smack_handle.smack_accesses ++ [⟨subject, object, access⟩] })) := by
  have hpl := smack_parse_line_substituted sk fuel line line1 smack_handle hc hn hsub
  refine ⟨fun hcount => ?_, fun rc handle1 h hrc => ?_,
    fun subject object access hf hs ho ha => ?_⟩
  · rw [hpl, if_pos hcount]
  · rw [hpl] at h
    by_cases hcount : count_space line1 ≠ 2
    · rw [if_pos hcount] at h
      simp only [Run.done.injEq, Prod.mk.injEq] at h
      exact absurd (h.1 ▸ hrc) (by decide)
    · rw [if_neg hcount] at h
      cases h1 : strtok line1 with
      | none => simp [h1] at h
      | some p1 =>
        obtain ⟨s, rest1⟩ := p1
        cases h2 : strtok rest1 with
        | none => simp [h1, h2] at h
        | some p2 =>
          obtain ⟨o, rest2⟩ := p2
          cases h3 : strtok rest2 with
          | none => simp [h1, h2, h3] at h
          | some p3 =>
            obtain ⟨a, rest3⟩ := p3
            simp only [h1, h2, h3] at h
            by_cases hsize : sk.SMACK_LABEL_LEN ≤ s.length ∨ sk.SMACK_LABEL_LEN ≤ o.length ∨
                MAX_ACCESS_SIZE ≤ a.length
            · simp [if_pos hsize] at h
            · rw [if_neg hsize] at h
              by_cases hadd : sk.smack_accesses_add smack_handle.smack_accesses ⟨s, o, a⟩ < 0
              · rw [if_pos hadd] at h
                simp only [Run.done.injEq, Prod.mk.injEq] at h
                exact absurd (h.1 ▸ hadd) (not_lt.2 hrc)
              · rw [if_neg hadd] at h
                simp only [Run.done.injEq, Prod.mk.injEq] at h
                exact ⟨h.1.symm, s, o, a, strtok_three_fields line1 _ _ _ rest1 rest2 rest3
                  h1 h2 h3 ((count_space_eq_two line1).1 (not_not.1 hcount))⟩
  · obtain ⟨hcount, h1, h2, h3⟩ := three_fields_strtok _ _ _ _ hf
    rw [hpl, if_neg (not_not.2 ((count_space_eq_two line1).2 hcount))]
    simp only [h1, h2, h3]
    rw [if_neg (by simp only [not_or, not_le]; exact ⟨hs, ho, ha⟩)]

/-- Witness of C15 (amended): the line ~APP~ System rwx of the template, for
the application label App:x. -/
theorem smack_parse_line_fields_witness :
    SmackTemplate.parse_line smack_ok 1 "~APP~ System rwx\n".toList
        ⟨"x".toList, "App:x".toList, []⟩
      = .done (0, ⟨"x".toList, "App:x".toList,
          [⟨"App:x".toList, "System".toList, "rwx".toList⟩]⟩) :=
  (smack_parse_line_fields smack_ok 1 "~APP~ System rwx\n".toList "App:x System rwx".toList
    ⟨"x".toList, "App:x".toList, []⟩ (by decide) (by decide) rfl).2.2
    "App:x".toList "System".toList "rwx".toList
    ⟨rfl, by decide, by decide, by decide, by decide, by decide, by decide⟩
    (by decide) (by decide) (by decide)

/-! ## Comments and blank lines of the SMACK template -/

theorem smack_parse_line_skip (sk : SmackCalls) (fuel : Nat) (line : CStr)
    (smack_handle : smack_handle_t)
    (h : line.head? = some SMACK_COMMENT_CHAR ∨ line.head? = some '\n') :
    SmackTemplate.parse_line sk fuel line smack_handle = .done (0, smack_handle) := by
  rw [SmackTemplate.parse_line]
  rcases h with h | h
  · rw [if_pos h]
  · split_ifs <;> rfl

theorem smack_parse_line_status (sk : SmackCalls) (fuel : Nat) (line : CStr)
    (smack_handle handle1 : smack_handle_t) (rc : Int)
    (h : SmackTemplate.parse_line sk fuel line smack_handle = .done (rc, handle1)) : rc ≤ 0 := by
  by_cases hc : line.head? = some SMACK_COMMENT_CHAR
  · rw [smack_parse_line_skip sk fuel line smack_handle (Or.inl hc)] at h
    cases h
    exact le_refl _
  by_cases hn : line.head? = some '\n'
  · rw [smack_parse_line_skip sk fuel line smack_handle (Or.inr hn)] at h
    cases h
    exact le_refl _
  cases hsub : SmackTemplate.replace_loop sk smack_handle.app_label fuel
      (line.takeWhile (fun c => c ≠ '\n')) with
  | undefined =>
    rw [SmackTemplate.parse_line] at h
    simp only [if_neg hc, if_neg hn, hsub] at h
    cases h
  | out_of_fuel =>
    rw [SmackTemplate.parse_line] at h
    simp only [if_neg hc, if_neg hn, hsub] at h
    cases h
  | done line1 =>
    rw [smack_parse_line_substituted sk fuel line line1 smack_handle hc hn hsub] at h
    split_ifs at h with h1
    · cases h
      decide
    · split at h
      · cases h
      · split at h
        · cases h
        · split at h
          · cases h
          · split_ifs at h with h2 h3
            · cases h
              exact le_of_lt h3
            · cases h
              exact le_refl _

theorem parse_template_file_loop_nil (sk : SmackCalls) (fuel n : Nat) (rc : Int)
    (smack_handle : smack_handle_t) :
    parse_template_file_loop sk fuel n [] rc smack_handle = .done (rc, smack_handle) := by
  rw [parse_template_file_loop]
  split_ifs
  · rfl
  · simp [fgets]

theorem parse_template_file_loop_neg (sk : SmackCalls) (fuel n : Nat) (s : Bytes) (rc : Int)
    (smack_handle : smack_handle_t) (hrc : rc < 0) :
    parse_template_file_loop sk fuel n s rc smack_handle = .done (rc, smack_handle) := by
  rw [parse_template_file_loop, if_pos hrc]

theorem parse_template_file_loop_succ (sk : SmackCalls) (fuel n : Nat) (c : Char) (s : Bytes)
    (rc : Int) (smack_handle : smack_handle_t) (hrc : 0 ≤ rc) :
    parse_template_file_loop sk fuel (n + 1) (c :: s) rc smack_handle =
      match SmackTemplate.parse_line sk fuel
          (c_str (read_line (sk.SMACK_LABEL_LEN - 1) (c :: s)).1) smack_handle with
      | .done (rc1, handle1) =>
        parse_template_file_loop sk fuel n (read_line (sk.SMACK_LABEL_LEN - 1) (c :: s)).2
          rc1 handle1
      | .undefined => .undefined
      | .out_of_fuel => .out_of_fuel := by
  rw [parse_template_file_loop, if_neg (not_lt.2 hrc)]
  simp only [fgets, reduceCtorEq, if_false]

/-- The loop has enough turns as soon as it has one per byte of the stream. -/
theorem parse_template_file_loop_fuel (sk : SmackCalls) (fuel n m : Nat) (s : Bytes) (rc : Int)
    (smack_handle : smack_handle_t) (hsize : 2 ≤ sk.SMACK_LABEL_LEN) (hn : s.length ≤ n)
    (hm : s.length ≤ m) :
    parse_template_file_loop sk fuel n s rc smack_handle =
      parse_template_file_loop sk fuel m s rc smack_handle := by
  induction n generalizing m s rc smack_handle with
  | zero =>
    have : s = [] := List.length_eq_zero.1 (by omega)
    subst this
    simp [parse_template_file_loop_nil]
  | succ n ih =>
    by_cases hrc : rc < 0
    · rw [parse_template_file_loop_neg _ _ _ _ _ _ hrc,
        parse_template_file_loop_neg _ _ _ _ _ _ hrc]
    cases s with
    | nil => simp [parse_template_file_loop_nil]
    | cons c s =>
      cases m with
      | zero => simp at hm
      | succ m =>
        rw [parse_template_file_loop_succ _ _ _ _ _ _ _ (not_lt.1 hrc),
          parse_template_file_loop_succ _ _ _ _ _ _ _ (not_lt.1 hrc)]
        have hr := read_line_rest_length (sk.SMACK_LABEL_LEN - 2) c s
        have e : sk.SMACK_LABEL_LEN - 2 + 1 = sk.SMACK_LABEL_LEN - 1 := by omega
        rw [e] at hr
        simp only [List.length_cons] at hn hm
        cases SmackTemplate.parse_line sk fuel
            (c_str (read_line (sk.SMACK_LABEL_LEN - 1) (c :: s)).1) smack_handle with
        | undefined => rfl
        | out_of_fuel => rfl
        | done r =>
          obtain ⟨rc1, handle1⟩ := r
          exact ih m _ _ _ (by omega) (by omega)

/-- The loop on whole lines followed by more bytes: the loop on the whole
lines, then the loop on the rest. -/
theorem parse_template_file_loop_append (sk : SmackCalls) (fuel m n k : Nat) (pre rest : Bytes)
    (rc : Int) (smack_handle : smack_handle_t) (hsize : 2 ≤ sk.SMACK_LABEL_LEN)
    (hpre : whole_lines pre) (hm : pre.length ≤ m) (hn : (pre ++ rest).length ≤ n)
    (hk : rest.length ≤ k) :
    parse_template_file_loop sk fuel n (pre ++ rest) rc smack_handle =
      match parse_template_file_loop sk fuel m pre rc smack_handle with
      | .done (rc1, handle1) => parse_template_file_loop sk fuel k rest rc1 handle1
      | .undefined => .undefined
      | .out_of_fuel => .out_of_fuel := by
  induction m generalizing n pre rc smack_handle with
  | zero =>
    have : pre = [] := List.length_eq_zero.1 (by omega)
    subst this
    rw [parse_template_file_loop_nil]
    simp only [List.nil_append]
    exact parse_template_file_loop_fuel _ _ _ _ _ _ _ hsize (by simpa using hn) hk
  | succ m ih =>
    by_cases hrc : rc < 0
    · rw [parse_template_file_loop_neg _ _ _ _ _ _ hrc,
        parse_template_file_loop_neg _ _ _ _ _ _ hrc]
      simp only []
      rw [parse_template_file_loop_neg _ _ _ _ _ _ hrc]
    cases pre with
    | nil =>
      rw [parse_template_file_loop_nil]
      simp only [List.nil_append]
      exact parse_template_file_loop_fuel _ _ _ _ _ _ _ hsize (by simpa using hn) hk
    | cons c p =>
      cases n with
      | zero => simp at hn
      | succ n =>
        have hw := read_line_whole_lines (sk.SMACK_LABEL_LEN - 1) (c :: p) rest (by simp) hpre
        have hr := read_line_rest_length (sk.SMACK_LABEL_LEN - 2) c p
        have e : sk.SMACK_LABEL_LEN - 2 + 1 = sk.SMACK_LABEL_LEN - 1 := by omega
        rw [e] at hr
        rw [List.cons_append, parse_template_file_loop_succ _ _ _ _ _ _ _ (not_lt.1 hrc),
          parse_template_file_loop_succ _ _ _ _ _ _ _ (not_lt.1 hrc), ← List.cons_append, hw.1]
        simp only [List.length_cons, List.length_append] at hn hm
        cases SmackTemplate.parse_line sk fuel
            (c_str (read_line (sk.SMACK_LABEL_LEN - 1) (c :: p)).1) smack_handle with
        | undefined => rfl
        | out_of_fuel => rfl
        | done r =>
          obtain ⟨rc1, handle1⟩ := r
          exact ih n _ _ _ hw.2 (by omega) (by simp only [List.length_append]; omega)

theorem parse_template_file_loop_status (sk : SmackCalls) (fuel n : Nat) (s : Bytes) (rc rc1 : Int)
    (smack_handle handle1 : smack_handle_t) (hrc : rc ≤ 0)
    (h : parse_template_file_loop sk fuel n s rc smack_handle = .done (rc1, handle1)) :
    rc1 ≤ 0 := by
  induction n generalizing s rc smack_handle with
  | zero =>
    rw [parse_template_file_loop] at h
    split_ifs at h
    · cases h; exact hrc
    · split at h
      · cases h; exact hrc
      · cases h
  | succ n ih =>
    rw [parse_template_file_loop] at h
    split_ifs at h
    · cases h; exact hrc
    · split at h
      · cases h; exact hrc
      · simp only [] at h
        split at h
        · rename_i hp
          exact ih _ _ _ (smack_parse_line_status _ _ _ _ _ _ hp) h
        · cases h
        · cases h

theorem c_str_head (c : Char) (s : Bytes) (hc : c ≠ '\x00') : (c_str (c :: s)).head? = some c := by
  simp [c_str, List.takeWhile_cons, hc]

/-- One turn of the loop on a whole comment or blank line that fits the
buffer: nothing is added and the loop goes on with rc = 0. -/
theorem parse_template_file_loop_skip (sk : SmackCalls) (fuel n : Nat) (body post : Bytes)
    (rc : Int) (smack_handle : smack_handle_t) (hbody : '\n' ∉ body)
    (hlen : body.length + 1 < sk.SMACK_LABEL_LEN)
    (hskip : body = [] ∨ body.head? = some SMACK_COMMENT_CHAR) (hrc : 0 ≤ rc) :
    parse_template_file_loop sk fuel (n + 1) (body ++ ['\n'] ++ post) rc smack_handle =
      parse_template_file_loop sk fuel n post 0 smack_handle := by
  obtain ⟨c, t, hct⟩ := List.exists_cons_of_ne_nil
    (show body ++ ['\n'] ++ post ≠ [] by simp)
  have hread : read_line (sk.SMACK_LABEL_LEN - 1) (body ++ ['\n'] ++ post)
      = (body ++ ['\n'], post) :=
    read_line_single _ body post hbody (by omega)
  have hhead : (c_str (body ++ ['\n'])).head? = some SMACK_COMMENT_CHAR ∨
      (c_str (body ++ ['\n'])).head? = some '\n' := by
    rcases hskip with rfl | h
    · right
      exact c_str_head '\n' [] (by decide)
    · left
      cases body with
      | nil => simp at h
      | cons b body =>
        simp only [List.head?_cons, Option.some.injEq] at h
        subst h
        exact c_str_head SMACK_COMMENT_CHAR _ (by decide)
  rw [hct, parse_template_file_loop_succ _ _ _ _ _ _ _ hrc, ← hct, hread,
    smack_parse_line_skip sk fuel _ smack_handle hhead]

set_option maxRecDepth 8000 in
/-- Counterexample to C16: a template made of one line of 260 bytes that
starts with '#'.  fgets stores its first 254 bytes, which parse_line skips,
then the 6 bytes left, "a b c" and the newline, which parse_line takes for a
rule. -/
theorem parse_template_file_long_comment_counterexample :
    parse_template_file calls_ok smack_ok 1
        (single_file "t".toList ('#' :: List.replicate 253 'c' ++ "a b c\n".toList)) "t".toList
        ⟨"x".toList, "App:x".toList, []⟩
      = .done (0, ⟨"x".toList, "App:x".toList, [⟨"a".toList, "b".toList, "c".toList⟩]⟩) := by
  rfl

/-- C16 (amended): the SMACK parse_line returns 0 and leaves the accumulator as
it is for every buffer whose first byte is '#' or the newline.  For a whole
line of the template that starts with '#' or is empty, follows whole lines and
fits the buffer of parse_template_file (fewer than SMACK_LABEL_LEN - 1 bytes
before its newline), parse_template_file gives the status and the rules it
gives for the template without this line: the rules come from the other
lines, in the order of the template. -/
theorem parse_template_file_skips (os : Calls) (sk : SmackCalls) (fuel : Nat)
    (fs fs2 : FileSystem) (smack_template_file : CStr) (smack_handle : smack_handle_t)
    (pre body post : Bytes) (hpre : whole_lines pre) (hbody : '\n' ∉ body)
    (hlen : body.length + 1 < sk.SMACK_LABEL_LEN)
    (hskip : body = [] ∨ body.head? = some SMACK_COMMENT_CHAR)
    (hfs : fs smack_template_file = some (pre ++ (body ++ ['\n'] ++ post)))
    (hfs2 : fs2 smack_template_file = some (pre ++ post)) :
    (∀ line handle, line.head? = some SMACK_COMMENT_CHAR ∨ line.head? = some '\n' →
      SmackTemplate.parse_line sk fuel line handle = .done (0, handle)) ∧
    parse_template_file os sk fuel fs smack_template_file smack_handle
      = parse_template_file os sk fuel fs2 smack_template_file smack_handle := by
  refine ⟨fun line handle h => smack_parse_line_skip sk fuel line handle h, ?_⟩
  have hsize : 2 ≤ sk.SMACK_LABEL_LEN := by omega
  unfold parse_template_file
  rw [hfs, hfs2]
  split_ifs
  · rfl
  simp only []
  rw [parse_template_file_loop_append sk fuel pre.length _ (post.length + body.length + 1) pre
      (body ++ ['\n'] ++ post) 0 smack_handle hsize hpre (Nat.le_refl _) (Nat.le_refl _)
      (by simp; omega),
    parse_template_file_loop_append sk fuel pre.length _ post.length pre post 0 smack_handle
      hsize hpre (Nat.le_refl _) (Nat.le_refl _) (Nat.le_refl _)]
  cases hp : parse_template_file_loop sk fuel pre.length pre 0 smack_handle with
  | undefined => rfl
  | out_of_fuel => rfl
  | done r =>
    obtain ⟨rc1, handle1⟩ := r
    simp only []
    have hrc1 := parse_template_file_loop_status sk fuel _ _ _ _ _ _ (le_refl _) hp
    by_cases hneg : rc1 < 0
    · rw [parse_template_file_loop_neg _ _ _ _ _ _ hneg,
        parse_template_file_loop_neg _ _ _ _ _ _ hneg]
    · have h0 : rc1 = 0 := le_antisymm hrc1 (not_lt.1 hneg)
      subst h0
      rw [parse_template_file_loop_skip sk fuel _ body post 0 handle1 hbody hlen hskip
        (le_refl _)]
      exact parse_template_file_loop_fuel _ _ _ _ _ _ _ hsize (by omega) (Nat.le_refl _)

/-- Witness of C16 (amended): a comment between two rules; the template gives
what the template without the comment gives, the two rules in their order. -/
theorem parse_template_file_skips_witness :
    parse_template_file calls_ok smack_ok 1
        (single_file "t".toList
          ("~APP~ System rwx\n".toList ++ ("# end".toList ++ ['\n'] ++ "System ~APP~ rx\n".toList)))
        "t".toList ⟨"x".toList, "App:x".toList, []⟩
      = parse_template_file calls_ok smack_ok 1
        (single_file "t".toList ("~APP~ System rwx\n".toList ++ "System ~APP~ rx\n".toList))
        "t".toList ⟨"x".toList, "App:x".toList, []⟩ ∧
    parse_template_file calls_ok smack_ok 1
        (single_file "t".toList ("~APP~ System rwx\n".toList ++ "System ~APP~ rx\n".toList))
        "t".toList ⟨"x".toList, "App:x".toList, []⟩
      = .done (0, ⟨"x".toList, "App:x".toList,
          [⟨"App:x".toList, "System".toList, "rwx".toList⟩,
            ⟨"System".toList, "App:x".toList, "rx".toList⟩]⟩) :=
  ⟨(parse_template_file_skips calls_ok smack_ok 1 _ _ "t".toList
      ⟨"x".toList, "App:x".toList, []⟩ "~APP~ System rwx\n".toList "# end".toList
      "System ~APP~ rx\n".toList (by intro c hc; simp at hc; exact hc.symm ▸ rfl) (by decide)
      (by decide) (Or.inr rfl) rfl rfl).2, rfl⟩

/-! ## The selinux id, the turns of the loops and the lines of the .fc file -/

theorem dash_to_underscore_append (a b : CStr) :
    dash_to_underscore (a ++ b) = dash_to_underscore a ++ dash_to_underscore b := by
  simp [dash_to_underscore_eq_map]

theorem replace_id_infix_dash_to_underscore (id : CStr) :
    REPLACE_ID <:+: dash_to_underscore id ↔ REPLACE_ID <:+: id := by
  constructor
  · intro h
    rw [dash_to_underscore_eq_map, List.isInfix_map_iff] at h
    obtain ⟨l, hl, e⟩ := h
    rw [← dash_to_underscore_eq_map] at e
    have := (dash_to_underscore_eq_iff l REPLACE_ID (by decide) (by decide)).1 e.symm
    exact this ▸ hl
  · rintro ⟨a, b, rfl⟩
    refine ⟨dash_to_underscore a, dash_to_underscore b, ?_⟩
    rw [dash_to_underscore_append, dash_to_underscore_append]
    rfl

/-- Counterexample to C25: the id ~ID~, which is not empty.  dash_to_underscore
leaves it as it is, so the selinux id holds the token ~ID~, and on the line
~APP~ the ~APP~ pass of parse_line writes it: the line returned is ~ID~. -/
theorem dash_to_underscore_id_token_counterexample :
    "~ID~".toList ≠ [] ∧ REPLACE_ID <:+: dash_to_underscore "~ID~".toList ∧
    parse_line 1 "~APP~".toList "~ID~".toList (dash_to_underscore "~ID~".toList)
      = .done (0, "~ID~".toList) ∧
    REPLACE_ID <:+: "~ID~".toList :=
  ⟨by decide, List.infix_refl _, rfl, List.infix_refl _⟩

/-- C25 (amended): dash_to_underscore changes the bytes '-' only, so the
selinux id holds the token ~ID~ exactly when the id holds it; it cannot when
the id has no '~'.  For an id without '~' that is not empty and is none of I,
D and ID, the ~APP~ loop run on a line without ~ID~ gives a line without
~ID~. -/
theorem dash_to_underscore_id_token (id : CStr) :
    (REPLACE_ID <:+: dash_to_underscore id ↔ REPLACE_ID <:+: id) ∧
    ('~' ∉ id → ¬ REPLACE_ID <:+: dash_to_underscore id) ∧
    ('~' ∉ id → id ≠ [] → id ≠ ['I'] → id ≠ ['D'] → id ≠ ['I', 'D'] →
      ∀ fuel line1 out, ¬ REPLACE_ID <:+: line1 →
        replace_loop REPLACE_APP (dash_to_underscore id) fuel line1 = .done out →
        ¬ REPLACE_ID <:+: out) := by
  refine ⟨replace_id_infix_dash_to_underscore id, fun h hinf => ?_, ?_⟩
  · exact tilde_not_mem_dash_to_underscore id h (hinf.subset (by decide))
  · intro htilde hne hI hD hID fuel line1 out hline hloop
    have hsid := tilde_not_mem_dash_to_underscore id htilde
    have hne2 : dash_to_underscore id ≠ [] := fun e =>
      hne ((dash_to_underscore_eq_iff id [] (by simp) (by simp)).1 e)
    have hI2 : dash_to_underscore id ≠ ['I'] := fun e =>
      hI ((dash_to_underscore_eq_iff id ['I'] (by decide) (by decide)).1 e)
    have hD2 : dash_to_underscore id ≠ ['D'] := fun e =>
      hD ((dash_to_underscore_eq_iff id ['D'] (by decide) (by decide)).1 e)
    have hID2 : dash_to_underscore id ≠ ['I', 'D'] := fun e =>
      hID ((dash_to_underscore_eq_iff id ['I', 'D'] (by decide) (by decide)).1 e)
    refine (replace_loop_done REPLACE_APP _ (fun l => ¬ REPLACE_ID <:+: l) ?_
      fuel line1 out hline hloop).1
    intro l pos hl hs hnew
    apply hl
    rw [strstr_eq_some l REPLACE_APP pos hs]
    exact replace_id_infix_of_append _ _ _ hsid hne2 hI2 hD2 hID2 hnew

/-- Witness of C25 (amended): the id agl-can on the line allow ~APP~_t; -/
theorem dash_to_underscore_id_token_witness :
    ¬ REPLACE_ID <:+: dash_to_underscore "agl-can".toList ∧
    ¬ REPLACE_ID <:+: "allow agl_can_t;".toList :=
  ⟨(dash_to_underscore_id_token "agl-can".toList).2.1 (by decide),
    (dash_to_underscore_id_token "agl-can".toList).2.2 (by decide) (by decide) (by decide)
      (by decide) (by decide) 1 "allow ~APP~_t;".toList "allow agl_can_t;".toList (by decide)
      rfl⟩

theorem replace_loop_turns_eq (token repl : CStr) (fuel : Nat) (line : CStr) :
    replace_loop token repl fuel line =
      match replace_loop_turns token repl fuel line with
      | .done (_, out) => .done out
      | .undefined => .undefined
      | .out_of_fuel => .out_of_fuel := by
  induction fuel generalizing line with
  | zero =>
    rw [replace_loop, replace_loop_turns]
    cases strstr line token <;> rfl
  | succ fuel ih =>
    rw [replace_loop, replace_loop_turns]
    cases strstr line token with
    | none => rfl
    | some pos =>
      simp only []
      split_ifs
      · rw [ih]
        cases replace_loop_turns token repl fuel
            (line.take pos ++ repl ++ line.drop (pos + token.length)) with
        | done r => rfl
        | undefined => rfl
        | out_of_fuel => rfl
      · rfl

/-- Each turn of the loop takes two '~' away when the token has two and the
replacement has none. -/
theorem replace_loop_turns_count (token repl : CStr) (htok : token.count '~' = 2)
    (hrepl : '~' ∉ repl) (fuel : Nat) (line out : CStr) (k : Nat)
    (h : replace_loop_turns token repl fuel line = .done (k, out)) :
    out.count '~' + 2 * k = line.count '~' := by
  induction fuel generalizing line k with
  | zero =>
    rw [replace_loop_turns] at h
    cases hs : strstr line token with
    | none =>
      rw [hs] at h
      cases h
      rfl
    | some pos =>
      rw [hs] at h
      cases h
  | succ fuel ih =>
    rw [replace_loop_turns] at h
    cases hs : strstr line token with
    | none =>
      rw [hs] at h
      cases h
      rfl
    | some pos =>
      rw [hs] at h
      simp only [] at h
      split_ifs at h
      · cases hr : replace_loop_turns token repl fuel
            (line.take pos ++ repl ++ line.drop (pos + token.length)) with
        | undefined => rw [hr] at h; cases h
        | out_of_fuel => rw [hr] at h; cases h
        | done r =>
          obtain ⟨k1, out1⟩ := r
          rw [hr] at h
          cases h
          have := ih _ _ hr
          have e := congrArg (List.count '~') (strstr_eq_some line token pos hs)
          simp only [List.count_append, htok] at e
          simp only [List.count_append, List.count_eq_zero.2 hrepl] at this
          omega

/-- C28: for every template line and every id without '~', the two loops of
parse_line end within half the number of '~' of the line, so parse_line does;
each replacement takes two '~' away from the line and brings none, so the
replacements of the two loops together are at most half the number of '~' of
the line. -/
theorem parse_line_replacements (fuel : Nat) (line id : CStr) (htilde : '~' ∉ id)
    (hfuel : line.count '~' / 2 ≤ fuel) :
    replace_loop REPLACE_ID id fuel line ≠ .out_of_fuel ∧
    (∀ line1, replace_loop REPLACE_ID id fuel line = .done line1 →
      replace_loop REPLACE_APP (dash_to_underscore id) fuel line1 ≠ .out_of_fuel) ∧
    parse_line fuel line id (dash_to_underscore id) ≠ .out_of_fuel ∧
    (∀ k1 line1 k2 line2, replace_loop_turns REPLACE_ID id fuel line = .done (k1, line1) →
      replace_loop_turns REPLACE_APP (dash_to_underscore id) fuel line1 = .done (k2, line2) →
      parse_line fuel line id (dash_to_underscore id) = .done (0, line2) ∧
      line1.count '~' + 2 * k1 = line.count '~' ∧
      line2.count '~' + 2 * k2 = line1.count '~' ∧
      k1 + k2 ≤ line.count '~' / 2) := by
  have hsid := tilde_not_mem_dash_to_underscore id htilde
  have h1 := replace_loop_fuel REPLACE_ID id (by decide) htilde fuel line hfuel
  have h2 : ∀ line1, replace_loop REPLACE_ID id fuel line = .done line1 →
      replace_loop REPLACE_APP (dash_to_underscore id) fuel line1 ≠ .out_of_fuel := by
    intro line1 hl
    have := replace_loop_count_le REPLACE_ID id (by decide) htilde fuel line line1 hl
    exact replace_loop_fuel REPLACE_APP _ (by decide) hsid fuel line1 (by omega)
  refine ⟨h1, h2, ?_, ?_⟩
  · unfold parse_line
    cases hl : replace_loop REPLACE_ID id fuel line with
    | out_of_fuel => exact absurd hl h1
    | undefined => simp
    | done line1 =>
      simp only []
      cases hl2 : replace_loop REPLACE_APP (dash_to_underscore id) fuel line1 with
      | out_of_fuel => exact absurd hl2 (h2 line1 hl)
      | undefined => simp
      | done line2 => simp
  · intro k1 line1 k2 line2 ht1 ht2
    have hc1 := replace_loop_turns_count REPLACE_ID id (by decide) htilde fuel line line1 k1 ht1
    have hc2 := replace_loop_turns_count REPLACE_APP (dash_to_underscore id) (by decide) hsid
      fuel line1 line2 k2 ht2
    refine ⟨?_, hc1, hc2, by omega⟩
    unfold parse_line
    rw [replace_loop_turns_eq, ht1]
    simp only []
    rw [replace_loop_turns_eq, ht2]

/-- Witness of C28: the line a~ID~b~APP~ and the id x-y; one replacement by
each loop, for four '~'. -/
theorem parse_line_replacements_witness :
    parse_line 2 "a~ID~b~APP~\n".toList "x-y".toList (dash_to_underscore "x-y".toList)
      = .done (0, "ax-ybx_y\n".toList) ∧
    "ax-yb~APP~\n".toList.count '~' + 2 * 1 = "a~ID~b~APP~\n".toList.count '~' ∧
    "ax-ybx_y\n".toList.count '~' + 2 * 1 = "ax-yb~APP~\n".toList.count '~' ∧
    1 + 1 ≤ "a~ID~b~APP~\n".toList.count '~' / 2 :=
  (parse_line_replacements 2 "a~ID~b~APP~\n".toList "x-y".toList (by decide) (by decide)).2.2.2
    1 "ax-yb~APP~\n".toList 1 "ax-ybx_y\n".toList rfl rfl

/-- C29: in the loop of generate_app_module_fc, for a path whose type is known
and whose label is generated, when the length check passes
(strlen(path) + strlen(label) + 32 + 6 < 2048) the line assembled in the
buffer, path gen_context(system_u:object_r:label,s0) and a newline, has
exactly strlen(path) + strlen(label) + 36 bytes, so with its NUL it fits the
2048 bytes of the buffer; for a private path type this line is what the loop
gives to fputs, and for a public one the loop frees the global label once the
line is assembled, which is undefined. -/
theorem generate_app_module_fc_line_fits (api : LabelApi) (os : Calls)
    (selinux_fc_file selinux_id : CStr) (p : path_t) (paths : List path_t) (written : Bytes)
    (rc : Int) (hinfo : 0 ≤ (api.get_path_type_info p.path_type).1)
    (hlabel : (api.get_path_type_info p.path_type).2.2 = false →
      0 ≤ (api.generate_label selinux_id (api.get_path_type_info p.path_type).2.1).1)
    (hlen : p.path.length + (fc_label api selinux_id p).length + 32 + 6 < MAX_LINE_SIZE_MODULE) :
    (p.path ++ GEN_CONTEXT_BEGIN ++ fc_label api selinux_id p ++ GEN_CONTEXT_END).length
      = p.path.length + (fc_label api selinux_id p).length + 36 ∧
    (p.path ++ GEN_CONTEXT_BEGIN ++ fc_label api selinux_id p ++ GEN_CONTEXT_END).length + 1
      ≤ MAX_LINE_SIZE_MODULE ∧
    generate_app_module_fc_loop api os selinux_fc_file selinux_id (p :: paths) written rc
      = if (api.get_path_type_info p.path_type).2.2 then .undefined
        else if os.fputs selinux_fc_file written
            (p.path ++ GEN_CONTEXT_BEGIN ++ fc_label api selinux_id p ++ GEN_CONTEXT_END) < 0 then
          .done (os.fputs selinux_fc_file written
            (p.path ++ GEN_CONTEXT_BEGIN ++ fc_label api selinux_id p ++ GEN_CONTEXT_END), written)
        else
          generate_app_module_fc_loop api os selinux_fc_file selinux_id paths
            (written ++ (p.path ++ GEN_CONTEXT_BEGIN ++ fc_label api selinux_id p
              ++ GEN_CONTEXT_END))
            (os.fputs selinux_fc_file written
              (p.path ++ GEN_CONTEXT_BEGIN ++ fc_label api selinux_id p ++ GEN_CONTEXT_END)) := by
  have hb : GEN_CONTEXT_BEGIN.length = 31 := by decide
  have he : GEN_CONTEXT_END.length = 5 := by decide
  have hlength : (p.path ++ GEN_CONTEXT_BEGIN ++ fc_label api selinux_id p
      ++ GEN_CONTEXT_END).length = p.path.length + (fc_label api selinux_id p).length + 36 := by
    simp only [List.length_append, hb, he]
    omega
  refine ⟨hlength, ?_, ?_⟩
  · rw [hlength]
    omega
  · cases hpub : (api.get_path_type_info p.path_type).2.2 with
    | true =>
      rw [generate_app_module_fc_loop_public api os selinux_fc_file selinux_id p paths written
        rc hinfo hpub]
      rfl
    | false =>
      have hl : fc_label api selinux_id p
          = (api.generate_label selinux_id (api.get_path_type_info p.path_type).2.1).2 := by
        simp [fc_label, hpub]
      rw [hl] at hlen ⊢
      rw [generate_app_module_fc_loop]
      simp only [if_neg (not_lt.2 hinfo), hpub, Bool.not_false, if_true,
        if_neg (not_lt.2 (hlabel hpub)), ge_iff_le, if_neg (not_le.2 hlen),
        Bool.false_eq_true, if_false]

/-- Witness of C29: the path /opt/x/bin/x with the label App:x:data (12 and
10 bytes): a line of 58 bytes. -/
theorem generate_app_module_fc_line_fits_witness :
    ("/opt/x/bin/x".toList ++ GEN_CONTEXT_BEGIN
        ++ fc_label label_api_example "x".toList ⟨"/opt/x/bin/x".toList, 0⟩
        ++ GEN_CONTEXT_END).length
      = "/opt/x/bin/x".toList.length
        + (fc_label label_api_example "x".toList ⟨"/opt/x/bin/x".toList, 0⟩).length + 36 :=
  (generate_app_module_fc_line_fits label_api_example calls_ok "x.fc".toList "x".toList
    ⟨"/opt/x/bin/x".toList, 0⟩ [] [] 0 (by decide) (fun _ => by decide) (by decide)).1

/-! ## The batches of the client -/

theorem plink_loop_eq (av : List CStr) (n r : Nat) (h : r + n ≤ av.length) :
    plink_loop av n r
      = .done (r + ((av.drop r).take n).findIdx (fun w => decide (w = ";".toList))) := by
  induction n generalizing r with
  | zero => simp [plink_loop]
  | succ n ih =>
    have hr : r < av.length := by omega
    rw [plink_loop, List.getElem?_eq_getElem hr, List.drop_eq_getElem_cons hr,
      List.take_succ_cons, List.findIdx_cons]
    simp only []
    by_cases hw : av[r] = ";".toList
    · rw [if_pos hw, decide_eq_true hw]
      rfl
    · rw [if_neg hw, ih (r + 1) (by omega), decide_eq_false hw]
      simp only [cond_false]
      rw [Nat.add_assoc, Nat.add_comm 1]

/-- What plink returns on the words av, all of them counted in ac. -/
theorem plink_eq (av : List CStr) (maxi : Int) (hmaxi : 0 ≤ maxi) :
    plink av.length av maxi
      = .done (((av.take (min av.length maxi.toNat)).findIdx
            (fun w => decide (w = ";".toList)) : Nat),
          ((av.take (min av.length maxi.toNat)).findIdx
            (fun w => decide (w = ";".toList)) : Nat)
          + if (av.take (min av.length maxi.toNat)).findIdx
              (fun w => decide (w = ";".toList)) < min av.length maxi.toNat then 1 else 0) := by
  have hmin : (if maxi < (av.length : Int) then maxi else (av.length : Int))
      = ((min av.length maxi.toNat : Nat) : Int) := by
    split_ifs with h <;> omega
  unfold plink
  rw [hmin, Int.toNat_ofNat, plink_loop_eq av _ 0 (by omega)]
  simp only [List.drop_zero, Nat.zero_add, Nat.cast_lt]

/-- C21: for every list of words av, all counted in ac, and every maxi >= 1,
plink returns r, the index of the first word ";" among the first
min(ac, maxi) words, or min(ac, maxi) when none of them is ";"; no word before
r is ";"; used is r + 1 when r is below min(ac, maxi), the word at r being
that ";", and r otherwise; and used is at most ac. -/
theorem plink_batch (av : List CStr) (maxi : Int) (hmaxi : 1 ≤ maxi) :
    ∃ r used : Nat, plink av.length av maxi = .done ((r : Int), (used : Int)) ∧
      r = (av.take (min av.length maxi.toNat)).findIdx (fun w => decide (w = ";".toList)) ∧
      r ≤ min av.length maxi.toNat ∧
      (r = min av.length maxi.toNat ↔ ";".toList ∉ av.take (min av.length maxi.toNat)) ∧
      (∀ i, i < r → av[i]? ≠ some ";".toList) ∧
      (r < min av.length maxi.toNat → av[r]? = some ";".toList ∧ used = r + 1) ∧
      (r = min av.length maxi.toNat → used = r) ∧
      used ≤ av.length := by
  have hlen : (av.take (min av.length maxi.toNat)).length = min av.length maxi.toNat := by
    rw [List.length_take]
    omega
  have hle := @List.findIdx_le_length (List Char) (fun w => decide (w = ";".toList))
    (av.take (min av.length maxi.toNat))
  rw [hlen] at hle
  refine ⟨(av.take (min av.length maxi.toNat)).findIdx (fun w => decide (w = ";".toList)),
    (av.take (min av.length maxi.toNat)).findIdx (fun w => decide (w = ";".toList))
      + if (av.take (min av.length maxi.toNat)).findIdx
      (fun w => decide (w = ";".toList)) < min av.length maxi.toNat then 1 else 0, ?_, rfl, hle,
    ?_, ?_, ?_, ?_, ?_⟩
  · rw [plink_eq av maxi (by omega)]
    push_cast
    rfl
  · have hiff := @List.findIdx_eq_length (List Char) (fun w => decide (w = ";".toList))
      (av.take (min av.length maxi.toNat))
    rw [hlen] at hiff
    rw [hiff]
    constructor
    · intro h hm
      simpa using h _ hm
    · intro h x hx
      simp only [decide_eq_false_iff_not]
      exact fun e => h (e ▸ hx)
  · intro i hi hsome
    have hi2 : i < (av.take (min av.length maxi.toNat)).length := by omega
    have h1 := List.not_of_lt_findIdx hi
    rw [List.getElem_take] at h1
    have hi3 : i < av.length := by omega
    rw [List.getElem?_eq_getElem hi3] at hsome
    simp only [Option.some.injEq] at hsome
    simp [hsome] at h1
  · intro hlt
    have hlt2 : (av.take (min av.length maxi.toNat)).findIdx
        (fun w => decide (w = ";".toList)) < (av.take (min av.length maxi.toNat)).length := by
      omega
    have h1 := List.findIdx_getElem (w := hlt2)
    rw [List.getElem_take] at h1
    refine ⟨?_, by rw [if_pos hlt]⟩
    rw [List.getElem?_eq_getElem (by omega)]
    simpa using h1
  · intro heq
    rw [if_neg (by omega)]
    rfl
  · split_ifs <;> omega

/-- Witness of C21: the words id ; clean with maxi = 2, as do_id reads them. -/
theorem plink_batch_witness :
    ∃ r used : Nat, plink 3 ["id".toList, ";".toList, "clean".toList] 2
        = .done ((r : Int), (used : Int)) ∧ r = 1 ∧ used = 2 := by
  obtain ⟨r, used, h, hr, _, _, _, h2, _, _⟩ :=
    plink_batch ["id".toList, ";".toList, "clean".toList] 2 (by decide)
  have hr1 : r = 1 := by rw [hr]; decide
  subst hr1
  exact ⟨1, used, h, rfl, (h2 (by decide)).2⟩

/-! ## The commands of the client -/

theorem plink_command (w : CStr) (rest : List CStr) (maxi : Int) (hw : w ≠ ";".toList)
    (hmaxi : 1 ≤ maxi) :
    ∃ n uc : Int, plink ((w :: rest).length : Nat) (w :: rest) maxi = .done (n, uc) ∧
      1 ≤ n ∧ n ≤ uc ∧ uc ≤ ((w :: rest).length : Nat) ∧ n ≤ maxi := by
  have hlen : ((w :: rest).take (min (w :: rest).length maxi.toNat)).length
      = min (w :: rest).length maxi.toNat := by
    rw [List.length_take]
    omega
  have hle := @List.findIdx_le_length (List Char) (fun w => decide (w = ";".toList))
    ((w :: rest).take (min (w :: rest).length maxi.toNat))
  rw [hlen] at hle
  have hpos : 1 ≤ ((w :: rest).take (min (w :: rest).length maxi.toNat)).findIdx
      (fun w => decide (w = ";".toList)) := by
    obtain ⟨k, hk⟩ : ∃ k, min (w :: rest).length maxi.toNat = k + 1 :=
      ⟨min (w :: rest).length maxi.toNat - 1, by simp only [List.length_cons]; omega⟩
    rw [hk, List.take_succ_cons, List.findIdx_cons, decide_eq_false hw]
    simp only [cond_false]
    omega
  refine ⟨_, _, plink_eq (w :: rest) maxi (by omega), by exact_mod_cast hpos, ?_, ?_, ?_⟩
  · split_ifs <;> omega
  · split_ifs <;> omega
  · omega

theorem do_clean_spec (m : SecurityManager) (st : Client) (w : CStr) (rest : List CStr)
    (hw : w ≠ ";".toList) :
    ∃ uc st1, do_clean m st ((w :: rest).length : Nat) (w :: rest) = .done (uc, st1) ∧
      1 ≤ uc ∧ uc ≤ ((w :: rest).length : Nat) ∧ command_effect m st st1 := by
  obtain ⟨n, uc, hpl, h1, h2, h3, _⟩ := plink_command w rest 1 hw (by decide)
  unfold do_clean
  rw [hpl]
  simp only []
  rw [if_neg (not_lt.2 h1)]
  split_ifs with h
  · exact ⟨_, _, rfl, by omega, h3, .clean_failed h⟩
  · exact ⟨_, _, rfl, by omega, h3, .clean_done (not_lt.1 h)⟩

theorem do_display_spec (m : SecurityManager) (st : Client) (w : CStr) (rest : List CStr)
    (hw : w ≠ ";".toList) :
    ∃ uc st1, do_display m st ((w :: rest).length : Nat) (w :: rest) = .done (uc, st1) ∧
      1 ≤ uc ∧ uc ≤ ((w :: rest).length : Nat) ∧ command_effect m st st1 := by
  obtain ⟨n, uc, hpl, h1, h2, h3, _⟩ := plink_command w rest 1 hw (by decide)
  unfold do_display
  rw [hpl]
  simp only []
  rw [if_neg (not_lt.2 h1)]
  exact ⟨_, _, rfl, by omega, h3, .neutral _ (by simp) (by simp) (by simp)⟩

theorem do_install_spec (m : SecurityManager) (st : Client) (w : CStr) (rest : List CStr)
    (hw : w ≠ ";".toList) :
    ∃ uc st1, do_install m st ((w :: rest).length : Nat) (w :: rest) = .done (uc, st1) ∧
      1 ≤ uc ∧ uc ≤ ((w :: rest).length : Nat) ∧ command_effect m st st1 := by
  obtain ⟨n, uc, hpl, h1, h2, h3, _⟩ := plink_command w rest 1 hw (by decide)
  unfold do_install
  rw [hpl]
  simp only []
  rw [if_neg (not_lt.2 h1)]
  exact ⟨_, _, rfl, by omega, h3, .neutral _ (by simp) (by simp) (by simp)⟩

theorem do_uninstall_spec (m : SecurityManager) (st : Client) (w : CStr) (rest : List CStr)
    (hw : w ≠ ";".toList) :
    ∃ uc st1, do_uninstall m st ((w :: rest).length : Nat) (w :: rest) = .done (uc, st1) ∧
      1 ≤ uc ∧ uc ≤ ((w :: rest).length : Nat) ∧ command_effect m st st1 := by
  obtain ⟨n, uc, hpl, h1, h2, h3, _⟩ := plink_command w rest 1 hw (by decide)
  unfold do_uninstall
  rw [hpl]
  simp only []
  rw [if_neg (not_lt.2 h1)]
  exact ⟨_, _, rfl, by omega, h3, .neutral _ (by simp) (by simp) (by simp)⟩

theorem do_id_spec (m : SecurityManager) (st : Client) (w : CStr) (rest : List CStr)
    (hw : w ≠ ";".toList) :
    ∃ uc st1, do_id m st ((w :: rest).length : Nat) (w :: rest) = .done (uc, st1) ∧
      1 ≤ uc ∧ uc ≤ ((w :: rest).length : Nat) ∧ command_effect m st st1 := by
  obtain ⟨n, uc, hpl, h1, h2, h3, _⟩ := plink_command w rest 2 hw (by decide)
  unfold do_id
  rw [hpl]
  simp only []
  by_cases hn : n < 2
  · rw [if_pos hn]
    exact ⟨_, _, rfl, by omega, h3, .status _⟩
  · rw [if_neg hn]
    cases rest with
    | nil =>
      simp only [List.length_singleton, Nat.cast_one] at h3
      omega
    | cons id rest =>
      simp only [List.getElem?_cons_succ, List.getElem?_cons_zero]
      by_cases hid : id.length ≤ 0
      · rw [if_pos hid]
        exact ⟨_, _, rfl, by omega, h3, .status _⟩
      · have hne : id ≠ [] := fun e => hid (by simp [e])
        rw [if_neg hid]
        split_ifs with h
        · exact ⟨_, _, rfl, by omega, h3, .id_failed id hne h⟩
        · exact ⟨_, _, rfl, by omega, h3, .id_done id hne (not_lt.1 h)⟩

theorem do_path_spec (m : SecurityManager) (st : Client) (w : CStr) (rest : List CStr)
    (hw : w ≠ ";".toList) :
    ∃ uc st1, do_path m st ((w :: rest).length : Nat) (w :: rest) = .done (uc, st1) ∧
      1 ≤ uc ∧ uc ≤ ((w :: rest).length : Nat) ∧ command_effect m st st1 := by
  obtain ⟨n, uc, hpl, h1, h2, h3, _⟩ := plink_command w rest 3 hw (by decide)
  unfold do_path
  rw [hpl]
  simp only []
  by_cases hn : n < 3
  · rw [if_pos hn]
    exact ⟨_, _, rfl, by omega, h3, .status _⟩
  · rw [if_neg hn]
    cases rest with
    | nil =>
      simp only [List.length_singleton, Nat.cast_one] at h3
      omega
    | cons path rest =>
      cases rest with
      | nil =>
        simp only [List.length_cons, List.length_nil] at h3
        omega
      | cons path_type rest =>
        simp only [List.getElem?_cons_succ, List.getElem?_cons_zero]
        split_ifs with h
        · exact ⟨_, _, rfl, by omega, h3, .status _⟩
        · exact ⟨_, _, rfl, by omega, h3, .neutral _ (by simp) (by simp) (by simp)⟩

theorem do_permission_spec (m : SecurityManager) (st : Client) (w : CStr) (rest : List CStr)
    (hw : w ≠ ";".toList) :
    ∃ uc st1, do_permission m st ((w :: rest).length : Nat) (w :: rest) = .done (uc, st1) ∧
      1 ≤ uc ∧ uc ≤ ((w :: rest).length : Nat) ∧ command_effect m st st1 := by
  obtain ⟨n, uc, hpl, h1, h2, h3, _⟩ := plink_command w rest 2 hw (by decide)
  unfold do_permission
  rw [hpl]
  simp only []
  by_cases hset : st.id_set = 0
  · rw [if_pos hset]
    exact ⟨_, _, rfl, by omega, h3, .status st.last_status⟩
  rw [if_neg hset]
  by_cases hn : n < 2
  · rw [if_pos hn]
    exact ⟨_, _, rfl, by omega, h3, .status _⟩
  · rw [if_neg hn]
    cases rest with
    | nil =>
      simp only [List.length_singleton, Nat.cast_one] at h3
      omega
    | cons p rest =>
      simp only [List.getElem?_cons_succ, List.getElem?_cons_zero]
      by_cases hp : p.length ≤ 0
      · rw [if_pos hp]
        exact ⟨_, _, rfl, by omega, h3, .status _⟩
      · have hne : p ≠ [] := fun e => hp (by simp [e])
        rw [if_neg hp]
        exact ⟨_, _, rfl, by omega, h3, .permission p hne hset⟩

theorem do_log_spec (m : SecurityManager) (st : Client) (w : CStr) (rest : List CStr)
    (hw : w ≠ ";".toList) :
    ∃ uc st1, do_log m st ((w :: rest).length : Nat) (w :: rest) = .done (uc, st1) ∧
      1 ≤ uc ∧ uc ≤ ((w :: rest).length : Nat) ∧ command_effect m st st1 := by
  obtain ⟨n, uc, hpl, h1, h2, h3, _⟩ := plink_command w rest 2 hw (by decide)
  unfold do_log
  rw [hpl]
  simp only []
  by_cases hn : 1 < n
  · rw [if_pos hn]
    cases rest with
    | nil =>
      simp only [List.length_singleton, Nat.cast_one] at h3
      omega
    | cons a rest =>
      simp only [List.getElem?_cons_succ, List.getElem?_cons_zero]
      split_ifs with h
      · exact ⟨_, _, rfl, by omega, h3, .status st.last_status⟩
      · exact ⟨_, _, rfl, by omega, h3, .neutral _ (by simp) (by simp) (by simp)⟩
  · rw [if_neg hn]
    exact ⟨_, _, rfl, by omega, h3, .neutral _ (by simp) (by simp) (by simp)⟩

theorem do_help_spec (w : CStr) (rest : List CStr) :
    ∃ rc, do_help ((w :: rest).length : Nat) (w :: rest) = .done rc ∧ 1 ≤ rc ∧
      rc ≤ ((w :: rest).length : Nat) := by
  unfold do_help
  cases rest with
  | nil => exact ⟨1, by simp, le_refl _, by simp⟩
  | cons a rest =>
    have h : (1 : Int) < ((w :: a :: rest).length : Nat) := by
      simp only [List.length_cons]
      omega
    rw [if_pos h]
    simp only [List.getElem?_cons_succ, List.getElem?_cons_zero]
    split_ifs
    · exact ⟨2, rfl, by decide, by simp only [List.length_cons]; omega⟩
    · exact ⟨1, rfl, le_refl _, by simp only [List.length_cons]; omega⟩

/-- What do_any does on words that are all counted in ac: exit(0) for quit, or
a return of the number of words used, between 1 and ac. -/
theorem do_any_spec (m : SecurityManager) (st : Client) (w : CStr) (rest : List CStr) :
    (w = "quit".toList ∧
      do_any m st ((w :: rest).length : Nat) (w :: rest) = .done (.exited 0 st)) ∨
    (w ≠ "quit".toList ∧
      ∃ rc st1, do_any m st ((w :: rest).length : Nat) (w :: rest) = .done (.returned rc st1) ∧
        1 ≤ rc ∧ rc ≤ ((w :: rest).length : Nat) ∧ command_effect m st st1) := by
  have hac : ¬ (((w :: rest).length : Nat) : Int) = 0 := by
    simp only [List.length_cons]
    omega
  unfold do_any
  rw [if_neg hac]
  simp only [List.getElem?_cons_zero]
  by_cases h1 : w = "log".toList
  · obtain ⟨uc, st1, h, hb⟩ := do_log_spec m st w rest (by rw [h1]; decide)
    exact Or.inr ⟨by rw [h1]; decide, uc, st1, by rw [if_pos h1, h]; rfl, hb⟩
  rw [if_neg h1]
  by_cases h2 : w = "clean".toList
  · obtain ⟨uc, st1, h, hb⟩ := do_clean_spec m st w rest (by rw [h2]; decide)
    exact Or.inr ⟨by rw [h2]; decide, uc, st1, by rw [if_pos h2, h]; rfl, hb⟩
  rw [if_neg h2]
  by_cases h3 : w = "display".toList
  · obtain ⟨uc, st1, h, hb⟩ := do_display_spec m st w rest (by rw [h3]; decide)
    exact Or.inr ⟨by rw [h3]; decide, uc, st1, by rw [if_pos h3, h]; rfl, hb⟩
  rw [if_neg h3]
  by_cases h4 : w = "id".toList
  · obtain ⟨uc, st1, h, hb⟩ := do_id_spec m st w rest (by rw [h4]; decide)
    exact Or.inr ⟨by rw [h4]; decide, uc, st1, by rw [if_pos h4, h]; rfl, hb⟩
  rw [if_neg h4]
  by_cases h5 : w = "path".toList
  · obtain ⟨uc, st1, h, hb⟩ := do_path_spec m st w rest (by rw [h5]; decide)
    exact Or.inr ⟨by rw [h5]; decide, uc, st1, by rw [if_pos h5, h]; rfl, hb⟩
  rw [if_neg h5]
  by_cases h6 : w = "permission".toList
  · obtain ⟨uc, st1, h, hb⟩ := do_permission_spec m st w rest (by rw [h6]; decide)
    exact Or.inr ⟨by rw [h6]; decide, uc, st1, by rw [if_pos h6, h]; rfl, hb⟩
  rw [if_neg h6]
  by_cases h7 : w = "install".toList
  · obtain ⟨uc, st1, h, hb⟩ := do_install_spec m st w rest (by rw [h7]; decide)
    exact Or.inr ⟨by rw [h7]; decide, uc, st1, by rw [if_pos h7, h]; rfl, hb⟩
  rw [if_neg h7]
  by_cases h8 : w = "uninstall".toList
  · obtain ⟨uc, st1, h, hb⟩ := do_uninstall_spec m st w rest (by rw [h8]; decide)
    exact Or.inr ⟨by rw [h8]; decide, uc, st1, by rw [if_pos h8, h]; rfl, hb⟩
  rw [if_neg h8]
  by_cases h9 : w = "quit".toList
  · exact Or.inl ⟨h9, by rw [if_pos h9]⟩
  rw [if_neg h9]
  refine Or.inr ⟨h9, ?_⟩
  split_ifs
  · obtain ⟨rc, h, hb1, hb2⟩ := do_help_spec w rest
    exact ⟨rc, st, by rw [h], hb1, hb2, .status st.last_status⟩
  · exact ⟨1, st, rfl, le_refl _, by simp only [List.length_cons]; omega,
      .status st.last_status⟩

/-! ## The id is set before a permission is added -/

theorem snoc_eq_append_cons {α : Type} (l before after : List α) (x y : α)
    (h : l ++ [x] = before ++ y :: after) :
    (before = l ∧ y = x ∧ after = []) ∨ ∃ after1, after = after1 ++ [x] ∧ l = before ++ y :: after1 := by
  rcases List.eq_nil_or_concat after with rfl | ⟨a1, b, rfl⟩
  · have := List.append_inj' h rfl
    simp only [List.cons.injEq, and_true] at this
    exact Or.inl ⟨this.1.symm, this.2.symm, rfl⟩
  · rw [List.concat_eq_append] at h ⊢
    have h2 : l ++ [x] = (before ++ y :: a1) ++ [b] := by simpa using h
    have := List.append_inj' h2 rfl
    simp only [List.cons.injEq, and_true] at this
    exact Or.inr ⟨a1, by rw [this.2], this.1⟩

theorem id_established_nil : ¬ id_established [] := by
  rintro ⟨before, id, rc, after, h, _⟩
  simp at h

theorem id_established_snoc_set (requests : List (ManagerCall × Int)) (id : CStr) (rc : Int)
    (hid : id ≠ []) (hrc : 0 ≤ rc) : id_established (requests ++ [(.set_id id, rc)]) :=
  ⟨requests, id, rc, [], rfl, hid, hrc, fun _ h => by simp at h⟩

theorem id_established_snoc_clean (requests : List (ManagerCall × Int)) (rc : Int)
    (hrc : 0 ≤ rc) : ¬ id_established (requests ++ [(.clean, rc)]) := by
  rintro ⟨before, id, rc1, after, h, _, _, hclean⟩
  rcases snoc_eq_append_cons _ _ _ _ _ h with ⟨_, h2, _⟩ | ⟨a1, h2, _⟩
  · simp at h2
  · have := hclean rc (by rw [h2]; simp)
    omega

theorem id_established_snoc (requests : List (ManagerCall × Int)) (c : ManagerCall) (rc : Int)
    (hset : ∀ id, c = .set_id id → rc < 0) (hclean : c = .clean → rc < 0) :
    id_established (requests ++ [(c, rc)]) ↔ id_established requests := by
  constructor
  · rintro ⟨before, id, rc1, after, h, hid, hrc, hafter⟩
    rcases snoc_eq_append_cons _ _ _ _ _ h with ⟨_, h2, _⟩ | ⟨a1, h2, h3⟩
    · simp only [Prod.mk.injEq] at h2
      have := hset id h2.1.symm
      omega
    · exact ⟨before, id, rc1, a1, h3, hid, hrc, fun r hr => hafter r (by rw [h2]; simp [hr])⟩
  · rintro ⟨before, id, rc1, after, h, hid, hrc, hafter⟩
    refine ⟨before, id, rc1, after ++ [(c, rc)], by rw [h]; simp, hid, hrc, ?_⟩
    intro r hr
    rw [List.mem_append] at hr
    rcases hr with hr | hr
    · exact hafter r hr
    · simp only [List.mem_singleton, Prod.mk.injEq] at hr
      rw [hr.2]
      exact hclean hr.1.symm

theorem permissions_guarded_nil : permissions_guarded [] := by
  intro before p rc after h
  simp at h

theorem permissions_guarded_snoc (requests : List (ManagerCall × Int)) (c : ManagerCall)
    (rc : Int) (h : permissions_guarded requests)
    (hc : ∀ p, c = .add_permission p → id_established requests ∧ p ≠ []) :
    permissions_guarded (requests ++ [(c, rc)]) := by
  intro before p rc1 after heq
  rcases snoc_eq_append_cons _ _ _ _ _ heq with ⟨h1, h2, _⟩ | ⟨a1, _, h3⟩
  · simp only [Prod.mk.injEq] at h2
    rw [h1]
    exact hc p h2.1.symm
  · exact h before p rc1 a1 h3

theorem client_invariant_start : client_invariant Client.start :=
  ⟨Or.inl rfl, ⟨fun h => absurd h (by decide), fun h => absurd h id_established_nil⟩,
    permissions_guarded_nil⟩

theorem client_invariant_status (st : Client) (v : Int) (h : client_invariant st) :
    client_invariant { st with last_status := v } := h

/-- Every command keeps the invariant of the globals. -/
theorem client_invariant_effect (m : SecurityManager) (st st1 : Client)
    (h : client_invariant st) (he : command_effect m st st1) : client_invariant st1 := by
  obtain ⟨h01, hiff, hg⟩ := h
  cases he with
  | status v => exact ⟨h01, hiff, hg⟩
  | neutral c h1 h2 h3 =>
    refine ⟨h01, ?_, permissions_guarded_snoc _ _ _ hg (fun p hp => absurd hp (h3 p))⟩
    show st.id_set = 1 ↔ id_established (st.requests ++ [(c, m st.requests c)])
    rw [id_established_snoc _ _ _ (fun id hid => absurd hid (h1 id)) (fun hc => absurd hc h2)]
    exact hiff
  | permission p hp hid =>
    have hone : st.id_set = 1 := by
      rcases h01 with h | h
      · exact absurd h hid
      · exact h
    refine ⟨h01, ?_, permissions_guarded_snoc _ _ _ hg
      (fun q hq => ⟨hiff.1 hone, by cases hq; exact hp⟩)⟩
    show st.id_set = 1 ↔ id_established (st.requests ++ [(_, _)])
    rw [id_established_snoc _ _ _ (fun id hid => by cases hid) (fun hc => by cases hc)]
    exact hiff
  | clean_failed hrc =>
    refine ⟨h01, ?_, permissions_guarded_snoc _ _ _ hg (fun p hp => by cases hp)⟩
    show st.id_set = 1 ↔ id_established (st.requests ++ [(_, _)])
    rw [id_established_snoc _ _ _ (fun id hid => by cases hid) (fun _ => hrc)]
    exact hiff
  | clean_done hrc =>
    refine ⟨Or.inl rfl, ?_, permissions_guarded_snoc _ _ _ hg (fun p hp => by cases hp)⟩
    show (0 : Int) = 1 ↔ id_established (st.requests ++ [(_, _)])
    exact ⟨fun h => absurd h (by decide), fun h => absurd h (id_established_snoc_clean _ _ hrc)⟩
  | id_failed id hid hrc =>
    refine ⟨h01, ?_, permissions_guarded_snoc _ _ _ hg (fun p hp => by cases hp)⟩
    show st.id_set = 1 ↔ id_established (st.requests ++ [(_, _)])
    rw [id_established_snoc _ _ _ (fun _ _ => hrc) (fun hc => by cases hc)]
    exact hiff
  | id_done id hid hrc =>
    refine ⟨Or.inr rfl, ?_, permissions_guarded_snoc _ _ _ hg (fun p hp => by cases hp)⟩
    show (1 : Int) = 1 ↔ id_established (st.requests ++ [(_, _)])
    exact ⟨fun _ => id_established_snoc_set _ _ _ hid hrc, fun _ => rfl⟩

/-- The loop of do_all on words that are all counted in ac, with a turn for
each word: it ends, by a return or by an exit, and keeps every property of the
globals that each command keeps. -/
theorem do_all_spec (m : SecurityManager) (P : Client → Prop)
    (hP : ∀ st st1, P st → command_effect m st st1 → P st1) (quit : Int) (fuel : Nat)
    (st : Client) (av : List CStr) (hfuel : av.length ≤ fuel) (h : P st) :
    ∃ code st1, do_all m fuel st (av.length : Nat) av quit = .done (code, st1) ∧
      P st1 ∧ (quit = 0 → code = none ∨ code = some 0) := by
  induction fuel generalizing st av with
  | zero =>
    have : av = [] := List.length_eq_zero.1 (by omega)
    subst this
    exact ⟨none, st, by simp [do_all], h, fun _ => Or.inl rfl⟩
  | succ fuel ih =>
    cases av with
    | nil => exact ⟨none, st, by simp [do_all], h, fun _ => Or.inl rfl⟩
    | cons w rest =>
      have hac : ¬ (((w :: rest).length : Nat) : Int) = 0 := by
        simp only [List.length_cons]
        omega
      have h0 : P { st with last_status := 0 } := hP st _ h (.status 0)
      rw [do_all, if_neg hac]
      rcases do_any_spec m { st with last_status := 0 } w rest with ⟨_, hq⟩ |
        ⟨_, rc, st1, hr, h1, h2, he⟩
      · rw [hq]
        exact ⟨some 0, _, rfl, h0, fun _ => Or.inr rfl⟩
      · rw [hr]
        simp only []
        have hinv := hP _ st1 h0 he
        by_cases hstop : quit ≠ 0 ∧ (rc ≤ 0 ∨ st1.last_status < 0)
        · rw [if_pos hstop]
          exact ⟨some 1, st1, rfl, hinv, fun hq => absurd hq hstop.1⟩
        · rw [if_neg hstop]
          have hlen : (((w :: rest).length : Nat) : Int) - rc
              = (((w :: rest).drop rc.toNat).length : Nat) := by
            rw [List.length_drop]
            omega
          rw [hlen]
          exact ih st1 _ (by rw [List.length_drop]; simp only [List.length_cons] at hfuel ⊢; omega)
            hinv

theorem main_lines_spec (m : SecurityManager) (P : Client → Prop)
    (hP : ∀ st st1, P st → command_effect m st st1 → P st1) (lines : List (List CStr))
    (st : Client) (hlines : ∀ words ∈ lines, words.length < 40) (h : P st) :
    ∃ code st1, main_lines m lines st = .done (code, st1) ∧ P st1 ∧
      (code = none ∨ code = some 0) := by
  induction lines generalizing st with
  | nil => exact ⟨none, st, rfl, h, Or.inl rfl⟩
  | cons words lines ih =>
    have hw := hlines words (List.mem_cons_self _ _)
    obtain ⟨code, st1, hall, h1, hcode⟩ :=
      do_all_spec m P hP 0 words.length st words (Nat.le_refl _) h
    rw [main_lines, if_neg (by omega), hall]
    rcases hcode rfl with rfl | rfl
    · exact ih st1 (fun l hl => hlines l (List.mem_cons_of_mem _ hl)) h1
    · exact ⟨some 0, st1, rfl, h1, Or.inr rfl⟩

theorem plink_one (w : CStr) (rest : List CStr) (hw : w ≠ ";".toList) :
    plink ((w :: rest).length : Nat) (w :: rest) 1 = .done (1, 1) := by
  have hmin : min (w :: rest).length (1 : Int).toNat = 1 := by
    simp only [List.length_cons, Int.toNat_one]
    omega
  have hw2 : decide (w = [';']) = false := decide_eq_false hw
  rw [plink_eq (w :: rest) 1 (by decide), hmin]
  simp [List.findIdx_cons, hw2]

theorem plink_two (w a : CStr) (rest : List CStr) (hw : w ≠ ";".toList) :
    plink ((w :: a :: rest).length : Nat) (w :: a :: rest) 2
      = .done (if a = ";".toList then (1, 2) else (2, 2)) := by
  have hmin : min (w :: a :: rest).length (2 : Int).toNat = 2 := by
    simp only [List.length_cons]
    have : (2 : Int).toNat = 2 := rfl
    omega
  have hw2 : decide (w = [';']) = false := decide_eq_false hw
  rw [plink_eq (w :: a :: rest) 2 (by decide), hmin]
  by_cases ha : a = [';']
  · simp [List.findIdx_cons, hw2, ha]
  · have ha2 : decide (a = [';']) = false := decide_eq_false ha
    simp [List.findIdx_cons, hw2, ha2, ha]

/-- Counterexample to C22: the action permission urn:AGL:perm::scope-platform
given on the command line while no id is set.  do_permission returns without
touching last_status, which do_all has just set to 0: no request is made, the
batch goes on and the process exits with the status 0.  Likewise after a
clean: the permission is not forwarded, the command that follows it is run,
and the exit status is 0. -/
theorem do_permission_without_id_counterexample :
    do_permission manager_ok Client.start 2
        ["permission".toList, "urn:AGL:perm::scope-platform".toList]
      = .done (2, Client.start) ∧
    Client.start.last_status = 0 ∧
    main_actions manager_ok ["permission".toList, "urn:AGL:perm::scope-platform".toList]
      = .done (0, Client.start) ∧
    main_actions manager_ok ["id".toList, "x".toList, "clean".toList, "permission".toList,
        "urn:AGL:perm::scope-platform".toList, "display".toList]
      = .done (0, ⟨0, 0,
          [(.set_id "x".toList, 0), (.clean, 0), (.display, 0)]⟩) :=
  ⟨rfl, rfl, rfl, rfl⟩

/-- C22 (amended): a permission command issued while id_set is 0 is not
forwarded and is not reported as a failure: do_permission returns the number
of words used, between 1 and ac, and leaves the globals, last_status included,
as they are; so the loop of do_all, in one-shot mode as in interactive mode,
goes on with the words that follow, last_status being 0. -/
theorem do_permission_without_id (m : SecurityManager) (st : Client) (rest : List CStr)
    (hset : st.id_set = 0) :
    ∃ uc : Int, 1 ≤ uc ∧ uc ≤ (("permission".toList :: rest).length : Nat) ∧
      do_permission m st (("permission".toList :: rest).length : Nat)
        ("permission".toList :: rest) = .done (uc, st) ∧
      ∀ fuel quit,
        do_all m (fuel + 1) st (("permission".toList :: rest).length : Nat)
            ("permission".toList :: rest) quit
          = do_all m fuel { st with last_status := 0 }
              ((("permission".toList :: rest).drop uc.toNat).length : Nat)
              (("permission".toList :: rest).drop uc.toNat) quit := by
  obtain ⟨n, uc, hpl, h1, h2, h3, _⟩ :=
    plink_command "permission".toList rest 2 (by decide) (by decide)
  have hperm : ∀ st1 : Client, st1.id_set = 0 →
      do_permission m st1 (("permission".toList :: rest).length : Nat)
        ("permission".toList :: rest) = .done (uc, st1) := by
    intro st1 h0
    rw [do_permission, hpl]
    simp only []
    rw [if_pos h0]
  refine ⟨uc, by omega, h3, hperm st hset, fun fuel quit => ?_⟩
  have hac : ¬ ((("permission".toList :: rest).length : Nat) : Int) = 0 := by
    simp only [List.length_cons]
    omega
  have hany : do_any m { st with last_status := 0 }
      (("permission".toList :: rest).length : Nat) ("permission".toList :: rest)
      = .done (.returned uc { st with last_status := 0 }) := by
    rw [do_any, if_neg hac]
    simp only [List.getElem?_cons_zero]
    rw [if_neg (by decide), if_neg (by decide), if_neg (by decide), if_neg (by decide),
      if_neg (by decide), if_pos trivial,
      hperm { st with last_status := 0 } hset]
    rfl
  have hlen : ((("permission".toList :: rest).length : Nat) : Int) - uc
      = ((("permission".toList :: rest).drop uc.toNat).length : Nat) := by
    rw [List.length_drop]
    omega
  rw [do_all, if_neg hac, hany]
  simp only []
  rw [if_neg (by
    rintro ⟨_, h | h⟩
    · omega
    · exact absurd h (by decide)), hlen]

/-- Witness of C22 (amended): the action permission
urn:AGL:perm::scope-platform from the initial state. -/
theorem do_permission_without_id_witness :
    ∃ uc : Int, 1 ≤ uc ∧ uc ≤ 2 ∧
      do_permission manager_ok Client.start 2
        ["permission".toList, "urn:AGL:perm::scope-platform".toList]
        = .done (uc, Client.start) :=
  (do_permission_without_id manager_ok Client.start ["urn:AGL:perm::scope-platform".toList]
    rfl).imp fun _ h => ⟨h.1, h.2.1, h.2.2.1⟩

/-! ## What resets id_set -/

/-- Counterexample to C23: the batch id x install permission p on a server
that accepts every request.  After the install, which succeeds, id_set is
still 1 and the permission is forwarded. -/
theorem install_keeps_id_set_counterexample :
    main_actions manager_ok
        ["id".toList, "x".toList, "install".toList, "permission".toList, "p".toList]
      = .done (0, ⟨0, 1,
          [(.set_id "x".toList, 0), (.install, 0),
            (.add_permission "p".toList, 0)]⟩) ∧
    main_actions manager_ok
        ["id".toList, "x".toList, "uninstall".toList, "permission".toList, "p".toList]
      = .done (0, ⟨0, 1,
          [(.set_id "x".toList, 0), (.uninstall, 0),
            (.add_permission "p".toList, 0)]⟩) :=
  ⟨rfl, rfl⟩

/-- C23 (amended): id_set is reset by clean only.  The command clean makes the
request and, when its status is not negative, sets id_set to 0, after which a
permission command makes no request.  The commands install and uninstall make
their request and leave id_set as it was, whatever the status: when id_set is
1, a permission command that follows (a non-empty permission) is forwarded. -/
theorem id_set_reset_by_clean_only (m : SecurityManager) (st : Client) (rest : List CStr) :
    do_clean m st (("clean".toList :: rest).length : Nat) ("clean".toList :: rest)
      = .done (1, if m st.requests .clean < 0 then st.request m .clean
          else { st.request m .clean with id_set := 0 }) ∧
    (∀ ac av uc st1, st.id_set = 0 → do_permission m st ac av = .done (uc, st1) → st1 = st) ∧
    do_install m st (("install".toList :: rest).length : Nat) ("install".toList :: rest)
      = .done (1, st.request m .install) ∧
    (st.request m .install).id_set = st.id_set ∧
    do_uninstall m st (("uninstall".toList :: rest).length : Nat) ("uninstall".toList :: rest)
      = .done (1, st.request m .uninstall) ∧
    (st.request m .uninstall).id_set = st.id_set ∧
    (∀ p more, st.id_set = 1 → p ≠ [] → p ≠ ";".toList →
      do_permission m st (("permission".toList :: p :: more).length : Nat)
          ("permission".toList :: p :: more)
        = .done (2, st.request m (.add_permission p))) := by
  refine ⟨?_, ?_, ?_, rfl, ?_, rfl, ?_⟩
  · rw [do_clean, plink_one _ _ (by decide)]
    simp only []
    rw [if_neg (by decide)]
    split_ifs with h h2 h2
    · rfl
    · exact absurd h h2
    · exact absurd h2 h
    · rfl
  · intro ac av uc st1 hset h
    unfold do_permission at h
    cases hp : plink ac av 2 with
    | undefined => rw [hp] at h; cases h
    | out_of_fuel => rw [hp] at h; cases h
    | done r =>
      obtain ⟨n, uc1⟩ := r
      rw [hp] at h
      simp only [if_pos hset, Run.done.injEq, Prod.mk.injEq] at h
      exact h.2.symm
  · rw [do_install, plink_one _ _ (by decide)]
    simp only []
    rw [if_neg (by decide)]
  · rw [do_uninstall, plink_one _ _ (by decide)]
    simp only []
    rw [if_neg (by decide)]
  · intro p more hset hp hsep
    rw [do_permission, plink_two _ _ _ (by decide), if_neg hsep]
    simp only [List.getElem?_cons_succ, List.getElem?_cons_zero]
    rw [if_neg (by omega), if_neg (by decide), if_neg (by
      intro h
      exact hp (List.length_eq_zero.1 (by omega)))]

/-- Witness of C23 (amended): after a clean that succeeds, the permission p is
not forwarded. -/
theorem id_set_reset_by_clean_only_witness :
    do_permission manager_ok
        { (Client.request manager_ok ⟨0, 1, []⟩ .clean) with id_set := 0 } 2
        ["permission".toList, "p".toList]
      = .done (2, { (Client.request manager_ok ⟨0, 1, []⟩ .clean) with id_set := 0 }) :=
  congrArg (fun st => Run.done (2, st))
    ((id_set_reset_by_clean_only manager_ok
      { (Client.request manager_ok ⟨0, 1, []⟩ .clean) with id_set := 0 } []).2.1 2
      ["permission".toList, "p".toList] 2 _ rfl rfl)

/-- Counterexample to C24: from the initial state, where no id is set, the
command permission without an argument, or with an empty one, makes no request
and does not yield -EINVAL either: do_permission returns before its tests on
the argument and last_status is left at 0. -/
theorem do_permission_no_einval_counterexample :
    do_permission manager_ok Client.start 1 ["permission".toList] = .done (1, Client.start) ∧
    do_permission manager_ok Client.start 2 ["permission".toList, []] = .done (2, Client.start) ∧
    main_actions manager_ok ["permission".toList, []] = .done (0, Client.start) ∧
    Client.start.last_status ≠ -EINVAL :=
  ⟨rfl, rfl, rfl, by decide⟩

/-- C24 (amended): over the actions of a command line and over the lines of
the standard input (fewer than 40 words each), from the initial state, the
client ends with globals such that every add_permission request was made with
a non-empty permission after a set_id request with a non-empty id that
succeeded and with no successful clean request in between, and id_set is 1
exactly when the requests made so far establish the id in this way.  A
permission command with a missing or an empty argument makes no request; it
sets last_status to -EINVAL when id_set is not 0, and leaves last_status as it
is when id_set is 0. -/
theorem add_permission_guarded (m : SecurityManager) (words : List CStr)
    (lines : List (List CStr)) (rest : List CStr) (st : Client) :
    (∃ code st1, main_actions m words = .done (code, st1) ∧
      permissions_guarded st1.requests ∧ (st1.id_set = 1 ↔ id_established st1.requests)) ∧
    ((∀ l ∈ lines, l.length < 40) →
      ∃ code st1, main_lines m lines Client.start = .done (code, st1) ∧
        permissions_guarded st1.requests ∧ (st1.id_set = 1 ↔ id_established st1.requests)) ∧
    ((rest.head? = none ∨ rest.head? = some ";".toList ∨ rest.head? = some []) →
      ∃ uc, do_permission m st (("permission".toList :: rest).length : Nat)
          ("permission".toList :: rest)
        = .done (uc, if st.id_set = 0 then st else { st with last_status := -EINVAL })) := by
  refine ⟨?_, fun hlines => ?_, fun hrest => ?_⟩
  · obtain ⟨code, st1, h, hinv, _⟩ := do_all_spec m client_invariant
      (client_invariant_effect m) 1 words.length Client.start words (Nat.le_refl _)
      client_invariant_start
    unfold main_actions
    rw [h]
    cases code with
    | none => exact ⟨_, _, rfl, hinv.2.2, hinv.2.1⟩
    | some c => exact ⟨_, _, rfl, hinv.2.2, hinv.2.1⟩
  · obtain ⟨code, st1, h, hinv, _⟩ := main_lines_spec m client_invariant
      (client_invariant_effect m) lines Client.start hlines client_invariant_start
    exact ⟨code, st1, h, hinv.2.2, hinv.2.1⟩
  · cases rest with
    | nil =>
      refine ⟨1, ?_⟩
      rw [do_permission]
      have hp : plink ((["permission".toList] : List CStr).length : Nat) ["permission".toList] 2
          = .done (1, 1) := rfl
      rw [hp]
      simp only []
      split_ifs <;> first | rfl | omega
    | cons a rest =>
      refine ⟨2, ?_⟩
      rw [do_permission, plink_two _ _ _ (by decide)]
      simp only [List.head?_cons, reduceCtorEq, Option.some.injEq, false_or] at hrest
      rcases hrest with ha | ha
      · rw [if_pos ha]
        simp only []
        split_ifs <;> first | rfl | omega
      · have hne : ¬ a = ";".toList := by rw [ha]; decide
        rw [if_neg hne]
        simp only [List.getElem?_cons_succ, List.getElem?_cons_zero]
        subst ha
        split_ifs with h1 h2 h3 <;> first | rfl | omega | (simp at h3)

/-- Witness of C24 (amended): two lines, id x then permission p. -/
theorem add_permission_guarded_witness :
    ∃ code st1, main_lines manager_ok
        [["id".toList, "x".toList], ["permission".toList, "p".toList]] Client.start
        = .done (code, st1) ∧
      permissions_guarded st1.requests ∧ (st1.id_set = 1 ↔ id_established st1.requests) :=
  (add_permission_guarded manager_ok []
    [["id".toList, "x".toList], ["permission".toList, "p".toList]] [] Client.start).2.1
    (by decide)

/-! ## The loop of do_all -/

/-- C30: for every non-empty list of words, all counted in ac, and every state
of the globals, a command other than quit returns through do_any a number of
used words rc with 1 <= rc <= ac.  In interactive mode (quit = 0) the loop of
do_all, given a turn for each word, ends: it never reads past the words, it
returns or stops at a quit command with exit(0), never with exit(1); and after
each command, whatever last_status it left, the loop goes on with the words
that follow the rc words used. -/
theorem do_all_interactive (m : SecurityManager) (st : Client) (w : CStr) (rest : List CStr) :
    (w ≠ "quit".toList →
      ∃ rc st1, do_any m st ((w :: rest).length : Nat) (w :: rest) = .done (.returned rc st1) ∧
        1 ≤ rc ∧ rc ≤ ((w :: rest).length : Nat)) ∧
    (∀ fuel, (w :: rest).length ≤ fuel →
      ∃ code st1, do_all m fuel st ((w :: rest).length : Nat) (w :: rest) 0 = .done (code, st1) ∧
        (code = none ∨ code = some 0)) ∧
    (∀ fuel rc st1,
      do_any m { st with last_status := 0 } ((w :: rest).length : Nat) (w :: rest)
        = .done (.returned rc st1) →
      1 ≤ rc ∧ rc ≤ ((w :: rest).length : Nat) ∧
      do_all m (fuel + 1) st ((w :: rest).length : Nat) (w :: rest) 0
        = do_all m fuel st1 (((w :: rest).drop rc.toNat).length : Nat)
            ((w :: rest).drop rc.toNat) 0) := by
  refine ⟨fun hq => ?_, fun fuel hfuel => ?_, fun fuel rc st1 h => ?_⟩
  · rcases do_any_spec m st w rest with ⟨h, _⟩ | ⟨_, rc, st1, h, h1, h2, _⟩
    · exact absurd h hq
    · exact ⟨rc, st1, h, h1, h2⟩
  · obtain ⟨code, st1, h, _, hcode⟩ := do_all_spec m (fun _ => True) (fun _ _ _ _ => trivial) 0
      fuel st (w :: rest) hfuel trivial
    exact ⟨code, st1, h, hcode rfl⟩
  · have hac : ¬ (((w :: rest).length : Nat) : Int) = 0 := by
      simp only [List.length_cons]
      omega
    rcases do_any_spec m { st with last_status := 0 } w rest with ⟨_, hq⟩ |
      ⟨_, rc1, st2, hr, h1, h2, _⟩
    · rw [hq] at h
      cases h
    · rw [hr] at h
      cases h
      refine ⟨h1, h2, ?_⟩
      have hlen : (((w :: rest).length : Nat) : Int) - rc
          = (((w :: rest).drop rc.toNat).length : Nat) := by
        rw [List.length_drop]
        omega
      rw [do_all, if_neg hac, hr]
      simp only []
      rw [if_neg (by simp), hlen]

/-- Witness of C30: the batch id ; id x.  The first command fails (an argument
is missing) and uses two words; the loop goes on and the second command sets
the id. -/
theorem do_all_interactive_witness :
    (∃ rc st1, do_any manager_ok Client.start 4
        ["id".toList, ";".toList, "id".toList, "x".toList] = .done (.returned rc st1) ∧
      1 ≤ rc ∧ rc ≤ 4) ∧
    do_all manager_ok 4 Client.start 4 ["id".toList, ";".toList, "id".toList, "x".toList] 0
      = .done (none, ⟨0, 1, [(.set_id "x".toList, 0)]⟩) :=
  ⟨(do_all_interactive manager_ok Client.start "id".toList
    [";".toList, "id".toList, "x".toList]).1 (by decide), rfl⟩

/-! ## The ids and the directories of the daemon -/

/-- The loop of isid stops once the value is INT_MAX: what follows the digits
2147483647 is not read. -/
theorem isid_int_max_start (text : CStr) :
    isid ("2147483647".toList ++ text) = 2147483647 := by
  cases text with
  | nil => decide
  | cons c text =>
    show isid_loop (c :: text) 2147483647 = 2147483647
    rw [isid_loop]
    rw [if_neg (by decide), if_pos (by decide)]

/-- C26, the code at failing inputs: the loop of isid stops as soon as the
value reaches INT_MAX, without looking at the bytes that are left.  The text
2147483647x, which holds a byte that is not a digit, and the text 21474836470,
whose value is above INT_MAX, are both given the value 2147483647.  Other
texts are handled as the comment of isid says. -/
theorem isid_stops_at_int_max :
    isid "2147483647x".toList = 2147483647 ∧
    isid "21474836470".toList = 2147483647 ∧
    isid "1000".toList = 1000 ∧ isid "2147483647".toList = 2147483647 ∧
    isid "2147483648".toList = -1 ∧ isid "12a".toList = -1 ∧ isid "root".toList = -1 := by
  refine ⟨isid_int_max_start "x".toList, isid_int_max_start "0".toList, ?_, ?_, ?_, ?_, ?_⟩ <;>
    decide

theorem dropWhile_head (p : Char → Bool) (l rest : CStr) (x : Char)
    (h : l.dropWhile p = x :: rest) : p x = false := by
  have := List.head?_dropWhile_not p l
  rw [h] at this
  simpa using this

theorem dropWhile_stop (p : Char → Bool) (v : CStr)
    (hv : ∀ x, v.head? = some x → p x = false) : v.dropWhile p = v := by
  cases v with
  | nil => rfl
  | cons x v =>
    have := hv x rfl
    rw [List.dropWhile_cons_of_neg (by simp [this])]

theorem dropWhile_append_stop (p : Char → Bool) (u v : CStr) (hu : ∀ x ∈ u, p x = true)
    (hv : ∀ x, v.head? = some x → p x = false) : (u ++ v).dropWhile p = v := by
  rw [List.dropWhile_append_of_pos hu, dropWhile_stop p v hv]

/-- What the loop of enddir returns: r when only slashes are left, c when one
component is left, and the bytes from the slashes before the last component
when two components or more are left. -/
theorem enddir_loop_spec (fuel : Nat) (i : CStr) (c r : Option CStr) (hfuel : i.length < fuel) :
    ((∀ x ∈ i, x = '/') ∧ enddir_loop fuel i c r = .done r) ∨
    (∃ s l t, i = s ++ l ++ t ∧ (∀ x ∈ s, x = '/') ∧ l ≠ [] ∧ '/' ∉ l ∧ (∀ x ∈ t, x = '/') ∧
      enddir_loop fuel i c r = .done c) ∨
    (∃ a x s l t, i = a ++ [x] ++ s ++ l ++ t ∧ x ≠ '/' ∧ s ≠ [] ∧ (∀ y ∈ s, y = '/') ∧
      l ≠ [] ∧ '/' ∉ l ∧ (∀ y ∈ t, y = '/') ∧
      enddir_loop fuel i c r = .done (some (s ++ l ++ t))) := by
  induction fuel generalizing i c r with
  | zero => omega
  | succ fuel ih =>
    have hs0 : ∀ x ∈ i.takeWhile (fun x => decide (x = '/')), x = '/' := fun x hx => by
      simpa using List.mem_takeWhile_imp hx
    have hi := List.takeWhile_append_dropWhile (fun x => decide (x = '/')) i
    have hi1 := List.takeWhile_append_dropWhile (fun x => decide (x ≠ '/'))
      (i.dropWhile (fun x => decide (x = '/')))
    have hcomp : '/' ∉ (i.dropWhile (fun x => decide (x = '/'))).takeWhile
        (fun x => decide (x ≠ '/')) := fun hm => by
      simpa using List.mem_takeWhile_imp hm
    rw [enddir_loop]
    by_cases h1 : i.dropWhile (fun x => decide (x = '/')) = []
    · left
      rw [h1]
      simp only [List.dropWhile_nil, if_true, ne_eq, not_true_eq_false, if_false]
      refine ⟨?_, trivial⟩
      rw [← hi, h1, List.append_nil]
      exact hs0
    · have hcne : (i.dropWhile (fun x => decide (x = '/'))).takeWhile
          (fun x => decide (x ≠ '/')) ≠ [] := by
        obtain ⟨x, rest, hx⟩ := List.exists_cons_of_ne_nil h1
        have := dropWhile_head _ _ _ _ hx
        rw [hx, List.takeWhile_cons]
        simp only [decide_eq_false_iff_not] at this
        simp [this]
      right
      by_cases h2 : (i.dropWhile (fun x => decide (x = '/'))).dropWhile
          (fun x => decide (x ≠ '/')) = []
      · left
        rw [if_pos h2, if_pos h1]
        refine ⟨_, _, [], ?_, hs0, hcne, hcomp, fun _ h => by simp at h, rfl⟩
        rw [h2, List.append_nil] at hi1
        rw [List.append_nil, hi1, hi]
      · rw [if_neg h2, if_pos h1]
        have hlen : ((i.dropWhile (fun x => decide (x = '/'))).dropWhile
            (fun x => decide (x ≠ '/'))).length < fuel := by
          have e1 := congrArg List.length hi
          have e2 := congrArg List.length hi1
          have e3 := List.length_pos.2 hcne
          simp only [List.length_append] at e1 e2
          omega
        have hhead : ∀ x rest, (i.dropWhile (fun x => decide (x = '/'))).dropWhile
            (fun x => decide (x ≠ '/')) = x :: rest → x = '/' := fun x rest hx => by
          simpa using dropWhile_head _ _ _ _ hx
        have hwhole : i = i.takeWhile (fun x => decide (x = '/'))
            ++ (i.dropWhile (fun x => decide (x = '/'))).takeWhile (fun x => decide (x ≠ '/'))
            ++ (i.dropWhile (fun x => decide (x = '/'))).dropWhile
              (fun x => decide (x ≠ '/')) := by
          rw [List.append_assoc, hi1, hi]
        rcases ih _ (some _) c hlen with ⟨hall, hres⟩ | ⟨s, l, t, he, hs, hl, hl2, ht, hres⟩ |
          ⟨a, x, s, l, t, he, hx, hs, hs2, hl, hl2, ht, hres⟩
        · left
          exact ⟨_, _, _, hwhole, hs0, hcne, hcomp, hall, hres⟩
        · right
          rcases List.eq_nil_or_concat ((i.dropWhile (fun x => decide (x = '/'))).takeWhile
            (fun x => decide (x ≠ '/'))) with hnil | ⟨comp0, x, hcx⟩
          · exact absurd hnil hcne
          · rw [List.concat_eq_append] at hcx
            have hxne : x ≠ '/' := fun e => hcomp (by rw [hcx, e]; simp)
            have hsne : s ≠ [] := by
              rintro rfl
              obtain ⟨y, l1, rfl⟩ := List.exists_cons_of_ne_nil hl
              have := hhead y (l1 ++ t) (by rw [he]; rfl)
              exact hl2 (by rw [this]; simp)
            refine ⟨i.takeWhile (fun x => decide (x = '/')) ++ comp0, x, s, l, t, ?_, hxne, hsne,
              hs, hl, hl2, ht, hres.trans (by rw [he])⟩
            conv_lhs => rw [hwhole, hcx, he]
            simp only [List.append_assoc]
        · right
          refine ⟨i.takeWhile (fun x => decide (x = '/'))
            ++ (i.dropWhile (fun x => decide (x = '/'))).takeWhile (fun x => decide (x ≠ '/'))
            ++ a, x, s, l, t, ?_, hx, hs, hs2, hl, hl2, ht, hres⟩
          conv_lhs => rw [hwhole, he]
          simp only [List.append_assoc]

theorem head_append_mem (u w : CStr) (y : Char) (hu : u ≠ []) (h : (u ++ w).head? = some y) :
    y ∈ u := by
  cases u with
  | nil => exact absurd rfl hu
  | cons a u =>
    simp only [List.cons_append, List.head?_cons, Option.some.injEq] at h
    simp [h]

/-- Read from its end, a path with at most one component has nothing before
the slashes that precede this component. -/
theorem before_last_component_nil (s l t : CStr) (hs : ∀ x ∈ s, x = '/') (hl : '/' ∉ l)
    (ht : ∀ x ∈ t, x = '/') :
    (((s ++ l ++ t).reverse.dropWhile (fun x => decide (x = '/'))).dropWhile
      (fun x => decide (x ≠ '/'))).dropWhile (fun x => decide (x = '/')) = [] := by
  have hrev : (s ++ l ++ t).reverse = t.reverse ++ (l.reverse ++ s.reverse) := by simp
  have hsr : s.reverse.dropWhile (fun x => decide (x = '/')) = [] := by
    rw [List.dropWhile_eq_nil_iff]
    intro x hx
    simpa using hs x (List.mem_reverse.1 hx)
  rw [hrev, List.dropWhile_append_of_pos (fun x hx => by simpa using ht x (List.mem_reverse.1 hx))]
  by_cases hne : l = []
  · subst hne
    rw [List.reverse_nil, List.nil_append, hsr]
    rfl
  · have hlr : l.reverse ≠ [] := fun e => hne (List.reverse_eq_nil_iff.1 e)
    rw [dropWhile_stop _ (l.reverse ++ s.reverse)
      (fun y hy => by
        have := head_append_mem _ _ _ hlr hy
        simp only [decide_eq_false_iff_not]
        exact fun e => hl (e ▸ List.mem_reverse.1 this)),
      dropWhile_append_stop _ l.reverse s.reverse
        (fun y hy => by
          simp only [ne_eq, decide_not, Bool.not_eq_true', decide_eq_false_iff_not]
          exact fun e => hl (e ▸ List.mem_reverse.1 hy))
        (fun y hy => by
          have hm : y ∈ s.reverse := List.mem_of_mem_head? hy
          simp [hs y (List.mem_reverse.1 hm)]), hsr]

/-- Read from its end, a path with two components or more has, before the
slashes that precede its last component, the bytes up to the end of the
component before. -/
theorem before_last_component_cons (a s l t : CStr) (x : Char) (hx : x ≠ '/')
    (hs : ∀ y ∈ s, y = '/') (hsne : s ≠ []) (hl : '/' ∉ l) (hlne : l ≠ [])
    (ht : ∀ y ∈ t, y = '/') :
    (((a ++ [x] ++ s ++ l ++ t).reverse.dropWhile (fun x => decide (x = '/'))).dropWhile
      (fun x => decide (x ≠ '/'))).dropWhile (fun x => decide (x = '/')) = x :: a.reverse := by
  have hrev : (a ++ [x] ++ s ++ l ++ t).reverse
      = t.reverse ++ (l.reverse ++ (s.reverse ++ x :: a.reverse)) := by simp
  have hlr : l.reverse ≠ [] := fun e => hlne (List.reverse_eq_nil_iff.1 e)
  have hsr : s.reverse ≠ [] := fun e => hsne (List.reverse_eq_nil_iff.1 e)
  rw [hrev, dropWhile_append_stop _ t.reverse _
      (fun y hy => by simpa using ht y (List.mem_reverse.1 hy))
      (fun y hy => by
        have := head_append_mem _ _ _ hlr hy
        simp only [decide_eq_false_iff_not]
        exact fun e => hl (e ▸ List.mem_reverse.1 this)),
    dropWhile_append_stop _ l.reverse _
      (fun y hy => by
        simp only [ne_eq, decide_not, Bool.not_eq_true', decide_eq_false_iff_not]
        exact fun e => hl (e ▸ List.mem_reverse.1 hy))
      (fun y hy => by
        have := head_append_mem _ _ _ hsr hy
        simp [hs y (List.mem_reverse.1 this)]),
    dropWhile_append_stop _ s.reverse _
      (fun y hy => by simpa using hs y (List.mem_reverse.1 hy))
      (fun y hy => by
        simp only [List.head?_cons, Option.some.injEq] at hy
        simp only [decide_eq_false_iff_not]
        exact hy ▸ hx)]

/-- C27: enddir returns for every path.  When the path is a part that ends
with a byte other than '/' (so it has a component), then a run of slashes,
then a last component and the slashes after it, if any, enddir returns the
pointer to the first slash of this run, that is the bytes from it to the end.
When the path has one component at most (slashes, a component if any,
slashes), enddir returns NULL.  Every path is of one of the two forms.  As the
comment of enddir says, / and /xxx and /xxx/ give NULL, /xxx/y gives /y and
/xxx//y gives //y. -/
theorem enddir_last_separator (path : CStr) :
    (∀ a x s l t, path = a ++ [x] ++ s ++ l ++ t → x ≠ '/' → s ≠ [] → (∀ y ∈ s, y = '/') →
      l ≠ [] → '/' ∉ l → (∀ y ∈ t, y = '/') → enddir path = .done (some (s ++ l ++ t))) ∧
    (∀ s l t, path = s ++ l ++ t → (∀ y ∈ s, y = '/') → '/' ∉ l → (∀ y ∈ t, y = '/') →
      enddir path = .done none) ∧
    ((∃ a x s l t, path = a ++ [x] ++ s ++ l ++ t ∧ x ≠ '/' ∧ s ≠ [] ∧ (∀ y ∈ s, y = '/') ∧
        l ≠ [] ∧ '/' ∉ l ∧ (∀ y ∈ t, y = '/')) ∨
      (∃ s l t, path = s ++ l ++ t ∧ (∀ y ∈ s, y = '/') ∧ '/' ∉ l ∧ (∀ y ∈ t, y = '/'))) ∧
    enddir "/".toList = .done none ∧ enddir "/xxx".toList = .done none ∧
    enddir "/xxx/".toList = .done none ∧ enddir "/xxx/y".toList = .done (some "/y".toList) ∧
    enddir "/xxx//y".toList = .done (some "//y".toList) := by
  have hloop := enddir_loop_spec (path.length + 1) path none none (Nat.lt_succ_self _)
  refine ⟨?_, ?_, ?_, rfl, rfl, rfl, rfl, rfl⟩
  · intro a x s l t hp hx hsne hs hlne hl ht
    have hkey := before_last_component_cons a s l t x hx hs hsne hl hlne ht
    rw [← hp] at hkey
    rcases hloop with ⟨hall, _⟩ | ⟨s1, l1, t1, he, hs1, _, hl1, ht1, _⟩ |
      ⟨a1, x1, s1, l1, t1, he, hx1, hsne1, hs1, hlne1, hl1, ht1, hres⟩
    · have := before_last_component_nil path [] [] hall (by simp) (by simp)
      rw [List.append_nil, List.append_nil, hkey] at this
      cases this
    · have := before_last_component_nil s1 l1 t1 hs1 hl1 ht1
      rw [← he, hkey] at this
      cases this
    · have hkey1 := before_last_component_cons a1 s1 l1 t1 x1 hx1 hs1 hsne1 hl1 hlne1 ht1
      rw [← he, hkey] at hkey1
      simp only [List.cons.injEq, List.reverse_inj] at hkey1
      obtain ⟨rfl, rfl⟩ := hkey1
      have : s ++ l ++ t = s1 ++ l1 ++ t1 := by
        have h2 := hp.symm.trans he
        simp only [List.append_assoc] at h2 ⊢
        exact List.append_cancel_left (List.append_cancel_left h2)
      rw [this]
      exact hres
  · intro s l t hp hs hl ht
    have hkey := before_last_component_nil s l t hs hl ht
    rw [← hp] at hkey
    rcases hloop with ⟨_, hres⟩ | ⟨_, _, _, _, _, _, _, _, hres⟩ |
      ⟨a1, x1, s1, l1, t1, he, hx1, hsne1, hs1, hlne1, hl1, ht1, _⟩
    · exact hres
    · exact hres
    · have hkey1 := before_last_component_cons a1 s1 l1 t1 x1 hx1 hs1 hsne1 hl1 hlne1 ht1
      rw [← he, hkey] at hkey1
      cases hkey1
  · rcases hloop with ⟨hall, _⟩ | ⟨s1, l1, t1, he, hs1, _, hl1, ht1, _⟩ |
      ⟨a1, x1, s1, l1, t1, he, hx1, hsne1, hs1, hlne1, hl1, ht1, _⟩
    · exact Or.inr ⟨path, [], [], by simp, hall, by simp, by simp⟩
    · exact Or.inr ⟨s1, l1, t1, he, hs1, hl1, ht1⟩
    · exact Or.inl ⟨a1, x1, s1, l1, t1, he, hx1, hsne1, hs1, hlne1, hl1, ht1⟩

/-- Witness of C27: the path /var/run//smd/ has the last component smd, after
the slashes // that follow /var/run. -/
theorem enddir_last_separator_witness :
    enddir "/var/run//smd/".toList = .done (some "//smd/".toList) :=
  (enddir_last_separator "/var/run//smd/".toList).1 "/var/ru".toList 'n' "//".toList
    "smd".toList "/".toList rfl (by decide) (by decide) (by decide) (by decide) (by decide)
    (by decide)

end SecLsmManager
